import Mathlib

/-!
Verification of the SGF core of the tesuji repository: game-tree arena,
SGF parser/serializer, board replay engine and editor command layer.

Rust sources embedded here:
  * `src/sgf/node.rs`   — `GoCoord`, `Komi`, `Charset`, `FileFormat`,
    `GameType`, `SGFProperty` and their `Display`/`FromStr` impls;
  * `src/sgf/tree.rs`   — `GameTree`, `TreeNode`, `add_node`, `remove_subtree`;
  * `src/sgf/board.rs`  — `Board`, `Board::from_tree`, `apply_captures`,
    `find_group`, `count_liberties`, `orthogonal_neighbors`;
  * `src/sgf/serializer.rs` — `write_sgf`;
  * `src/sgf/parser.rs` — `parse_sgf` (the grammar file `sgf.pest` is not part
    of the sources; the structural grammar is modelled from the spec);
  * `src/editor/mod.rs` — `Editor`, `EditCommand`, `Editor::apply`.

Machine integers are modelled as `Nat`/`Int`; the `u16` capture counters wrap
mod 2^16 where the Rust code adds to them.  Rust operations that can panic
(`Vec` indexing, array indexing out of bounds) are modelled with `Option`:
a `none` result marks a panic of the original program.
-/

namespace Tesuji

/-- Cell state of a board intersection (src/sgf/board.rs `Cell`). -/
inductive Cell where
  | Empty
  | Black
  | White
deriving DecidableEq, Repr

/-- `Cell::opposite` (src/sgf/board.rs). -/
def Cell.opposite : Cell → Cell
  | .Empty => .Empty
  | .Black => .White
  | .White => .Black

/-- Go board coordinate: two 5-bit values packed into a `u16`,
bits [4:0] = first char, bits [9:5] = second char (src/sgf/node.rs `GoCoord`). -/
structure GoCoord where
  val : Nat
deriving DecidableEq, Repr

/-- Parse error: a message plus the offending source text
(models `pest_consume::Error` / `anyhow::Error` with the offending span). -/
structure Err where
  msg : String
  offending : String
deriving DecidableEq, Repr

/-- The per-character encoder inside `GoCoord::new`: an ASCII lowercase letter
in `a`–`s` maps to its 0-based index, everything else is rejected. -/
def GoCoord.encodeChar (c : Char) : Option Nat :=
  if 'a' ≤ c ∧ c ≤ 'z' then
    let v := c.toNat - 'a'.toNat
    if v < 19 then some v else none
  else none

/-- `GoCoord::new` (src/sgf/node.rs): validates both characters and packs
them as `a | (b << 5)`. -/
def GoCoord.new (a b : Char) : Except Err GoCoord :=
  match GoCoord.encodeChar a with
  | none => .error ⟨"Invalid Go coordinate: first char", String.mk [a]⟩
  | some x =>
    match GoCoord.encodeChar b with
    | none => .error ⟨"Invalid Go coordinate: second char", String.mk [b]⟩
    | some y => .ok ⟨x + 32 * y⟩

/-- `GoCoord::from_colrow` (src/sgf/node.rs): pack without validation. -/
def GoCoord.from_colrow (col row : Nat) : GoCoord :=
  ⟨col % 65536 + 32 * (row % 2048)⟩

/-- `GoCoord::pass` (src/sgf/node.rs): the sentinel `tt`, index 19 on each axis. -/
def GoCoord.pass : GoCoord := ⟨19 + 32 * 19⟩

/-- `GoCoord::is_pass` (src/sgf/node.rs): low five bits equal 19. -/
def GoCoord.is_pass (g : GoCoord) : Bool := g.val % 32 = 19

/-- `GoCoord::first` (src/sgf/node.rs): the first (column) character. -/
def GoCoord.first (g : GoCoord) : Char := Char.ofNat ('a'.toNat + g.val % 32)

/-- `GoCoord::second` (src/sgf/node.rs): the second (row) character. -/
def GoCoord.second (g : GoCoord) : Char := Char.ofNat ('a'.toNat + g.val / 32 % 32)

/-- `FromStr for GoCoord` (src/sgf/node.rs): exactly two characters, then
`GoCoord::new`. -/
def GoCoord.fromString (s : String) : Except Err GoCoord :=
  match s.toList with
  | [a, b] => GoCoord.new a b
  | [] => .error ⟨"Invalid Go coordinate: too short", s⟩
  | [_] => .error ⟨"Invalid Go coordinate: too short", s⟩
  | _ => .error ⟨"Invalid Go coordinate: too long", s⟩

/-- Komi in half points, an `i16` in the source (src/sgf/node.rs `Komi`). -/
structure Komi where
  val : Int
deriving DecidableEq, Repr

/-- Round `num / den` (with `den > 0`) to the nearest integer, halves away
from zero — the semantics of Rust `f64::round` on an exact quotient. -/
def roundAway (num : Int) (den : Nat) : Int :=
  Int.sign num * ((2 * num.natAbs + den) / (2 * den) : Nat)

/-- Saturating cast of an integer into the `i16` range, the semantics of
Rust `as i16` on a float. -/
def satI16 (n : Int) : Int := max (-32768) (min 32767 n)

/-- `Komi::new` (src/sgf/node.rs): `(n * 2.0).round() as i16` where the
input number is the exact rational `num / 10 ^ pow`. -/
def Komi.new (num : Int) (pow : Nat) : Komi :=
  ⟨satI16 (roundAway (2 * num) (10 ^ pow))⟩

/-- `Charset` (src/sgf/node.rs). -/
inductive Charset where
  | UTF8
  | Latin1
  | Other (s : String)
deriving DecidableEq, Repr

/-- `FileFormat` (src/sgf/node.rs). -/
inductive FileFormat where
  | FF1
  | FF2
  | FF3
  | FF4
deriving DecidableEq, Repr

/-- `GameType` (src/sgf/node.rs); the payload of `Other` is a `u8`. -/
inductive GameType where
  | Go
  | Other (n : Nat)
deriving DecidableEq, Repr

/-- `SGFProperty` (src/sgf/node.rs): the closed set of known tags plus the
`Unknown` passthrough variant. `SZ` carries a `u8`. -/
inductive SGFProperty where
  | AP (s : String)
  | B (coord : GoCoord)
  | CA (cs : Charset)
  | DT (s : String)
  | FF (ff : FileFormat)
  | GM (gt : GameType)
  | KM (komi : Komi)
  | W (coord : GoCoord)
  | SZ (n : Nat)
  | AB (coords : List GoCoord)
  | AW (coords : List GoCoord)
  | PB (s : String)
  | PW (s : String)
  | RE (s : String)
  | C (s : String)
  | Unknown (key : String) (values : List String)
deriving DecidableEq, Repr

/-- Node identifier: a plain index into the arena (src/sgf/tree.rs `NodeId`). -/
abbrev NodeId := Nat

/-- `TreeNode` (src/sgf/tree.rs). -/
structure TreeNode where
  properties : List SGFProperty
  parent : Option NodeId
  children : List NodeId
deriving DecidableEq, Repr

/-- `GameTree` (src/sgf/tree.rs): arena plus root list. -/
structure GameTree where
  nodes : List TreeNode
  roots : List NodeId
deriving DecidableEq, Repr

/-- `GameTree::new` (src/sgf/tree.rs): a single empty root node. -/
def GameTree.new : GameTree := ⟨[⟨[], none, []⟩], [0]⟩

/-- `GameTree::node` (src/sgf/tree.rs) is `&self.nodes[id]`; the Rust version
panics when `id` is out of range, modelled here by `none`. -/
def GameTree.node? (t : GameTree) (id : NodeId) : Option TreeNode :=
  t.nodes.get? id

/-- `GameTree::add_node` (src/sgf/tree.rs): push a fresh node at index
`nodes.len()` and append that id to the parent's child list.  The Rust code
panics when `parent` is out of range (`none` here). -/
def GameTree.add_node (t : GameTree) (parent : NodeId) (props : List SGFProperty) :
    Option (GameTree × NodeId) :=
  let id := t.nodes.length
  let nodes1 := t.nodes ++ [⟨props, some parent, []⟩]
  match nodes1.get? parent with
  | none => none
  | some pnode =>
    some (⟨nodes1.set parent { pnode with children := pnode.children ++ [id] }, t.roots⟩, id)

/-- `GameTree::remove_subtree` (src/sgf/tree.rs): unlink `id` from its
parent's child list (`retain` keeps order); nodes stay in the arena.
The Rust code panics when `id` is out of range (`none` here). -/
def GameTree.remove_subtree (t : GameTree) (id : NodeId) : Option GameTree :=
  match t.nodes.get? id with
  | none => none
  | some nd =>
    match nd.parent with
    | none => some t
    | some parent =>
      match t.nodes.get? parent with
      | none => none
      | some pnode =>
        some ⟨t.nodes.set parent
                { pnode with children := pnode.children.filter (fun c => c ≠ id) },
              t.roots⟩

/-- Read a cell of a rectangular grid, with a default outside the grid.
All reachable reads of the capture code are in bounds. -/
def getGrid {α : Type} (d : α) (g : List (List α)) (r c : Nat) : α :=
  ((g.get? r).bind fun row => row.get? c).getD d

/-- Write a cell of a rectangular grid; out-of-range writes are dropped.
All reachable writes of the capture code are in bounds. -/
def setGrid {α : Type} (g : List (List α)) (r c : Nat) (v : α) : List (List α) :=
  match g.get? r with
  | some row => g.set r (row.set c v)
  | none => g

/-- Read of `cells[r][c]`. -/
def getCell (cells : List (List Cell)) (r c : Nat) : Cell :=
  getGrid Cell.Empty cells r c

/-- The assignment `cells[r][c] = v` as it appears in `Board::from_tree`;
the Rust indexing panics out of bounds, modelled by `none`. -/
def setCellChecked (cells : List (List Cell)) (r c : Nat) (v : Cell) :
    Option (List (List Cell)) :=
  match cells.get? r with
  | some row => if c < row.length then some (cells.set r (row.set c v)) else none
  | none => none

/-- A well-formed `n` by `m` grid: `n` rows, each of length `m`. -/
def gridWF {α : Type} (g : List (List α)) (n m : Nat) : Prop :=
  g.length = n ∧ ∀ row ∈ g, row.length = m

/-- Whether a property is a black or white move (`B`/`W`). -/
def isMoveProp : SGFProperty → Bool
  | .B _ => true
  | .W _ => true
  | _ => false

/-- `Board` (src/sgf/board.rs).  The capture counters are `u16` in Rust. -/
structure Board where
  cells : List (List Cell)
  move_number : Nat
  size : Nat
  captured_white : Nat
  captured_black : Nat
  ko_point : Option (Nat × Nat)
deriving DecidableEq, Repr

/-- The freshly initialised board at the top of `Board::from_tree`. -/
def Board.init : Board :=
  ⟨List.replicate 19 (List.replicate 19 Cell.Empty), 0, 19, 0, 0, none⟩

/-- `orthogonal_neighbors` (src/sgf/board.rs): the up-to-four orthogonally
adjacent positions, respecting the edges, in the source's push order. -/
def orthogonal_neighbors (row col size : Nat) : List (Nat × Nat) :=
  (if 0 < row then [(row - 1, col)] else []) ++
  (if row + 1 < size then [(row + 1, col)] else []) ++
  (if 0 < col then [(row, col - 1)] else []) ++
  (if col + 1 < size then [(row, col + 1)] else [])

/-- One `while let Some((r,c)) = stack.pop()` round of `find_group`
(src/sgf/board.rs), with explicit fuel.  The head of the list is the top of
the Rust stack; pushing the neighbour list therefore reverses it.  The fuel
`5 * 361 + 1` dominates the measure `5 * unvisited + stack length`, so the
`fuel = 0` case is never reached from `find_group`. -/
def findGroupAux (cells : List (List Cell)) (color : Cell) (size : Nat) :
    Nat → List (List Bool) → List (Nat × Nat) → List (Nat × Nat) → List (Nat × Nat)
  | 0, _, _, group => group
  | fuel + 1, visited, stack, group =>
    match stack with
    | [] => group
    | (r, c) :: rest =>
      if getGrid false visited r c then
        findGroupAux cells color size fuel visited rest group
      else
        let visited1 := setGrid visited r c true
        if getCell cells r c ≠ color then
          findGroupAux cells color size fuel visited1 rest group
        else
          let nbrs := (orthogonal_neighbors r c size).filter
            (fun p => ¬ getGrid false visited1 p.1 p.2 ∧ getCell cells p.1 p.2 = color)
          findGroupAux cells color size fuel visited1 (nbrs.reverse ++ rest)
            (group ++ [(r, c)])

/-- `find_group` (src/sgf/board.rs): DFS flood-fill over same-coloured
orthogonally adjacent cells starting at `(row, col)`. -/
def find_group (cells : List (List Cell)) (row col size : Nat) : List (Nat × Nat) :=
  findGroupAux cells (getCell cells row col) size (5 * 361 + 1)
    (List.replicate 19 (List.replicate 19 false)) [(row, col)] []

/-- `count_liberties` (src/sgf/board.rs): the number of distinct empty cells
orthogonally adjacent to any stone of the group (the Rust `HashSet` is the
deduplicated list). -/
def count_liberties (cells : List (List Cell)) (group : List (Nat × Nat))
    (size : Nat) : Nat :=
  ((group.flatMap fun p => (orthogonal_neighbors p.1 p.2 size).filter
      (fun q => getCell cells q.1 q.2 = Cell.Empty)).dedup).length

/-- The mutable state threaded through the neighbour loop of
`apply_captures`: the cells, both capture counters, the running total of
captured stones and `last_captured_at`. -/
structure CapState where
  cells : List (List Cell)
  captured_white : Nat
  captured_black : Nat
  total : Nat
  last : Nat × Nat
deriving DecidableEq, Repr

/-- One iteration of the `for (nr, nc) in orthogonal_neighbors(..)` loop of
`apply_captures` (src/sgf/board.rs). -/
def captureStep (opponent : Cell) (size : Nat) (st : CapState) (n : Nat × Nat) :
    CapState :=
  if getCell st.cells n.1 n.2 ≠ opponent then st
  else
    let group := find_group st.cells n.1 n.2 size
    if 0 < count_liberties st.cells group size then st
    else
      let k := group.length
      { cells := group.foldl (fun cs p => setGrid cs p.1 p.2 Cell.Empty) st.cells
        captured_white :=
          match opponent with
          | Cell.Black => (st.captured_white + k) % 65536
          | _ => st.captured_white
        captured_black :=
          match opponent with
          | Cell.White => (st.captured_black + k) % 65536
          | _ => st.captured_black
        total := st.total + k
        last := if k = 1 then group.headD (0, 0) else st.last }

/-- `Board::apply_captures` (src/sgf/board.rs): remove dead opponent groups
around the placed stone, update the counters, and return the simple-ko point
when exactly one stone was captured and the placed group is down to one
liberty. -/
def Board.apply_captures (b : Board) (placed_row placed_col : Nat) (color : Cell) :
    Board × Option (Nat × Nat) :=
  let opponent := color.opposite
  let st0 : CapState :=
    { cells := b.cells, captured_white := b.captured_white,
      captured_black := b.captured_black, total := 0, last := (0, 0) }
  let st := (orthogonal_neighbors placed_row placed_col b.size).foldl
    (captureStep opponent b.size) st0
  let b1 : Board := { b with
    cells := st.cells
    captured_white := st.captured_white
    captured_black := st.captured_black }
  if st.total = 1 then
    let placed_group := find_group st.cells placed_row placed_col b.size
    if count_liberties st.cells placed_group b.size = 1 then (b1, some st.last)
    else (b1, none)
  else (b1, none)

/-- The state after the whole neighbour loop of `apply_captures`; a name
for the fold, used by the proofs below. -/
def capFold (b : Board) (placed_row placed_col : Nat) (color : Cell) : CapState :=
  (orthogonal_neighbors placed_row placed_col b.size).foldl
    (captureStep color.opposite b.size)
    { cells := b.cells, captured_white := b.captured_white,
      captured_black := b.captured_black, total := 0, last := (0, 0) }

/-- Both coordinates on the 19-by-19 board. -/
def inB (p : Nat × Nat) : Prop := p.1 < 19 ∧ p.2 < 19

/-- One flood-fill step: `q` is an orthogonal neighbour of `p` and holds
`color` — the adjacency `find_group` walks. -/
def adjColor (cells : List (List Cell)) (color : Cell) (p q : Nat × Nat) : Prop :=
  q ∈ orthogonal_neighbors p.1 p.2 19 ∧ getCell cells q.1 q.2 = color

/-- Spec-level connectivity: membership in the connected group of `p` under
orthogonal same-colour adjacency (the reflexive-transitive closure of
`adjColor`). -/
def conn (cells : List (List Cell)) (color : Cell) (p q : Nat × Nat) : Prop :=
  Relation.ReflTransGen (adjColor cells color) p q

/-- Spec-level zero liberties: no member of the connected group of `p` has an
empty orthogonal neighbour. -/
def deadGroup (cells : List (List Cell)) (color : Cell) (p : Nat × Nat) : Prop :=
  ∀ q, conn cells color p q →
    ∀ rr ∈ orthogonal_neighbors q.1 q.2 19, getCell cells rr.1 rr.2 ≠ Cell.Empty

/-- Removal relative to a list `L` of candidate entry points: `q` is an
`opp`-coloured stone connected to some `opp`-coloured entry in `L` whose
group has zero liberties. -/
def remIn (cells : List (List Cell)) (opp : Cell) (L : List (Nat × Nat))
    (q : Nat × Nat) : Prop :=
  getCell cells q.1 q.2 = opp ∧
  ∃ n ∈ L, getCell cells n.1 n.2 = opp ∧ conn cells opp n q ∧ deadGroup cells opp n

/-- Spec-level removal predicate of capture resolution after a stone of
`color` appears at `(pr, pc)`: `q` is an opposite-coloured stone in a
zero-liberty connected group that contains an orthogonal neighbour of the
placed point. -/
def removedByCapture (cells : List (List Cell)) (color : Cell) (pr pc : Nat)
    (q : Nat × Nat) : Prop :=
  remIn cells color.opposite (orthogonal_neighbors pr pc 19) q

/-- Number of cells of the 19-by-19 grid not yet marked in the DFS visited
grid; the termination measure of `find_group`. -/
def unvisCount (vis : List (List Bool)) : Nat :=
  (((Finset.range 19) ×ˢ (Finset.range 19)).filter
    (fun p => getGrid false vis p.1 p.2 = false)).card

/-- Row index of a coordinate in `Board::from_tree`:
`coord.second() as usize - b'a' as usize`. -/
def coordRow (g : GoCoord) : Nat := g.val / 32 % 32

/-- Column index of a coordinate in `Board::from_tree`:
`coord.first() as usize - b'a' as usize`. -/
def coordCol (g : GoCoord) : Nat := g.val % 32

/-- Replay of one property inside the node loop of `Board::from_tree`
(src/sgf/board.rs).  `none` marks a Rust panic (cell index out of bounds). -/
def replayProp (b : Board) (p : SGFProperty) : Option Board :=
  match p with
  | .B coord => do
    let row := coordRow coord
    let col := coordCol coord
    let cells1 ← setCellChecked b.cells row col Cell.Black
    let b1 : Board := { b with cells := cells1, move_number := b.move_number + 1 }
    let res := b1.apply_captures row col Cell.Black
    some { res.1 with ko_point := res.2 }
  | .W coord => do
    let row := coordRow coord
    let col := coordCol coord
    let cells1 ← setCellChecked b.cells row col Cell.White
    let b1 : Board := { b with cells := cells1, move_number := b.move_number + 1 }
    let res := b1.apply_captures row col Cell.White
    some { res.1 with ko_point := res.2 }
  | .AB coords => do
    let b1 : Board := { b with ko_point := none }
    let cells1 ← coords.foldlM
      (fun cs coord => setCellChecked cs (coordRow coord) (coordCol coord) Cell.Black)
      b1.cells
    some { b1 with cells := cells1 }
  | .AW coords => do
    let b1 : Board := { b with ko_point := none }
    let cells1 ← coords.foldlM
      (fun cs coord => setCellChecked cs (coordRow coord) (coordCol coord) Cell.White)
      b1.cells
    some { b1 with cells := cells1 }
  | _ => some b

/-- The `loop` in `Board::from_tree` that follows parent links upwards; the
returned list is cursor-first (the Rust code reverses it afterwards).  Fuel
bounds the walk: `none` covers both the Rust panic on an out-of-range id and
divergence on a (malformed) cyclic parent chain. -/
def pathToRootAux (t : GameTree) : Nat → NodeId → Option (List NodeId)
  | 0, _ => none
  | fuel + 1, current => do
    let nd ← t.node? current
    match nd.parent with
    | none => some [current]
    | some p => do
      let rest ← pathToRootAux t fuel p
      some (current :: rest)

/-- The root-to-cursor path computed at the top of `Board::from_tree`. -/
def pathToRoot (t : GameTree) (cursor : NodeId) : Option (List NodeId) :=
  (pathToRootAux t (t.nodes.length + 1) cursor).map List.reverse

/-- `Board::from_tree` (src/sgf/board.rs): collect the root-to-cursor path,
then replay every property of every node on it in stored order.  `none`
marks a panic of the Rust original. -/
def Board.from_tree (t : GameTree) (cursor : NodeId) : Option Board := do
  let path ← pathToRoot t cursor
  path.foldlM
    (fun b id => do
      let nd ← t.node? id
      nd.properties.foldlM replayProp b)
    Board.init

/-!  Editor command layer (src/editor/mod.rs). -/

/-- `Editor` (src/editor/mod.rs): the tree plus the cursor node id. -/
structure Editor where
  tree : GameTree
  cursor : NodeId
deriving DecidableEq, Repr

/-- `EditCommand` (src/editor/mod.rs). -/
inductive EditCommand where
  | AddMove (p : SGFProperty)
  | SetProperty (p : SGFProperty)
  | RemoveProperty (key : String)
  | DeleteCurrentNode
  | AppendVariation
  | NavigateNext
  | NavigatePrev
  | NavigateBranch (n : Nat)
  | Load (t : GameTree)
deriving Repr

/-- `property_key` (src/editor/mod.rs): the identifying key of a property. -/
def property_key : SGFProperty → String
  | .AP _ => "AP"
  | .B _ => "B"
  | .W _ => "W"
  | .AB _ => "AB"
  | .AW _ => "AW"
  | .CA _ => "CA"
  | .DT _ => "DT"
  | .FF _ => "FF"
  | .GM _ => "GM"
  | .KM _ => "KM"
  | .SZ _ => "SZ"
  | .PB _ => "PB"
  | .PW _ => "PW"
  | .RE _ => "RE"
  | .C _ => "C"
  | .Unknown k _ => k

/-- The `SetProperty` upsert: replace the first property with the same key in
place, or append when absent (`iter_mut().find` then `push`). -/
def upsertProp (key : String) (prop : SGFProperty) : List SGFProperty → List SGFProperty
  | [] => [prop]
  | hd :: tl => if property_key hd = key then prop :: tl else hd :: upsertProp key prop tl

/-- `Editor::new` (src/editor/mod.rs). -/
def Editor.new (t : GameTree) : Editor := ⟨t, t.roots.headD 0⟩

/-- `Editor::apply` (src/editor/mod.rs).  `none` marks a Rust panic (an arena
index out of range). -/
def Editor.apply (e : Editor) (cmd : EditCommand) : Option Editor :=
  match cmd with
  | .AddMove prop => do
    let (t1, id) ← e.tree.add_node e.cursor [prop]
    some ⟨t1, id⟩
  | .SetProperty prop => do
    let key := property_key prop
    let nd ← e.tree.node? e.cursor
    some ⟨⟨e.tree.nodes.set e.cursor { nd with properties := upsertProp key prop nd.properties },
           e.tree.roots⟩, e.cursor⟩
  | .RemoveProperty key => do
    let nd ← e.tree.node? e.cursor
    some ⟨⟨e.tree.nodes.set e.cursor
             { nd with properties := nd.properties.filter (fun p => property_key p ≠ key) },
           e.tree.roots⟩, e.cursor⟩
  | .DeleteCurrentNode => do
    let nd ← e.tree.node? e.cursor
    match nd.parent with
    | none => some e
    | some parent => do
      let t1 ← e.tree.remove_subtree e.cursor
      some ⟨t1, parent⟩
  | .AppendVariation => do
    let (t1, _) ← e.tree.add_node e.cursor []
    some ⟨t1, e.cursor⟩
  | .NavigateNext => do
    let nd ← e.tree.node? e.cursor
    match nd.children.head? with
    | some c => some ⟨e.tree, c⟩
    | none => some e
  | .NavigatePrev => do
    let nd ← e.tree.node? e.cursor
    match nd.parent with
    | some p => some ⟨e.tree, p⟩
    | none => some e
  | .NavigateBranch n => do
    let nd ← e.tree.node? e.cursor
    match nd.children.get? n with
    | some c => some ⟨e.tree, c⟩
    | none => some e
  | .Load t1 => some ⟨t1, t1.roots.headD 0⟩

/-!  Rendering (the `Display` impls of src/sgf/node.rs and the serializer of
src/sgf/serializer.rs). -/

/-- Decimal digit character. -/
def digitChar (n : Nat) : Char := Char.ofNat ('0'.toNat + n)

/-- Decimal digits of a natural number, most significant first; standard
division-remainder rendering with fuel `n + 1`, which always suffices. -/
def natToDigitsAux : Nat → Nat → List Char
  | 0, _ => []
  | fuel + 1, n =>
    if n < 10 then [digitChar n]
    else natToDigitsAux fuel (n / 10) ++ [digitChar (n % 10)]

/-- Decimal rendering of a `Nat` (Rust `Display` for unsigned integers). -/
def natToString (n : Nat) : String := String.mk (natToDigitsAux (n + 1) n)

/-- Decimal rendering of an `Int` (Rust `Display` for signed integers). -/
def intToString (n : Int) : String :=
  if n < 0 then "-" ++ natToString n.natAbs else natToString n.natAbs

/-- `Display for GoCoord` (src/sgf/node.rs): the two letters. -/
def GoCoord.render (g : GoCoord) : String := String.mk [g.first, g.second]

/-- `Display for Charset` (src/sgf/node.rs). -/
def Charset.render : Charset → String
  | .UTF8 => "UTF-8"
  | .Latin1 => "Latin-1"
  | .Other s => s

/-- `Display for FileFormat` (src/sgf/node.rs). -/
def FileFormat.render : FileFormat → String
  | .FF1 => "1"
  | .FF2 => "2"
  | .FF3 => "3"
  | .FF4 => "4"

/-- `Display for GameType` (src/sgf/node.rs). -/
def GameType.render : GameType → String
  | .Go => "1"
  | .Other n => natToString n

/-- `Display for Komi` (src/sgf/node.rs): whole half-point counts are shown
as `n / 2`, odd ones as `n / 2` followed by `.5`, with Rust's truncating
signed division and remainder. -/
def Komi.render (k : Komi) : String :=
  if Int.tmod k.val 2 = 0 then intToString (Int.tdiv k.val 2)
  else intToString (Int.tdiv k.val 2) ++ ".5"

/-- `Display for SGFProperty` (src/sgf/node.rs): canonical text of one
property, each value bracketed. -/
def SGFProperty.render : SGFProperty → String
  | .AP s => "AP[" ++ s ++ "]"
  | .B c => "B[" ++ c.render ++ "]"
  | .W c => "W[" ++ c.render ++ "]"
  | .AB cs => "AB" ++ String.join (cs.map fun c => "[" ++ c.render ++ "]")
  | .AW cs => "AW" ++ String.join (cs.map fun c => "[" ++ c.render ++ "]")
  | .CA cs => "CA[" ++ cs.render ++ "]"
  | .DT s => "DT[" ++ s ++ "]"
  | .FF ff => "FF[" ++ ff.render ++ "]"
  | .GM gt => "GM[" ++ gt.render ++ "]"
  | .KM k => "KM[" ++ k.render ++ "]"
  | .SZ n => "SZ[" ++ natToString n ++ "]"
  | .PB s => "PB[" ++ s ++ "]"
  | .PW s => "PW[" ++ s ++ "]"
  | .RE s => "RE[" ++ s ++ "]"
  | .C s => "C[" ++ s ++ "]"
  | .Unknown key values => key ++ String.join (values.map fun v => "[" ++ v ++ "]")

/-- `write_node` (src/sgf/serializer.rs): `;`, the properties in stored
order, then 0 children → stop, 1 child → inline, 2+ children → each child
wrapped in parentheses.  Fuel bounds the recursion; `none` covers the panic
on an out-of-range id and divergence on a malformed (cyclic) tree. -/
def write_node (t : GameTree) : Nat → NodeId → Option String
  | 0, _ => none
  | fuel + 1, id => do
    let nd ← t.node? id
    let props := String.join (nd.properties.map SGFProperty.render)
    let body ← match nd.children with
      | [] => some ""
      | [c] => write_node t fuel c
      | cs =>
          cs.foldlM (fun acc c => (write_node t fuel c).map (fun s => acc ++ "(" ++ s ++ ")")) ""
    some (";" ++ props ++ body)

/-- `write_game` (src/sgf/serializer.rs): one root wrapped in parentheses. -/
def write_game (t : GameTree) (root : NodeId) : Option String := do
  let s ← write_node t (t.nodes.length + 1) root
  some ("(" ++ s ++ ")")

/-- `write_sgf` (src/sgf/serializer.rs): all roots concatenated with no
separator. -/
def write_sgf (t : GameTree) : Option String :=
  t.roots.foldlM
    (fun acc r => do
      let s ← write_game t r
      some (acc ++ s))
    ""

/-!  Parser (src/sgf/parser.rs).

The structural grammar lives in `sgf.pest`, which is not among the sources;
the token layer below is modelled from the spec's EBNF:

  file       := collection* END
  collection := '(' node* collection* ')'
  node       := ';' property*
  property   := ident value+
  value      := '[' text ']'
  ident      := one or more uppercase letters

with whitespace permitted between structural tokens (the spec notes that
whitespace is not preserved) and `text` being any characters other than the
closing bracket.  Everything past the token layer — property interpretation
and arena ingestion — is embedded from src/sgf/parser.rs. -/

/-- Modelled from the spec: an identifier character is an uppercase letter. -/
def isUpperAZ (c : Char) : Bool := decide ('A' ≤ c ∧ c ≤ 'Z')

/-- Modelled from the spec: whitespace permitted between structural tokens. -/
def isWs (c : Char) : Bool := c = ' ' ∨ c = '\n' ∨ c = '\t' ∨ c = '\r'

/-- Skip whitespace before a structural token. -/
def skipWs : List Char → List Char
  | [] => []
  | c :: rest => if isWs c then skipWs rest else c :: rest

/-- Longest uppercase-letter prefix (the `ident` token) and the remainder. -/
def takeIdent : List Char → List Char × List Char
  | [] => ([], [])
  | c :: rest =>
    if isUpperAZ c then
      let (i, r) := takeIdent rest
      (c :: i, r)
    else ([], c :: rest)

/-- Characters of a value up to the closing bracket; `none` when the value
is unterminated. -/
def takeUntilRB : List Char → Option (List Char × List Char)
  | [] => none
  | c :: rest =>
    if c = ']' then some ([], rest)
    else
      match takeUntilRB rest with
      | none => none
      | some (txt, r) => some (c :: txt, r)

/-- Decimal digit test. -/
def isDigitChar (c : Char) : Bool := decide ('0' ≤ c ∧ c ≤ '9')

/-- Value of a digit string, most significant first. -/
def digitsToNat (ds : List Char) : Nat :=
  ds.foldl (fun acc d => acc * 10 + (d.toNat - '0'.toNat)) 0

/-- Rust `u8::from_str`: an optional leading `+`, then one or more decimal
digits, and the value must fit in eight bits. -/
def parseU8 (s : String) : Except Err Nat :=
  let ds := match s.toList with
    | '+' :: tl => tl
    | l => l
  if ds.isEmpty then .error ⟨"cannot parse integer from empty string", s⟩
  else if ¬ ds.all isDigitChar then .error ⟨"invalid digit found in string", s⟩
  else if digitsToNat ds < 256 then .ok (digitsToNat ds)
  else .error ⟨"number too large to fit in target type", s⟩

/-- The decimal-number forms accepted for komi, as the exact rational
`num / 10 ^ pow`: an optional sign, digits, and an optional fractional part,
with at least one digit overall.  (Rust parses komi through `f64::from_str`,
which additionally accepts exponent and infinity forms; those exotic spellings
are not modelled.  On every decimal the serializer can emit — a half-point
integer count — the `f64` value is exact, so the modelled forms agree with
the Rust semantics.) -/
def parseDecimal (s : String) : Except Err (Int × Nat) :=
  let l := s.toList
  let neg : Bool := l.headD ' ' = '-'
  let body := if l.headD ' ' = '-' ∨ l.headD ' ' = '+' then l.tail else l
  let intPart := body.takeWhile (fun c => c ≠ '.')
  let restPart := body.dropWhile (fun c => c ≠ '.')
  let fracPart := if restPart.headD ' ' = '.' then restPart.tail else restPart
  if ¬ (intPart ++ fracPart).all isDigitChar then .error ⟨"invalid float literal", s⟩
  else if intPart.length + fracPart.length = 0 then .error ⟨"cannot parse float from empty string", s⟩
  else if restPart ≠ [] ∧ restPart.headD ' ' ≠ '.' then .error ⟨"invalid float literal", s⟩
  else
    let mag : Int := digitsToNat (intPart ++ fracPart)
    .ok (if neg then -mag else mag, fracPart.length)

/-- `FromStr for Komi` (src/sgf/node.rs): parse the decimal then round to
half points. -/
def Komi.fromString (s : String) : Except Err Komi :=
  match parseDecimal s with
  | .error _ => .error ⟨"Komi must be a number", s⟩
  | .ok (num, pow) => .ok (Komi.new num pow)

/-- `FromStr for FileFormat` (src/sgf/node.rs): exactly the strings 1–4. -/
def FileFormat.fromString (s : String) : Except Err FileFormat :=
  if s = "1" then .ok .FF1
  else if s = "2" then .ok .FF2
  else if s = "3" then .ok .FF3
  else if s = "4" then .ok .FF4
  else .error ⟨"FileType must be a number 1-4", s⟩

/-- `FromStr for GameType` (src/sgf/node.rs): a `u8`, with 1 mapped to Go. -/
def GameType.fromString (s : String) : Except Err GameType :=
  match parseU8 s with
  | .error _ => .error ⟨"GameType must be a number", s⟩
  | .ok n => .ok (if n = 1 then .Go else .Other n)

/-- `FromStr for Charset` (src/sgf/node.rs): never fails. -/
def Charset.fromString (s : String) : Charset :=
  if s = "UTF-8" ∨ s = "utf-8" then .UTF8
  else if s = "Latin-1" ∨ s = "ISO-8859-1" then .Latin1
  else .Other s

/-- The dispatch on the identifier in `SGFParser::property`
(src/sgf/parser.rs): known tags are decoded — erring on a malformed value
for the single-valued ones, silently dropping unparsable coordinates of
`AB`/`AW` via `filter_map` — and any other identifier is preserved as
`Unknown`. -/
def interpProp (ident : String) (values : List String) : Except Err SGFProperty :=
  let first_val := values.headD ""
  match ident with
  | "AP" => .ok (.AP first_val)
  | "B" => (GoCoord.fromString first_val).map .B
  | "W" => (GoCoord.fromString first_val).map .W
  | "AB" => .ok (.AB (values.filterMap (fun v => (GoCoord.fromString v).toOption)))
  | "AW" => .ok (.AW (values.filterMap (fun v => (GoCoord.fromString v).toOption)))
  | "CA" => .ok (.CA (Charset.fromString first_val))
  | "DT" => .ok (.DT first_val)
  | "FF" => (FileFormat.fromString first_val).map .FF
  | "GM" => (GameType.fromString first_val).map .GM
  | "KM" => (Komi.fromString first_val).map .KM
  | "SZ" => (parseU8 first_val).map .SZ
  | "PB" => .ok (.PB first_val)
  | "PW" => .ok (.PW first_val)
  | "RE" => .ok (.RE first_val)
  | "C" => .ok (.C first_val)
  | _ => .ok (.Unknown ident values)

/-- A `[text]` value token. -/
def parseValue (input : List Char) : Except Err (String × List Char) :=
  match skipWs input with
  | '[' :: rest =>
    match takeUntilRB rest with
    | some (txt, rest2) => .ok (String.mk txt, rest2)
    | none => .error ⟨"unterminated property value", String.mk rest⟩
  | other => .error ⟨"expected property value", String.mk other⟩

/-- The `value+` loop: further values while the next token is an opening
bracket.  Fuel falls on each iteration; every iteration consumes at least
one character, so the wrapper fuel `length + 1` always suffices, and running
out of fuel is an error rather than a silent stop. -/
def parseValuesAuxF : Nat → List Char → Except Err (List String × List Char)
  | 0, input => .error ⟨"out of fuel", String.mk input⟩
  | fuel + 1, input =>
    match skipWs input with
    | '[' :: _ =>
      match parseValue input with
      | .error e => .error e
      | .ok (v, rest) =>
        match parseValuesAuxF fuel rest with
        | .error e => .error e
        | .ok (vs, rest2) => .ok (v :: vs, rest2)
    | _ => .ok ([], input)

/-- The `value*` tail of a `value+` production. -/
def parseValuesAux (input : List Char) : Except Err (List String × List Char) :=
  parseValuesAuxF (input.length + 1) input

/-- A `property := ident value+` production, interpreted on the spot as in
`SGFParser::property` (src/sgf/parser.rs). -/
def parseProperty (input : List Char) : Except Err (SGFProperty × List Char) :=
  if (takeIdent (skipWs input)).1.isEmpty then
    .error ⟨"expected property identifier", String.mk (skipWs input)⟩
  else
    match parseValue (takeIdent (skipWs input)).2 with
    | .error e => .error e
    | .ok (v, rest2) =>
      match parseValuesAux rest2 with
      | .error e => .error e
      | .ok (vs, rest3) =>
        match interpProp (String.mk (takeIdent (skipWs input)).1) (v :: vs) with
        | .error e => .error e
        | .ok p => .ok (p, rest3)

/-- The `property*` loop inside a node, with fuel as in `parseValuesAuxF`. -/
def parsePropsAuxF : Nat → List Char → Except Err (List SGFProperty × List Char)
  | 0, input => .error ⟨"out of fuel", String.mk input⟩
  | fuel + 1, input =>
    match skipWs input with
    | c :: _ =>
      if isUpperAZ c then
        match parseProperty input with
        | .error e => .error e
        | .ok (p, rest) =>
          match parsePropsAuxF fuel rest with
          | .error e => .error e
          | .ok (ps, rest2) => .ok (p :: ps, rest2)
      else .ok ([], input)
    | [] => .ok ([], input)

/-- The `property*` body of a node. -/
def parseProps (input : List Char) : Except Err (List SGFProperty × List Char) :=
  parsePropsAuxF (input.length + 1) input

/-- A `node := ';' property*` production. -/
def parseNode (input : List Char) : Except Err (List SGFProperty × List Char) :=
  match skipWs input with
  | ';' :: rest => parseProps rest
  | other => .error ⟨"expected a node", String.mk other⟩

/-- The `node*` loop of a collection, with fuel as in `parseValuesAuxF`. -/
def parseNodesAuxF : Nat → List Char → Except Err (List (List SGFProperty) × List Char)
  | 0, input => .error ⟨"out of fuel", String.mk input⟩
  | fuel + 1, input =>
    match skipWs input with
    | ';' :: _ =>
      match parseNode input with
      | .error e => .error e
      | .ok (props, rest) =>
        match parseNodesAuxF fuel rest with
        | .error e => .error e
        | .ok (nodes, rest2) => .ok (props :: nodes, rest2)
    | _ => .ok ([], input)

/-- The `node*` body of a collection. -/
def parseNodes (input : List Char) : Except Err (List (List SGFProperty) × List Char) :=
  parseNodesAuxF (input.length + 1) input

/- The private intermediate form (`ParsedObject` in src/sgf/parser.rs): the
straight-line node property lists plus the nested sub-collections.  A mutual
inductive pair stands in for `Vec<ParsedObject>`. -/
mutual
inductive PObj where
  | mk (nodes : List (List SGFProperty)) (children : PObjs)
deriving Repr
inductive PObjs where
  | nil
  | cons (head : PObj) (tail : PObjs)
deriving Repr
end

/-- The node property lists of a `PObj`. -/
def PObj.nodes : PObj → List (List SGFProperty)
  | .mk ns _ => ns

/-- The nested sub-collections of a `PObj`. -/
def PObj.children : PObj → PObjs
  | .mk _ cs => cs

/- A `collection := '(' node* collection* ')'` production and the
`collection*` loop, mutually recursive on a fuel that falls on every call;
`2 * length + 2` at top level always suffices. -/
mutual
def parseObject : Nat → List Char → Except Err (PObj × List Char)
  | 0, input => .error ⟨"out of fuel", String.mk input⟩
  | fuel + 1, input =>
    match skipWs input with
    | '(' :: rest =>
      match parseNodes rest with
      | .error e => .error e
      | .ok (nodes, rest2) =>
        match parseObjectsAux fuel rest2 with
        | .error e => .error e
        | .ok (children, rest3) =>
          match skipWs rest3 with
          | ')' :: rest4 => .ok (.mk nodes children, rest4)
          | other => .error ⟨"expected closing parenthesis", String.mk other⟩
    | other => .error ⟨"expected opening parenthesis", String.mk other⟩

def parseObjectsAux : Nat → List Char → Except Err (PObjs × List Char)
  | 0, input =>
    match skipWs input with
    | '(' :: _ => .error ⟨"out of fuel", String.mk input⟩
    | _ => .ok (.nil, input)
  | fuel + 1, input =>
    match skipWs input with
    | '(' :: _ =>
      match parseObject fuel input with
      | .error e => .error e
      | .ok (o, rest) =>
        match parseObjectsAux fuel rest with
        | .error e => .error e
        | .ok (os, rest2) => .ok (.cons o os, rest2)
    | _ => .ok (.nil, input)
end

/-- The `file := collection* END` production. -/
def parseFile (input : List Char) : Except Err PObjs :=
  match parseObjectsAux (2 * input.length + 2) input with
  | .error e => .error e
  | .ok (objs, rest) =>
    match skipWs rest with
    | [] => .ok objs
    | other => .error ⟨"expected end of input", String.mk other⟩

/-!  Arena ingestion (src/sgf/parser.rs, `GameTree::ingest_object`). -/

/-- The straight-line node loop of `ingest_object`: push each node with the
previous one as parent, recording the first created id.  The state is
`(arena, first_id, last_id)`. -/
def ingestNodes (arena : List TreeNode) (parent : Option NodeId)
    (propLists : List (List SGFProperty)) :
    List TreeNode × Option NodeId × Option NodeId :=
  propLists.foldl
    (fun st props =>
      let id := st.1.length
      let ns1 := st.1 ++ [⟨props, st.2.2, []⟩]
      let ns2 := match st.2.2 with
        | some p =>
          match ns1.get? p with
          | some pn => ns1.set p { pn with children := pn.children ++ [id] }
          | none => ns1
        | none => ns1
      (ns2, (if st.2.1.isSome then st.2.1 else some id), some id))
    (arena, none, parent)

/- `GameTree::ingest_object` (src/sgf/parser.rs): chain the straight-line
nodes under `parent`, then ingest every sub-collection under the last node
of the run; returns the new arena and the id of the first created node. -/
mutual
def ingestObject (arena : List TreeNode) (parsed : PObj) (parent : Option NodeId) :
    List TreeNode × Option NodeId :=
  match parsed with
  | .mk propLists children =>
    let st := ingestNodes arena parent propLists
    (ingestObjects st.1 children st.2.2, st.2.1)

def ingestObjects (arena : List TreeNode) (objs : PObjs) (parent : Option NodeId) :
    List TreeNode :=
  match objs with
  | .nil => arena
  | .cons h t => ingestObjects (ingestObject arena h parent).1 t parent
end

/-- The root loop of `GameTree::ingest` (src/sgf/parser.rs): ingest each
top-level object and record its first node as a root when one exists. -/
def ingestTop : List TreeNode → List NodeId → PObjs → List TreeNode × List NodeId
  | arena, roots, .nil => (arena, roots)
  | arena, roots, .cons h t =>
    match ingestObject arena h none with
    | (ns, some rid) => ingestTop ns (roots ++ [rid]) t
    | (ns, none) => ingestTop ns roots t

/-- `GameTree::ingest` (src/sgf/parser.rs). -/
def GameTree.ingest (objs : PObjs) : GameTree :=
  let st := ingestTop [] [] objs
  ⟨st.1, st.2⟩

/-- `parse_sgf` (src/sgf/parser.rs): structural parse plus interpretation,
then ingestion into the arena. -/
def parse_sgf (s : String) : Except Err GameTree :=
  match parseFile s.toList with
  | .error e => .error e
  | .ok objs => .ok (GameTree.ingest objs)


/-- The board after replaying a lone black move at `dd` (value 99: column
and row both 3) on the freshly initialised board; a concrete instance used
to exercise the move-replay theorems. -/
def ddBoard : Board :=
  { cells := setGrid Board.init.cells 3 3 Cell.Black, move_number := 1,
    size := 19, captured_white := 0, captured_black := 0, ko_point := none }

/-!  Round-trip side conditions and the canonical printed form.

`write_sgf` after `parse_sgf` reproduces the tree only under side
conditions on the stored property values (see the round-trip theorems and
counterexamples below): coordinates on the grid, `AB`/`AW` lists nonempty,
a komi other than `-0.5`, texts free of the closing bracket, and `Unknown`
keys that are nonempty uppercase identifiers distinct from the known tags.
The printed form of the parser's intermediate objects and their
canonicalisation (merging single-child chains, which is what the
serializer's inline rule produces) are defined here. -/

/-- The known tags of `SGFParser::property` (src/sgf/parser.rs). -/
def knownTags : List String :=
  ["AP", "B", "W", "AB", "AW", "CA", "DT", "FF", "GM", "KM", "SZ", "PB",
   "PW", "RE", "C"]

/-- A decoded coordinate on the 19-by-19 grid — what `GoCoord::new`
guarantees for both packed components. -/
def coordRTb (g : GoCoord) : Bool :=
  decide (g.val % 32 < 19) && decide (g.val / 32 < 19)

/-- Value text that survives bracketing: no closing bracket inside. -/
def textRTb (s : String) : Bool := s.toList.all (fun c => c != ']')

/-- A property identifier: nonempty, all uppercase letters. -/
def identRTb (s : String) : Bool := !s.isEmpty && s.toList.all isUpperAZ

/-- A komi value that reprints to a decimal reading back to itself: inside
the `i16` range and not `-1` half points (`-0.5` prints as `0.5`, losing
the sign to truncating division). -/
def komiRTb (k : Komi) : Bool :=
  decide (k.val ≠ -1) && decide (-32768 ≤ k.val) && decide (k.val ≤ 32767)

/-- A charset that reprints to a string reading back to itself. -/
def charsetRTb : Charset → Bool
  | .Other s => textRTb s &&
      !(s == "UTF-8" || s == "utf-8" || s == "Latin-1" || s == "ISO-8859-1")
  | _ => true

/-- A game type that reprints to a number reading back to itself. -/
def gameTypeRTb : GameType → Bool
  | .Go => true
  | .Other n => decide (n < 256) && decide (n ≠ 1)

/-- The per-property round-trip side condition.  Every property a
successful parse stores satisfies it except for an empty `AB`/`AW` list
(dropped malformed coordinates) and the komi `-0.5`. -/
def propRTb : SGFProperty → Bool
  | .AP s => textRTb s
  | .B c => coordRTb c
  | .W c => coordRTb c
  | .AB cs => !cs.isEmpty && cs.all coordRTb
  | .AW cs => !cs.isEmpty && cs.all coordRTb
  | .CA cs => charsetRTb cs
  | .DT s => textRTb s
  | .FF _ => true
  | .GM gt => gameTypeRTb gt
  | .KM k => komiRTb k
  | .SZ n => decide (n < 256)
  | .PB s => textRTb s
  | .PW s => textRTb s
  | .RE s => textRTb s
  | .C s => textRTb s
  | .Unknown key values => identRTb key && !(knownTags.contains key) &&
      !values.isEmpty && values.all textRTb

/- Round-trip condition on the parsed objects: every node run is nonempty
and every stored property satisfies `propRTb`. -/
mutual
def objRTb : PObj → Bool
  | .mk ns cs => !ns.isEmpty && ns.all (fun ps => ps.all propRTb) && objsRTb cs
def objsRTb : PObjs → Bool
  | .nil => true
  | .cons o os => objRTb o && objsRTb os
end

/-- The text of one node: `;` followed by its rendered properties. -/
def nodeText (ps : List SGFProperty) : String :=
  ";" ++ String.join (ps.map SGFProperty.render)

/-- The text of a straight-line run of nodes. -/
def runText (ns : List (List SGFProperty)) : String :=
  String.join (ns.map nodeText)

/- The canonical printed body of a parsed object, mirroring the
serializer's branching rule on the ingested tree: a single sub-collection
continues inline, two or more are each parenthesised. -/
mutual
def printPObj : PObj → String
  | .mk ns cs => runText ns ++ printChildren cs
def printChildren : PObjs → String
  | .nil => ""
  | .cons c .nil => printPObj c
  | .cons c1 (.cons c2 rest) =>
      "(" ++ printPObj c1 ++ ")" ++ "(" ++ printPObj c2 ++ ")" ++ printEach rest
def printEach : PObjs → String
  | .nil => ""
  | .cons c rest => "(" ++ printPObj c ++ ")" ++ printEach rest
end

/-- The printed file: each top-level object parenthesised, concatenated. -/
def printTop (objs : PObjs) : String := printEach objs

/- Canonical shape: no object anywhere has exactly one sub-collection
(the serializer's inline rule leaves none). -/
mutual
def isCanonB : PObj → Bool
  | .mk _ .nil => true
  | .mk _ (.cons _ .nil) => false
  | .mk _ (.cons c1 (.cons c2 rest)) =>
      isCanonB c1 && isCanonB c2 && isCanonsB rest
def isCanonsB : PObjs → Bool
  | .nil => true
  | .cons o os => isCanonB o && isCanonsB os
end

/- Canonicalisation of parsed objects: a single sub-collection is merged
into its parent's run — exactly the regrouping the serializer's inline
rule performs, and what re-parsing the printed text yields. -/
mutual
def canonPObj : PObj → PObj
  | .mk ns .nil => .mk ns .nil
  | .mk ns (.cons c .nil) =>
      match canonPObj c with
      | .mk ns2 cs2 => .mk (ns ++ ns2) cs2
  | .mk ns (.cons c1 (.cons c2 rest)) =>
      .mk ns (.cons (canonPObj c1) (.cons (canonPObj c2) (canonPObjs rest)))
def canonPObjs : PObjs → PObjs
  | .nil => .nil
  | .cons o os => .cons (canonPObj o) (canonPObjs os)
end

/-- Head of the remaining input is not whitespace (so `skipWs` keeps it). -/
def headNotWs : List Char → Bool
  | [] => true
  | c :: _ => !isWs c

/-- Head of the remaining input does not open a value. -/
def headNotLB : List Char → Bool
  | [] => true
  | c :: _ => c != '['

/-- Head of the remaining input does not continue a property list. -/
def headNotUpper : List Char → Bool
  | [] => true
  | c :: _ => !isUpperAZ c

/-- Head of the remaining input does not continue a node list. -/
def headNotSemi : List Char → Bool
  | [] => true
  | c :: _ => c != ';'

/-- Head of the remaining input does not open a sub-collection. -/
def headNotLP : List Char → Bool
  | [] => true
  | c :: _ => c != '('


/-!  Ingestion bookkeeping: the concrete block of nodes a run pushes, the
parent-bump operation, and a representation predicate tying a region of the
arena to a parsed object. -/

/-- The step function of the `ingest_object` node loop (the fold body of
`ingestNodes`), named so the fold can be reasoned about. -/
def ingestStep (st : List TreeNode × Option NodeId × Option NodeId)
    (props : List SGFProperty) : List TreeNode × Option NodeId × Option NodeId :=
  let id := st.1.length
  let ns1 := st.1 ++ [⟨props, st.2.2, []⟩]
  let ns2 := match st.2.2 with
    | some p =>
      match ns1.get? p with
      | some pn => ns1.set p { pn with children := pn.children ++ [id] }
      | none => ns1
    | none => ns1
  (ns2, (if st.2.1.isSome then st.2.1 else some id), some id)

/-- Append a fresh child id to the designated parent node, if any. -/
def bump (arena : List TreeNode) (parent : Option NodeId) (cid : NodeId) :
    List TreeNode :=
  match parent with
  | none => arena
  | some p =>
    match arena.get? p with
    | some nd => arena.set p { nd with children := nd.children ++ [cid] }
    | none => arena

/-- The contiguous block of nodes a straight-line run pushes: each node
points to its predecessor and owns exactly its successor, the last node
starts with no children. -/
def runBlock : Nat → Option NodeId → List (List SGFProperty) → List TreeNode
  | _, _, [] => []
  | _, par, [ps] => [⟨ps, par, []⟩]
  | base, par, ps :: ps2 :: rest =>
      ⟨ps, par, [base + 1]⟩ :: runBlock (base + 1) (some base) (ps2 :: rest)

/- The number of nodes an object (a collection of objects) contributes to
the arena. -/
mutual
def objNodes : PObj → Nat
  | .mk ns cs => ns.length + objsNodes cs
def objsNodes : PObjs → Nat
  | .nil => 0
  | .cons o os => objNodes o + objsNodes os
end

/-- The first node ids of a row of sibling objects ingested in order from
a given arena length. -/
def childStarts (base : Nat) : PObjs → List Nat
  | .nil => []
  | .cons o os => base :: childStarts (base + objNodes o) os

/- The representation predicate: the chain starting at `id`, lying inside
the arena region `[lo, hi)`, stores exactly the given object.  Inner run
nodes own exactly the next run node; the last run node's children are the
first ids of the sub-collections in order.  Parent pointers are untracked:
the serializer never reads them. -/
mutual
def reprObj (t : List TreeNode) (lo hi : Nat) (id : Nat) : PObj → Prop
  | .mk ns cs => reprRun t lo hi id ns cs
def reprRun (t : List TreeNode) (lo hi : Nat) (id : Nat) :
    List (List SGFProperty) → PObjs → Prop
  | [], _ => False
  | [ps], cs => lo ≤ id ∧ id < hi ∧ ∃ nd, t.get? id = some nd ∧
      nd.properties = ps ∧ reprChildren t lo hi nd.children cs
  | ps :: ps2 :: rest, cs => lo ≤ id ∧ id < hi ∧ ∃ nd id2,
      t.get? id = some nd ∧ nd.properties = ps ∧ nd.children = [id2] ∧
      reprRun t lo hi id2 (ps2 :: rest) cs
def reprChildren (t : List TreeNode) (lo hi : Nat) :
    List NodeId → PObjs → Prop
  | [], .nil => True
  | id :: ids, .cons o os => reprObj t lo hi id o ∧ reprChildren t lo hi ids os
  | [], .cons _ _ => False
  | _ :: _, .nil => False
end

/-- Two arenas agree on a region. -/
def agreesOn (t t' : List TreeNode) (lo hi : Nat) : Prop :=
  ∀ i, lo ≤ i → i < hi → t'.get? i = t.get? i

/-- A parent reference is a valid index. -/
def parOK (arena : List TreeNode) : Option NodeId → Prop
  | none => True
  | some p => p < arena.length


/-!  Helper lemmas about the token layer. -/

theorem skipWs_length (l : List Char) : (skipWs l).length ≤ l.length := by
  induction l with
  | nil => simp [skipWs]
  | cons c rest ih =>
    simp only [skipWs]
    split
    · exact Nat.le_trans ih (Nat.le_succ _)
    · simp

theorem takeUntilRB_eq (l txt r : List Char) (h : takeUntilRB l = some (txt, r)) :
    l = txt ++ ']' :: r := by
  induction l generalizing txt with
  | nil => simp [takeUntilRB] at h
  | cons c rest ih =>
    simp only [takeUntilRB] at h
    split at h
    · rename_i hc
      cases h
      simp [hc]
    · cases htu : takeUntilRB rest with
      | none => rw [htu] at h; cases h
      | some p =>
        rw [htu] at h
        cases p with
        | mk t2 r2 =>
          simp at h
          obtain ⟨h1, h2⟩ := h
          subst h1
          cases h2
          simp [ih t2 htu]

theorem parseValue_consumes (input : List Char) (s : String) (rest : List Char)
    (h : parseValue input = .ok (s, rest)) : rest.length < input.length := by
  unfold parseValue at h
  split at h
  · rename_i tl heq
    split at h
    · rename_i txt rest2 htu
      cases h
      have he := takeUntilRB_eq tl txt rest htu
      have hle := skipWs_length input
      rw [heq] at hle
      have hlen : tl.length = txt.length + 1 + rest.length := by
        rw [he]; simp; omega
      simp at hle
      omega
    · cases h
  · cases h

theorem takeIdent_eq (l : List Char) : (takeIdent l).1 ++ (takeIdent l).2 = l := by
  induction l with
  | nil => simp [takeIdent]
  | cons c rest ih =>
    simp only [takeIdent]
    split
    · simpa using ih
    · simp

theorem parseValuesAuxF_consumes (fuel : Nat) (input : List Char) (vs : List String)
    (rest : List Char) (h : parseValuesAuxF fuel input = .ok (vs, rest)) :
    rest.length ≤ input.length := by
  induction fuel generalizing input vs rest with
  | zero => cases h
  | succ fuel ih =>
    rw [parseValuesAuxF] at h
    split at h
    · split at h
      · cases h
      · rename_i v rest1 hpv
        split at h
        · cases h
        · rename_i vs1 rest2 hrec
          cases h
          have h1 := parseValue_consumes input v rest1 hpv
          have h2 := ih rest1 vs1 rest hrec
          omega
    · cases h
      exact Nat.le_refl _

theorem parseProperty_consumes (input : List Char) (p : SGFProperty) (rest : List Char)
    (h : parseProperty input = .ok (p, rest)) : rest.length < input.length := by
  unfold parseProperty at h
  split at h
  · cases h
  · rename_i hne
    split at h
    · cases h
    · rename_i v rest2 hpv
      split at h
      · cases h
      · rename_i vs rest3 hvsa
        split at h
        · cases h
        · cases h
          have h1 := parseValue_consumes _ _ _ hpv
          have h2 := parseValuesAuxF_consumes _ _ _ _ hvsa
          have h3 := takeIdent_eq (skipWs input)
          have h4 := skipWs_length input
          have h5 : (takeIdent (skipWs input)).1.length ≠ 0 := by
            intro hz
            apply hne
            simpa [List.isEmpty_iff, List.length_eq_zero] using hz
          have h6 := congrArg List.length h3
          simp at h6
          omega

theorem parsePropsAuxF_consumes (fuel : Nat) (input : List Char) (ps : List SGFProperty)
    (rest : List Char) (h : parsePropsAuxF fuel input = .ok (ps, rest)) :
    rest.length ≤ input.length := by
  induction fuel generalizing input ps rest with
  | zero => cases h
  | succ fuel ih =>
    rw [parsePropsAuxF] at h
    split at h
    · split at h
      · split at h
        · cases h
        · rename_i p rest1 hp
          split at h
          · cases h
          · rename_i ps1 rest2 hrec
            cases h
            have h1 := parseProperty_consumes input p rest1 hp
            have h2 := ih rest1 ps1 rest hrec
            omega
      · cases h
        exact Nat.le_refl _
    · cases h
      exact Nat.le_refl _

theorem parseNode_consumes (input : List Char) (ps : List SGFProperty) (rest : List Char)
    (h : parseNode input = .ok (ps, rest)) : rest.length < input.length := by
  unfold parseNode at h
  split at h
  · rename_i tl heq
    have h1 := parsePropsAuxF_consumes _ tl ps rest h
    have h2 := skipWs_length input
    rw [heq] at h2
    simp at h2
    omega
  · cases h

theorem parseNodesAuxF_consumes (fuel : Nat) (input : List Char)
    (ns : List (List SGFProperty)) (rest : List Char)
    (h : parseNodesAuxF fuel input = .ok (ns, rest)) : rest.length ≤ input.length := by
  induction fuel generalizing input ns rest with
  | zero => cases h
  | succ fuel ih =>
    rw [parseNodesAuxF] at h
    split at h
    · split at h
      · cases h
      · rename_i props rest1 hn
        split at h
        · cases h
        · rename_i ns1 rest2 hrec
          cases h
          have h1 := parseNode_consumes input props rest1 hn
          have h2 := ih rest1 ns1 rest hrec
          omega
    · cases h
      exact Nat.le_refl _

/-!  Generic invariant preservation through an `Option` fold. -/

theorem foldlM_option_inv {α β : Type} (P : β → Prop) (f : β → α → Option β)
    (hf : ∀ b a b1, f b a = some b1 → P b → P b1) :
    ∀ (l : List α) (b b1 : β), List.foldlM f b l = some b1 → P b → P b1 := by
  intro l
  induction l with
  | nil =>
    intro b b1 h hP
    simp [List.foldlM] at h
    exact h ▸ hP
  | cons a l ih =>
    intro b b1 h hP
    rw [List.foldlM_cons] at h
    cases hfa : f b a with
    | none => rw [hfa] at h; cases h
    | some b2 =>
      rw [hfa] at h
      simp at h
      exact ih b2 b1 h (hf b a b2 hfa hP)

/-- `apply_captures` in terms of the named neighbour fold: the board takes
the fold's cells and counters, and the ko result is the simple-ko test. -/
theorem apply_captures_spec (b : Board) (r c : Nat) (col : Cell) :
    b.apply_captures r c col =
      ({ b with
          cells := (capFold b r c col).cells
          captured_white := (capFold b r c col).captured_white
          captured_black := (capFold b r c col).captured_black },
        if (capFold b r c col).total = 1 ∧
            count_liberties (capFold b r c col).cells
              (find_group (capFold b r c col).cells r c b.size) b.size = 1
        then some (capFold b r c col).last else none) := by
  unfold Board.apply_captures capFold
  dsimp only
  split
  · split
    · rename_i h1 h2
      simp only [Prod.mk.injEq]
      refine ⟨trivial, ?_⟩
      exact (if_pos ⟨h1, h2⟩).symm
    · rename_i h1 h2
      simp only [Prod.mk.injEq]
      refine ⟨trivial, ?_⟩
      exact (if_neg (fun hc => h2 hc.2)).symm
  · rename_i h1
    simp only [Prod.mk.injEq]
    refine ⟨trivial, ?_⟩
    exact (if_neg (fun hc => h1 hc.1)).symm

/-- Replaying one property never changes the `size` field. -/
theorem replayProp_size (b b1 : Board) (p : SGFProperty)
    (h : replayProp b p = some b1) : b1.size = b.size := by
  cases p <;> simp only [replayProp] at h
  case B coord =>
    cases hset : setCellChecked b.cells (coordRow coord) (coordCol coord) Cell.Black with
    | none => rw [hset] at h; cases h
    | some cells1 =>
      rw [hset] at h
      simp [apply_captures_spec] at h
      rw [← h]
  case W coord =>
    cases hset : setCellChecked b.cells (coordRow coord) (coordCol coord) Cell.White with
    | none => rw [hset] at h; cases h
    | some cells1 =>
      rw [hset] at h
      simp [apply_captures_spec] at h
      rw [← h]
  case AB coords =>
    cases hf : coords.foldlM
        (fun cs coord => setCellChecked cs (coordRow coord) (coordCol coord) Cell.Black)
        b.cells with
    | none => rw [hf] at h; cases h
    | some cells1 => rw [hf] at h; simp at h; rw [← h]
  case AW coords =>
    cases hf : coords.foldlM
        (fun cs coord => setCellChecked cs (coordRow coord) (coordCol coord) Cell.White)
        b.cells with
    | none => rw [hf] at h; cases h
    | some cells1 => rw [hf] at h; simp at h; rw [← h]
  all_goals (cases h; rfl)

/-- Replaying a whole node (all its properties) never changes `size`. -/
theorem replayNode_size (t : GameTree) (b b1 : Board) (id : NodeId)
    (h : (do
      let nd ← t.node? id
      nd.properties.foldlM replayProp b) = some b1) : b1.size = b.size := by
  cases hnd : t.node? id with
  | none => rw [hnd] at h; cases h
  | some nd =>
    rw [hnd] at h
    simp at h
    exact foldlM_option_inv (fun x => x.size = b.size) replayProp
      (fun b' p b'' hp hP => (replayProp_size b' b'' p hp).trans hP)
      nd.properties b b1 h rfl

/-- C3 evaluation: on the degenerate input the claim talks about — the empty
tree produced by parsing an empty file, with cursor 0 — `Board::from_tree`
panics (the model yields `none` for the out-of-range arena index in
`GameTree::node`), instead of returning the promised all-empty board. -/
theorem C3_from_tree_empty_tree_panics :
    parse_sgf "" = .ok ⟨[], []⟩ ∧
    Board.from_tree ⟨[], []⟩ 0 = none ∧
    Board.from_tree ⟨[], []⟩ 0 ≠ some Board.init :=
  ⟨rfl, rfl, by decide⟩

/-- C4 evaluation: a pass move (`B` at the sentinel coordinate `tt`, built
exactly as the GUI pass command builds it) makes `Board::from_tree` write to
`cells[19][19]`, out of bounds — a panic (`none` in the model) — instead of
occupying no cell and incrementing the move counter. -/
theorem C4_pass_move_panics :
    GoCoord.pass.is_pass = true ∧
    (Editor.new GameTree.new).apply (.AddMove (.B GoCoord.pass)) =
      some ⟨⟨[⟨[], none, [1]⟩, ⟨[.B GoCoord.pass], some 0, []⟩], [0]⟩, 1⟩ ∧
    Board.from_tree ⟨[⟨[], none, [1]⟩, ⟨[.B GoCoord.pass], some 0, []⟩], [0]⟩ 1 = none :=
  ⟨rfl, rfl, rfl⟩

/-- C8: when the cursor's node has no children, `NavigateNext` is a no-op;
when it has no parent, `NavigatePrev` is a no-op; when the branch index is
out of range, `NavigateBranch` is a no-op — each returns the editor state
unchanged and signals nothing. -/
theorem C8_navigation_noops (e : Editor) (nd : TreeNode)
    (h : e.tree.node? e.cursor = some nd) :
    (nd.children = [] → e.apply .NavigateNext = some e) ∧
    (nd.parent = none → e.apply .NavigatePrev = some e) ∧
    (∀ n, nd.children.length ≤ n → e.apply (.NavigateBranch n) = some e) := by
  refine ⟨fun hc => ?_, fun hp => ?_, fun n hn => ?_⟩
  · simp [Editor.apply, h, hc]
  · simp [Editor.apply, h, hp]
  · simp [Editor.apply, h, List.getElem?_eq_none hn]

/-- Witness for C8 at a concrete editor state. -/
theorem C8_navigation_noops_witness :
    (Editor.new GameTree.new).apply .NavigateNext = some (Editor.new GameTree.new) ∧
    (Editor.new GameTree.new).apply .NavigatePrev = some (Editor.new GameTree.new) ∧
    (Editor.new GameTree.new).apply (.NavigateBranch 5) = some (Editor.new GameTree.new) :=
  ⟨(C8_navigation_noops (Editor.new GameTree.new) ⟨[], none, []⟩ rfl).1 rfl,
   (C8_navigation_noops (Editor.new GameTree.new) ⟨[], none, []⟩ rfl).2.1 rfl,
   (C8_navigation_noops (Editor.new GameTree.new) ⟨[], none, []⟩ rfl).2.2 5 (by decide)⟩

/-- C10: every board produced by `Board::from_tree` has size 19, and a
board-size (`SZ`) property — like every other metadata property — is a
complete no-op during replay: it changes no cell, no counter and no ko
point. -/
theorem C10_board_size_fixed (t : GameTree) (cursor : NodeId) (b : Board)
    (h : Board.from_tree t cursor = some b) :
    b.size = 19 ∧ (∀ (b0 : Board) (n : Nat), replayProp b0 (.SZ n) = some b0) := by
  constructor
  · unfold Board.from_tree at h
    cases hp : pathToRoot t cursor with
    | none => rw [hp] at h; cases h
    | some path =>
      rw [hp] at h
      simp at h
      have := foldlM_option_inv (fun x => x.size = 19)
        (fun b id => do
          let nd ← t.node? id
          nd.properties.foldlM replayProp b)
        (fun b' id b'' hstep hP => (replayNode_size t b' b'' id hstep).trans hP)
        path Board.init b h rfl
      exact this
  · intro b0 n
    rfl

/-- Witness for C10 at a concrete tree and cursor. -/
theorem C10_board_size_fixed_witness :
    Board.from_tree GameTree.new 0 = some Board.init ∧
    Board.init.size = 19 ∧
    replayProp Board.init (.SZ 9) = some Board.init :=
  ⟨rfl, (C10_board_size_fixed GameTree.new 0 Board.init rfl).1,
   (C10_board_size_fixed GameTree.new 0 Board.init rfl).2 Board.init 9⟩


/-- C9: `add_node` always allocates the fresh id `nodes.len()` — so an id is
never reused for a different node — extends the arena by exactly one slot and
only appends to the parent's child list; `remove_subtree` only filters the
removed id out of its parent's child list and never shrinks or reorders the
arena: every node keeps its slot, properties and parent. -/
theorem C9_arena_stability (t t1 t2 : GameTree) (parent id nid : NodeId)
    (props : List SGFProperty)
    (hp : parent < t.nodes.length)
    (hadd : t.add_node parent props = some (t1, nid))
    (hrem : t.remove_subtree id = some t2) :
    nid = t.nodes.length ∧
    t1.nodes.length = t.nodes.length + 1 ∧
    t1.nodes.get? nid = some ⟨props, some parent, []⟩ ∧
    (∀ j, j < t.nodes.length → j ≠ parent → t1.nodes.get? j = t.nodes.get? j) ∧
    t1.nodes.get? parent = (t.nodes.get? parent).map
      (fun pn => { pn with children := pn.children ++ [nid] }) ∧
    t2.nodes.length = t.nodes.length ∧
    (∀ j, (t2.nodes.get? j).map TreeNode.properties =
      (t.nodes.get? j).map TreeNode.properties) ∧
    (∀ j, (t2.nodes.get? j).map TreeNode.parent = (t.nodes.get? j).map TreeNode.parent) ∧
    (∀ j, (t2.nodes.get? j).map TreeNode.children = (t.nodes.get? j).map TreeNode.children ∨
          (t2.nodes.get? j).map TreeNode.children =
            (t.nodes.get? j).map (fun nd => nd.children.filter (fun c => c ≠ id))) := by
  have hremfacts : t2.nodes.length = t.nodes.length ∧
      (∀ j, (t2.nodes.get? j).map TreeNode.properties =
        (t.nodes.get? j).map TreeNode.properties) ∧
      (∀ j, (t2.nodes.get? j).map TreeNode.parent = (t.nodes.get? j).map TreeNode.parent) ∧
      (∀ j, (t2.nodes.get? j).map TreeNode.children =
          (t.nodes.get? j).map TreeNode.children ∨
        (t2.nodes.get? j).map TreeNode.children =
          (t.nodes.get? j).map (fun nd => nd.children.filter (fun c => c ≠ id))) := by
    unfold GameTree.remove_subtree at hrem
    cases hid : t.nodes.get? id with
    | none => rw [hid] at hrem; cases hrem
    | some nd =>
      rw [hid] at hrem
      dsimp only at hrem
      cases hpar : nd.parent with
      | none =>
        rw [hpar] at hrem
        cases hrem
        exact ⟨rfl, fun j => rfl, fun j => rfl, fun j => Or.inl rfl⟩
      | some rp =>
        rw [hpar] at hrem
        dsimp only at hrem
        cases hrp : t.nodes.get? rp with
        | none => rw [hrp] at hrem; cases hrem
        | some rpn =>
          rw [hrp] at hrem
          dsimp only at hrem
          cases hrem
          have hrplt : rp < t.nodes.length := by
            by_contra hc
            rw [List.get?_eq_none.mpr (Nat.le_of_not_lt hc)] at hrp
            cases hrp
          refine ⟨by simp, fun j => ?_, fun j => ?_, fun j => ?_⟩
          · by_cases hj : rp = j
            · subst hj
              rw [List.get?_set_eq_of_lt _ hrplt, hrp]
              rfl
            · rw [List.get?_set_ne _ _ hj]
          · by_cases hj : rp = j
            · subst hj
              rw [List.get?_set_eq_of_lt _ hrplt, hrp]
              rfl
            · rw [List.get?_set_ne _ _ hj]
          · by_cases hj : rp = j
            · subst hj
              right
              rw [List.get?_set_eq_of_lt _ hrplt, hrp]
              rfl
            · left
              rw [List.get?_set_ne _ _ hj]
  have hg : (t.nodes ++ [(⟨props, some parent, []⟩ : TreeNode)]).get? parent =
      t.nodes.get? parent := List.get?_append hp
  unfold GameTree.add_node at hadd
  dsimp only at hadd
  rw [hg] at hadd
  cases hpn : t.nodes.get? parent with
  | none => rw [hpn] at hadd; cases hadd
  | some pnode =>
    rw [hpn] at hadd
    cases hadd
    have hpn_ne : parent ≠ t.nodes.length := Nat.ne_of_lt hp
    refine ⟨rfl, by simp, ?_, ?_, ?_, hremfacts.1, hremfacts.2.1, hremfacts.2.2.1,
      hremfacts.2.2.2⟩
    · rw [List.get?_set_ne _ _ hpn_ne, List.get?_concat_length]
    · intro j hj hjp
      rw [List.get?_set_ne _ _ (Ne.symm hjp), List.get?_append hj]
    · rw [List.get?_set_eq_of_lt _ (Nat.lt_of_lt_of_le hp (by simp))]
      simp

/-- Witness for C9 at a concrete tree: a fresh root-only tree, adding a child
under the root and unlinking the root (a structural no-op). -/
theorem C9_arena_stability_witness :
    0 < GameTree.new.nodes.length ∧
    GameTree.new.add_node 0 [] =
      some (⟨[⟨[], none, [1]⟩, ⟨[], some 0, []⟩], [0]⟩, 1) ∧
    GameTree.new.remove_subtree 0 = some GameTree.new ∧
    (1 : NodeId) = GameTree.new.nodes.length :=
  ⟨by decide, rfl, rfl,
   (C9_arena_stability GameTree.new ⟨[⟨[], none, [1]⟩, ⟨[], some 0, []⟩], [0]⟩
      GameTree.new 0 0 1 [] (by decide) rfl rfl).1⟩


/-!  Grid lemmas. -/

theorem gridWF_setGrid {α : Type} (g : List (List α)) (n m r c : Nat) (v : α)
    (h : gridWF g n m) : gridWF (setGrid g r c v) n m := by
  unfold setGrid
  cases hg : g.get? r with
  | none => exact h
  | some row =>
    refine ⟨by simp [h.1], fun row2 hmem => ?_⟩
    rcases List.mem_or_eq_of_mem_set hmem with hmem2 | heq
    · exact h.2 row2 hmem2
    · subst heq
      simp [h.2 row (List.get?_mem hg)]

theorem getGrid_setGrid_eq {α : Type} (d : α) (g : List (List α)) (n m r c : Nat) (v : α)
    (h : gridWF g n m) (hr : r < n) (hc : c < m) :
    getGrid d (setGrid g r c v) r c = v := by
  have hrl : r < g.length := h.1 ▸ hr
  unfold setGrid
  cases hg : g.get? r with
  | none => rw [List.get?_eq_none] at hg; omega
  | some row =>
    have hrow : row.length = m := h.2 row (List.get?_mem hg)
    have hcl : c < row.length := by omega
    unfold getGrid
    rw [List.get?_set_eq_of_lt _ hrl]
    simp [List.getElem?_set_eq_of_lt _ hcl]

theorem getGrid_setGrid_ne {α : Type} (d : α) (g : List (List α)) (r c r2 c2 : Nat) (v : α)
    (hne : r ≠ r2 ∨ c ≠ c2) :
    getGrid d (setGrid g r c v) r2 c2 = getGrid d g r2 c2 := by
  unfold setGrid
  cases hg : g.get? r with
  | none => rfl
  | some row =>
    have hrl : r < g.length := by
      by_contra hcon
      rw [List.get?_eq_none.mpr (Nat.le_of_not_lt hcon)] at hg
      cases hg
    by_cases hrr : r = r2
    · subst hrr
      have hcc : c ≠ c2 := by tauto
      unfold getGrid
      rw [hg, List.get?_set_eq_of_lt _ hrl]
      simp [List.getElem?_set_ne hcc]
    · unfold getGrid
      rw [List.get?_set_ne _ _ hrr]

theorem setCellChecked_eq (cells : List (List Cell)) (r c : Nat) (v : Cell)
    (h : gridWF cells 19 19) (hr : r < 19) (hc : c < 19) :
    setCellChecked cells r c v = some (setGrid cells r c v) := by
  have hrl : r < cells.length := h.1 ▸ hr
  unfold setCellChecked setGrid
  cases hg : cells.get? r with
  | none => rw [List.get?_eq_none] at hg; omega
  | some row =>
    have hrow : row.length = 19 := h.2 row (List.get?_mem hg)
    simp [hrow, hc]
/-- Membership-aware invariant preservation through an `Option` fold. -/
theorem foldlM_option_inv_mem {α β : Type} (P : β → Prop) (f : β → α → Option β) :
    ∀ (l : List α), (∀ a ∈ l, ∀ b b1, f b a = some b1 → P b → P b1) →
    ∀ b b1, List.foldlM f b l = some b1 → P b → P b1 := by
  intro l
  induction l with
  | nil =>
    intro _ b b1 h hP
    simp [List.foldlM] at h
    exact h ▸ hP
  | cons a l ih =>
    intro hf b b1 h hP
    rw [List.foldlM_cons] at h
    cases hfa : f b a with
    | none => rw [hfa] at h; cases h
    | some b2 =>
      rw [hfa] at h
      simp at h
      exact ih (fun x hx => hf x (List.mem_cons_of_mem a hx)) b2 b1 h
        (hf a (List.mem_cons_self a l) b b2 hfa hP)

/-- The `AB`/`AW` cell fold: with well-formed cells and on-board coordinates
it succeeds and sets exactly the listed cells. -/
theorem foldSetCells (v : Cell) (coords : List GoCoord) :
    ∀ cells, gridWF cells 19 19 →
    (∀ g ∈ coords, coordRow g < 19 ∧ coordCol g < 19) →
    ∃ final, coords.foldlM
        (fun cs coord => setCellChecked cs (coordRow coord) (coordCol coord) v) cells
      = some final ∧ gridWF final 19 19 ∧
      ∀ r c, getCell final r c =
        if ∃ g ∈ coords, coordRow g = r ∧ coordCol g = c then v
        else getCell cells r c := by
  induction coords with
  | nil =>
    intro cells hwf _
    refine ⟨cells, by simp [List.foldlM], hwf, fun r c => by simp⟩
  | cons g rest ih =>
    intro cells hwf hin
    have hg := hin g (List.mem_cons_self g rest)
    have hset := setCellChecked_eq cells (coordRow g) (coordCol g) v hwf hg.1 hg.2
    obtain ⟨final, hfold, hwf2, hchar⟩ := ih (setGrid cells (coordRow g) (coordCol g) v)
      (gridWF_setGrid _ _ _ _ _ _ hwf) (fun g2 hg2 => hin g2 (List.mem_cons_of_mem g hg2))
    refine ⟨final, ?_, hwf2, fun r c => ?_⟩
    · rw [List.foldlM_cons, hset]
      simpa using hfold
    · rw [hchar r c]
      by_cases hrest : ∃ g2 ∈ rest, coordRow g2 = r ∧ coordCol g2 = c
      · have hcons : ∃ g2 ∈ g :: rest, coordRow g2 = r ∧ coordCol g2 = c := by
          obtain ⟨g2, hmem, hp⟩ := hrest
          exact ⟨g2, List.mem_cons_of_mem g hmem, hp⟩
        simp [hrest, hcons]
      · by_cases hgrc : coordRow g = r ∧ coordCol g = c
        · have hcons : ∃ g2 ∈ g :: rest, coordRow g2 = r ∧ coordCol g2 = c :=
            ⟨g, List.mem_cons_self g rest, hgrc⟩
          rw [if_neg hrest, if_pos hcons, ← hgrc.1, ← hgrc.2]
          exact getGrid_setGrid_eq Cell.Empty cells 19 19 _ _ v hwf hg.1 hg.2
        · have hcons : ¬ ∃ g2 ∈ g :: rest, coordRow g2 = r ∧ coordCol g2 = c := by
            intro ⟨g2, hmem, hp⟩
            rcases List.mem_cons.mp hmem with heq | hmem2
            · exact hgrc (heq ▸ hp)
            · exact hrest ⟨g2, hmem2, hp⟩
          rw [if_neg hrest, if_neg hcons]
          refine getGrid_setGrid_ne Cell.Empty cells _ _ r c v ?_
          by_cases h1 : coordRow g = r
          · exact Or.inr (fun h2 => hgrc ⟨h1, h2⟩)
          · exact Or.inl h1

/-- Replaying an `AB` property on a well-formed board with on-board
coordinates: exactly the listed cells turn black, the counters are
untouched, and the ko point is cleared. -/
theorem replayProp_AB (b : Board) (coords : List GoCoord)
    (hwf : gridWF b.cells 19 19)
    (hin : ∀ g ∈ coords, coordRow g < 19 ∧ coordCol g < 19) :
    ∃ b1, replayProp b (.AB coords) = some b1 ∧
      b1.move_number = b.move_number ∧
      b1.captured_white = b.captured_white ∧
      b1.captured_black = b.captured_black ∧
      b1.ko_point = none ∧
      gridWF b1.cells 19 19 ∧
      ∀ r c, getCell b1.cells r c =
        if ∃ g ∈ coords, coordRow g = r ∧ coordCol g = c then Cell.Black
        else getCell b.cells r c := by
  obtain ⟨final, hfold, hwf2, hchar⟩ := foldSetCells Cell.Black coords b.cells hwf hin
  refine ⟨{ b with ko_point := none, cells := final }, ?_, rfl, rfl, rfl, rfl, hwf2, hchar⟩
  simp only [replayProp]
  rw [hfold]
  rfl

/-- Replaying an `AW` property, symmetric to `replayProp_AB`. -/
theorem replayProp_AW (b : Board) (coords : List GoCoord)
    (hwf : gridWF b.cells 19 19)
    (hin : ∀ g ∈ coords, coordRow g < 19 ∧ coordCol g < 19) :
    ∃ b1, replayProp b (.AW coords) = some b1 ∧
      b1.move_number = b.move_number ∧
      b1.captured_white = b.captured_white ∧
      b1.captured_black = b.captured_black ∧
      b1.ko_point = none ∧
      gridWF b1.cells 19 19 ∧
      ∀ r c, getCell b1.cells r c =
        if ∃ g ∈ coords, coordRow g = r ∧ coordCol g = c then Cell.White
        else getCell b.cells r c := by
  obtain ⟨final, hfold, hwf2, hchar⟩ := foldSetCells Cell.White coords b.cells hwf hin
  refine ⟨{ b with ko_point := none, cells := final }, ?_, rfl, rfl, rfl, rfl, hwf2, hchar⟩
  simp only [replayProp]
  rw [hfold]
  rfl

/-- Replaying a non-move property never changes the move counter. -/
theorem replayProp_nonmove_move_number (b b1 : Board) (p : SGFProperty)
    (hnm : isMoveProp p = false) (h : replayProp b p = some b1) :
    b1.move_number = b.move_number := by
  cases p
  case B coord => simp [isMoveProp] at hnm
  case W coord => simp [isMoveProp] at hnm
  all_goals simp only [replayProp] at h
  case AB coords =>
    cases hf : coords.foldlM
        (fun cs coord => setCellChecked cs (coordRow coord) (coordCol coord) Cell.Black)
        b.cells with
    | none => rw [hf] at h; cases h
    | some cells1 => rw [hf] at h; simp at h; rw [← h]
  case AW coords =>
    cases hf : coords.foldlM
        (fun cs coord => setCellChecked cs (coordRow coord) (coordCol coord) Cell.White)
        b.cells with
    | none => rw [hf] at h; cases h
    | some cells1 => rw [hf] at h; simp at h; rw [← h]
  all_goals (cases h; rfl)

/-- C7: an `AB`/`AW` setup property sets exactly the listed cells to the
given colour, leaves the move counter and both capture counters unchanged,
and unconditionally clears the ko point; a path carrying no move property
replays to move counter 0. -/
theorem C7_setup_stones (b : Board) (coords : List GoCoord)
    (hwf : gridWF b.cells 19 19)
    (hin : ∀ g ∈ coords, coordRow g < 19 ∧ coordCol g < 19) :
    (∃ b1, replayProp b (.AB coords) = some b1 ∧
      b1.move_number = b.move_number ∧
      b1.captured_white = b.captured_white ∧
      b1.captured_black = b.captured_black ∧
      b1.ko_point = none ∧
      ∀ r c, getCell b1.cells r c =
        if ∃ g ∈ coords, coordRow g = r ∧ coordCol g = c then Cell.Black
        else getCell b.cells r c) ∧
    (∃ b1, replayProp b (.AW coords) = some b1 ∧
      b1.move_number = b.move_number ∧
      b1.captured_white = b.captured_white ∧
      b1.captured_black = b.captured_black ∧
      b1.ko_point = none ∧
      ∀ r c, getCell b1.cells r c =
        if ∃ g ∈ coords, coordRow g = r ∧ coordCol g = c then Cell.White
        else getCell b.cells r c) ∧
    (∀ (t : GameTree) (cur : NodeId) (ids : List NodeId) (b2 : Board),
      pathToRoot t cur = some ids →
      (∀ id ∈ ids, ∀ nd, t.node? id = some nd → ∀ p ∈ nd.properties, isMoveProp p = false) →
      Board.from_tree t cur = some b2 → b2.move_number = 0) := by
  refine ⟨?_, ?_, ?_⟩
  · obtain ⟨b1, h1, h2, h3, h4, h5, _, h7⟩ := replayProp_AB b coords hwf hin
    exact ⟨b1, h1, h2, h3, h4, h5, h7⟩
  · obtain ⟨b1, h1, h2, h3, h4, h5, _, h7⟩ := replayProp_AW b coords hwf hin
    exact ⟨b1, h1, h2, h3, h4, h5, h7⟩
  · intro t cur ids b2 hpath hprops hft
    unfold Board.from_tree at hft
    rw [hpath] at hft
    simp at hft
    refine foldlM_option_inv_mem (fun x => x.move_number = 0) _ ids ?_ Board.init b2 hft rfl
    intro id hid bx bx1 hstep hP
    cases hnd : t.node? id with
    | none => rw [hnd] at hstep; cases hstep
    | some nd =>
      rw [hnd] at hstep
      simp at hstep
      refine foldlM_option_inv_mem (fun x => x.move_number = 0) replayProp
        nd.properties ?_ bx bx1 hstep hP
      intro p hp by' b1' hrp hP'
      rw [replayProp_nonmove_move_number by' b1' p (hprops id hid nd hnd p hp) hrp]
      exact hP'

/-- Witness for C7 at a concrete board and coordinate list. -/
theorem C7_setup_stones_witness :
    gridWF Board.init.cells 19 19 ∧
    (∃ b1, replayProp Board.init (.AB [⟨99⟩]) = some b1 ∧
      b1.move_number = Board.init.move_number ∧
      b1.captured_white = Board.init.captured_white ∧
      b1.captured_black = Board.init.captured_black ∧
      b1.ko_point = none ∧
      ∀ r c, getCell b1.cells r c =
        if ∃ g ∈ [(⟨99⟩ : GoCoord)], coordRow g = r ∧ coordCol g = c then Cell.Black
        else getCell Board.init.cells r c) :=
  ⟨by unfold gridWF Board.init; decide,
   (C7_setup_stones Board.init [⟨99⟩] (by unfold gridWF Board.init; decide) (by decide)).1⟩

/-!  Neighbour and connectivity lemmas. -/

theorem mem_orthogonal_neighbors (r c size : Nat) (q : Nat × Nat) :
    q ∈ orthogonal_neighbors r c size ↔
      ((0 < r ∧ q = (r - 1, c)) ∨ (r + 1 < size ∧ q = (r + 1, c)) ∨
       (0 < c ∧ q = (r, c - 1)) ∨ (c + 1 < size ∧ q = (r, c + 1))) := by
  unfold orthogonal_neighbors
  simp only [List.mem_append]
  constructor
  · intro h
    rcases h with ((h | h) | h) | h
    · split_ifs at h with hh
      · exact Or.inl ⟨hh, List.mem_singleton.mp h⟩
      · simp at h
    · split_ifs at h with hh
      · exact Or.inr (Or.inl ⟨hh, List.mem_singleton.mp h⟩)
      · simp at h
    · split_ifs at h with hh
      · exact Or.inr (Or.inr (Or.inl ⟨hh, List.mem_singleton.mp h⟩))
      · simp at h
    · split_ifs at h with hh
      · exact Or.inr (Or.inr (Or.inr ⟨hh, List.mem_singleton.mp h⟩))
      · simp at h
  · intro h
    rcases h with ⟨hh, rfl⟩ | ⟨hh, rfl⟩ | ⟨hh, rfl⟩ | ⟨hh, rfl⟩
    · exact Or.inl (Or.inl (Or.inl (by simp [hh])))
    · exact Or.inl (Or.inl (Or.inr (by simp [hh])))
    · exact Or.inl (Or.inr (by simp [hh]))
    · exact Or.inr (by simp [hh])

theorem orthogonal_neighbors_length (r c size : Nat) :
    (orthogonal_neighbors r c size).length ≤ 4 := by
  unfold orthogonal_neighbors
  split_ifs <;> simp

theorem orthogonal_neighbors_inB (r c : Nat) (q : Nat × Nat)
    (hp : r < 19 ∧ c < 19) (hq : q ∈ orthogonal_neighbors r c 19) : inB q := by
  rw [mem_orthogonal_neighbors] at hq
  unfold inB
  rcases hq with ⟨h, rfl⟩ | ⟨h, rfl⟩ | ⟨h, rfl⟩ | ⟨h, rfl⟩ <;> simp <;> omega

theorem orthogonal_neighbors_symm (p q : Nat × Nat) (hp : inB p)
    (hq : q ∈ orthogonal_neighbors p.1 p.2 19) :
    p ∈ orthogonal_neighbors q.1 q.2 19 := by
  obtain ⟨a, b⟩ := p
  obtain ⟨h1, h2⟩ := hp
  rw [mem_orthogonal_neighbors] at hq
  rw [mem_orthogonal_neighbors]
  rcases hq with ⟨h, rfl⟩ | ⟨h, rfl⟩ | ⟨h, rfl⟩ | ⟨h, rfl⟩
  · refine Or.inr (Or.inl ⟨by omega, ?_⟩)
    have he : a - 1 + 1 = a := by omega
    rw [he]
  · refine Or.inl ⟨by omega, ?_⟩
    have he : a + 1 - 1 = a := by simp
    rw [he]
  · refine Or.inr (Or.inr (Or.inr ⟨by omega, ?_⟩))
    have he : b - 1 + 1 = b := by omega
    rw [he]
  · refine Or.inr (Or.inr (Or.inl ⟨by omega, ?_⟩))
    have he : b + 1 - 1 = b := by simp
    rw [he]

theorem conn_inB_color (cells : List (List Cell)) (color : Cell) (p q : Nat × Nat)
    (h0 : inB p) (hcol : getCell cells p.1 p.2 = color) (h : conn cells color p q) :
    inB q ∧ getCell cells q.1 q.2 = color := by
  induction h with
  | refl => exact ⟨h0, hcol⟩
  | tail hab hbc ih =>
    exact ⟨orthogonal_neighbors_inB _ _ _ ih.1 hbc.1, hbc.2⟩

theorem conn_symm (cells : List (List Cell)) (color : Cell) (p q : Nat × Nat)
    (h0 : inB p) (hcol : getCell cells p.1 p.2 = color) (h : conn cells color p q) :
    conn cells color q p := by
  induction h with
  | refl => exact Relation.ReflTransGen.refl
  | tail hab hbc ih =>
    rename_i b c2
    have hb := conn_inB_color cells color p b h0 hcol hab
    exact Relation.ReflTransGen.head ⟨orthogonal_neighbors_symm b c2 hb.1 hbc.1, hb.2⟩ ih

/-!  Visited-count lemmas for the DFS measure. -/

theorem getGrid_replicate_false (r c : Nat) :
    getGrid false (List.replicate 19 (List.replicate 19 false)) r c = false := by
  unfold getGrid
  rcases Nat.lt_or_ge r 19 with hr | hr
  · rw [List.get?_eq_getElem?, List.getElem?_replicate, if_pos hr]
    rcases Nat.lt_or_ge c 19 with hc | hc
    · rw [Option.some_bind, List.get?_eq_getElem?, List.getElem?_replicate, if_pos hc]
      rfl
    · rw [Option.some_bind, List.get?_eq_getElem?, List.getElem?_replicate,
        if_neg (Nat.not_lt.mpr hc)]
      rfl
  · rw [List.get?_eq_getElem?, List.getElem?_replicate, if_neg (Nat.not_lt.mpr hr)]
    rfl

theorem unvisCount_init : unvisCount (List.replicate 19 (List.replicate 19 false)) = 361 := by
  unfold unvisCount
  rw [Finset.filter_true_of_mem (fun p _ => getGrid_replicate_false p.1 p.2)]
  simp

theorem unvisCount_setTrue (vis : List (List Bool)) (r c : Nat)
    (hwf : gridWF vis 19 19) (hr : r < 19) (hc : c < 19)
    (hun : getGrid false vis r c = false) :
    unvisCount (setGrid vis r c true) < unvisCount vis := by
  unfold unvisCount
  have hsub : (((Finset.range 19) ×ˢ (Finset.range 19)).filter
      (fun p => getGrid false (setGrid vis r c true) p.1 p.2 = false)) ⊆
      (((Finset.range 19) ×ˢ (Finset.range 19)).filter
      (fun p => getGrid false vis p.1 p.2 = false)) := by
    intro pp hp
    obtain ⟨x, y⟩ := pp
    simp only [Finset.mem_filter, Finset.mem_product, Finset.mem_range] at hp ⊢
    refine ⟨hp.1, ?_⟩
    by_cases heq : x = r ∧ y = c
    · exfalso
      obtain ⟨rfl, rfl⟩ := heq
      rw [getGrid_setGrid_eq false vis 19 19 x y true hwf hp.1.1 hp.1.2] at hp
      exact Bool.noConfusion hp.2
    · have harg : r ≠ x ∨ c ≠ y := by tauto
      rw [← getGrid_setGrid_ne false vis r c x y true harg]
      exact hp.2
  refine Finset.card_lt_card ((Finset.ssubset_iff_of_subset hsub).mpr ⟨(r, c), ?_, ?_⟩)
  · simp only [Finset.mem_filter, Finset.mem_product, Finset.mem_range]
    exact ⟨⟨hr, hc⟩, hun⟩
  · simp only [Finset.mem_filter, Finset.mem_product, Finset.mem_range, not_and]
    intro _
    rw [getGrid_setGrid_eq false vis 19 19 r c true hwf hr hc]
    simp

theorem getGrid_setTrue_mono (vis : List (List Bool)) (r c : Nat) (q : Nat × Nat)
    (hwf : gridWF vis 19 19) (hr : r < 19) (hc : c < 19)
    (h : getGrid false vis q.1 q.2 = true) :
    getGrid false (setGrid vis r c true) q.1 q.2 = true := by
  by_cases heq : r = q.1 ∧ c = q.2
  · obtain ⟨rfl, rfl⟩ := heq
    exact getGrid_setGrid_eq false vis 19 19 q.1 q.2 true hwf hr hc
  · have harg : r ≠ q.1 ∨ c ≠ q.2 := by tauto
    rw [getGrid_setGrid_ne false vis r c q.1 q.2 true harg]
    exact h

theorem findGroupAux_spec (cells : List (List Cell)) (color : Cell) :
    ∀ (fuel : Nat) (vis : List (List Bool)) (stack group : List (Nat × Nat)),
    gridWF vis 19 19 →
    5 * unvisCount vis + stack.length ≤ fuel →
    (∀ q ∈ stack, inB q ∧ getCell cells q.1 q.2 = color) →
    (∀ q, getGrid false vis q.1 q.2 = true → q ∈ group) →
    (∀ q ∈ group, getGrid false vis q.1 q.2 = true ∧ inB q ∧ getCell cells q.1 q.2 = color) →
    group.Nodup →
    (∀ q ∈ group, ∀ rr, rr ∈ orthogonal_neighbors q.1 q.2 19 →
      getCell cells rr.1 rr.2 = color → getGrid false vis rr.1 rr.2 = true ∨ rr ∈ stack) →
    (group ⊆ findGroupAux cells color 19 fuel vis stack group ∧
     (∀ q ∈ stack, q ∈ findGroupAux cells color 19 fuel vis stack group) ∧
     (findGroupAux cells color 19 fuel vis stack group).Nodup ∧
     (∀ q ∈ findGroupAux cells color 19 fuel vis stack group,
        inB q ∧ getCell cells q.1 q.2 = color) ∧
     (∀ q ∈ findGroupAux cells color 19 fuel vis stack group,
        q ∈ group ∨ ∃ s ∈ stack, conn cells color s q) ∧
     (∀ q ∈ findGroupAux cells color 19 fuel vis stack group,
        ∀ rr, rr ∈ orthogonal_neighbors q.1 q.2 19 → getCell cells rr.1 rr.2 = color →
          rr ∈ findGroupAux cells color 19 fuel vis stack group)) := by
  intro fuel
  induction fuel with
  | zero =>
    intro vis stack group hwf hfuel hstack hvis2g hg2vis hnd hclos
    have hstack0 : stack = [] := List.length_eq_zero.mp (by omega)
    subst hstack0
    refine ⟨fun q hq => hq, by simp, hnd,
      fun q hq => ⟨(hg2vis q hq).2.1, (hg2vis q hq).2.2⟩,
      fun q hq => Or.inl hq, ?_⟩
    intro q hq rr hrrmem hrrcol
    rcases hclos q hq rr hrrmem hrrcol with hvis | hmem
    · exact hvis2g rr hvis
    · simp at hmem
  | succ fuel ih =>
    intro vis stack group hwf hfuel hstack hvis2g hg2vis hnd hclos
    cases stack with
    | nil =>
      have heq : findGroupAux cells color 19 (fuel + 1) vis [] group = group := by
        rw [findGroupAux]
      rw [heq]
      refine ⟨fun q hq => hq, by simp, hnd,
        fun q hq => ⟨(hg2vis q hq).2.1, (hg2vis q hq).2.2⟩,
        fun q hq => Or.inl hq, ?_⟩
      intro q hq rr hrrmem hrrcol
      rcases hclos q hq rr hrrmem hrrcol with hvis | hmem
      · exact hvis2g rr hvis
      · simp at hmem
    | cons hd rest =>
      obtain ⟨r, c⟩ := hd
      by_cases hv : getGrid false vis r c = true
      · -- already visited: pop and continue
        have heq : findGroupAux cells color 19 (fuel + 1) vis ((r, c) :: rest) group =
            findGroupAux cells color 19 fuel vis rest group := by
          rw [findGroupAux]
          simp [hv]
        have hclos2 : ∀ q ∈ group, ∀ rr, rr ∈ orthogonal_neighbors q.1 q.2 19 →
            getCell cells rr.1 rr.2 = color →
            getGrid false vis rr.1 rr.2 = true ∨ rr ∈ rest := by
          intro q hq rr h1 h2
          rcases hclos q hq rr h1 h2 with h3 | h3
          · exact Or.inl h3
          · rcases List.mem_cons.mp h3 with h4 | h4
            · exact Or.inl (h4 ▸ hv)
            · exact Or.inr h4
        obtain ⟨c1, c2, c3, c4, c5, c6⟩ := ih vis rest group hwf (by simp at hfuel ⊢; omega)
          (fun q hq => hstack q (List.mem_cons_of_mem _ hq)) hvis2g hg2vis hnd hclos2
        rw [heq]
        refine ⟨c1, ?_, c3, c4, ?_, c6⟩
        · intro q hq
          rcases List.mem_cons.mp hq with h4 | h4
          · exact c1 (hvis2g q (h4 ▸ hv))
          · exact c2 q h4
        · intro q hq
          rcases c5 q hq with h4 | h4
          · exact Or.inl h4
          · obtain ⟨s, hs1, hs2⟩ := h4
            exact Or.inr ⟨s, List.mem_cons_of_mem _ hs1, hs2⟩
      · -- fresh cell: mark it, push its unvisited same-colour neighbours
        have hvfalse : getGrid false vis r c = false := by
          cases hgv : getGrid false vis r c
          · rfl
          · exact absurd hgv hv
        have hinb : inB (r, c) := (hstack (r, c) (List.mem_cons_self _ _)).1
        have hcol : getCell cells r c = color := (hstack (r, c) (List.mem_cons_self _ _)).2
        have heq : findGroupAux cells color 19 (fuel + 1) vis ((r, c) :: rest) group =
            findGroupAux cells color 19 fuel (setGrid vis r c true)
              (((orthogonal_neighbors r c 19).filter
                (fun p => ¬ getGrid false (setGrid vis r c true) p.1 p.2 ∧
                  getCell cells p.1 p.2 = color)).reverse ++ rest)
              (group ++ [(r, c)]) := by
          rw [findGroupAux]
          simp [hvfalse, hcol]
        have hwf1 : gridWF (setGrid vis r c true) 19 19 :=
          gridWF_setGrid vis 19 19 r c true hwf
        have htrue : getGrid false (setGrid vis r c true) r c = true :=
          getGrid_setGrid_eq false vis 19 19 r c true hwf hinb.1 hinb.2
        have hnotin : (r, c) ∉ group := by
          intro hmem
          exact absurd (hg2vis (r, c) hmem).1 hv
        have hfuel1 : 5 * unvisCount (setGrid vis r c true) +
            (((orthogonal_neighbors r c 19).filter
              (fun p => ¬ getGrid false (setGrid vis r c true) p.1 p.2 ∧
                getCell cells p.1 p.2 = color)).reverse ++ rest).length ≤ fuel := by
          have hu := unvisCount_setTrue vis r c hwf hinb.1 hinb.2 hvfalse
          have hn1 : (((orthogonal_neighbors r c 19).filter
              (fun p => ¬ getGrid false (setGrid vis r c true) p.1 p.2 ∧
                getCell cells p.1 p.2 = color))).length ≤ 4 :=
            Nat.le_trans (List.length_filter_le _ _) (orthogonal_neighbors_length r c 19)
          simp only [List.length_append, List.length_reverse, List.length_cons] at hfuel ⊢
          omega
        have hstack1 : ∀ q ∈ (((orthogonal_neighbors r c 19).filter
            (fun p => ¬ getGrid false (setGrid vis r c true) p.1 p.2 ∧
              getCell cells p.1 p.2 = color)).reverse ++ rest),
            inB q ∧ getCell cells q.1 q.2 = color := by
          intro q hq
          rcases List.mem_append.mp hq with hq1 | hq1
          · rw [List.mem_reverse] at hq1
            have hq2 := List.mem_filter.mp hq1
            have hq3 : getCell cells q.1 q.2 = color := by
              have := hq2.2
              simp at this
              exact this.2
            exact ⟨orthogonal_neighbors_inB r c q ⟨hinb.1, hinb.2⟩ hq2.1, hq3⟩
          · exact hstack q (List.mem_cons_of_mem _ hq1)
        have hvis2g1 : ∀ q, getGrid false (setGrid vis r c true) q.1 q.2 = true →
            q ∈ group ++ [(r, c)] := by
          intro q hq
          by_cases heq2 : r = q.1 ∧ c = q.2
          · have : q = (r, c) := by
              obtain ⟨a, b⟩ := q
              simp only at heq2
              simp [heq2.1.symm, heq2.2.symm]
            exact this ▸ List.mem_append_right group (List.mem_singleton.mpr rfl)
          · have harg : r ≠ q.1 ∨ c ≠ q.2 := by tauto
            rw [getGrid_setGrid_ne false vis r c q.1 q.2 true harg] at hq
            exact List.mem_append_left _ (hvis2g q hq)
        have hg2vis1 : ∀ q ∈ group ++ [(r, c)],
            getGrid false (setGrid vis r c true) q.1 q.2 = true ∧ inB q ∧
            getCell cells q.1 q.2 = color := by
          intro q hq
          rcases List.mem_append.mp hq with hq1 | hq1
          · obtain ⟨h1, h2, h3⟩ := hg2vis q hq1
            exact ⟨getGrid_setTrue_mono vis r c q hwf hinb.1 hinb.2 h1, h2, h3⟩
          · rw [List.mem_singleton.mp hq1]
            exact ⟨htrue, hinb, hcol⟩
        have hnd1 : (group ++ [(r, c)]).Nodup := by
          rw [List.nodup_append]
          exact ⟨hnd, List.nodup_singleton _, by
            intro a ha hb
            rw [List.mem_singleton.mp hb] at ha
            exact hnotin ha⟩
        have hclos1 : ∀ q ∈ group ++ [(r, c)], ∀ rr,
            rr ∈ orthogonal_neighbors q.1 q.2 19 → getCell cells rr.1 rr.2 = color →
            getGrid false (setGrid vis r c true) rr.1 rr.2 = true ∨
            rr ∈ (((orthogonal_neighbors r c 19).filter
              (fun p => ¬ getGrid false (setGrid vis r c true) p.1 p.2 ∧
                getCell cells p.1 p.2 = color)).reverse ++ rest) := by
          intro q hq rr h1 h2
          rcases List.mem_append.mp hq with hq1 | hq1
          · rcases hclos q hq1 rr h1 h2 with h3 | h3
            · exact Or.inl (getGrid_setTrue_mono vis r c rr hwf hinb.1 hinb.2 h3)
            · rcases List.mem_cons.mp h3 with h4 | h4
              · exact Or.inl (h4 ▸ htrue)
              · exact Or.inr (List.mem_append_right _ h4)
          · rw [List.mem_singleton.mp hq1] at h1
            by_cases hv1 : getGrid false (setGrid vis r c true) rr.1 rr.2 = true
            · exact Or.inl hv1
            · refine Or.inr (List.mem_append_left _ ?_)
              rw [List.mem_reverse]
              refine List.mem_filter.mpr ⟨h1, ?_⟩
              simp [hv1, h2]
        obtain ⟨c1, c2, c3, c4, c5, c6⟩ := ih (setGrid vis r c true) _ _
          hwf1 hfuel1 hstack1 hvis2g1 hg2vis1 hnd1 hclos1
        rw [heq]
        refine ⟨fun q hq => c1 (List.mem_append_left _ hq), ?_, c3, c4, ?_, c6⟩
        · intro q hq
          rcases List.mem_cons.mp hq with h4 | h4
          · exact h4 ▸ c1 (List.mem_append_right _ (List.mem_singleton.mpr rfl))
          · exact c2 q (List.mem_append_right _ h4)
        · intro q hq
          rcases c5 q hq with h4 | h4
          · rcases List.mem_append.mp h4 with h5 | h5
            · exact Or.inl h5
            · refine Or.inr ⟨(r, c), List.mem_cons_self _ _, ?_⟩
              rw [List.mem_singleton.mp h5]
              exact Relation.ReflTransGen.refl
          · obtain ⟨s, hs1, hs2⟩ := h4
            rcases List.mem_append.mp hs1 with h5 | h5
            · rw [List.mem_reverse] at h5
              have h6 := List.mem_filter.mp h5
              have h7 : getCell cells s.1 s.2 = color := by
                have := h6.2
                simp at this
                exact this.2
              refine Or.inr ⟨(r, c), List.mem_cons_self _ _,
                Relation.ReflTransGen.head ⟨h6.1, h7⟩ hs2⟩
            · exact Or.inr ⟨s, List.mem_cons_of_mem _ h5, hs2⟩

/-- `find_group` computes exactly the connected same-colour group of the
start cell: membership is spec-level connectivity, the list repeats no cell,
and every member is on the board and of the start's colour. -/
theorem find_group_eq (cells : List (List Cell)) (r c : Nat)
    (hr : r < 19) (hc : c < 19) :
    (∀ q, q ∈ find_group cells r c 19 ↔ conn cells (getCell cells r c) (r, c) q) ∧
    (find_group cells r c 19).Nodup ∧
    (∀ q ∈ find_group cells r c 19, inB q ∧ getCell cells q.1 q.2 = getCell cells r c) := by
  have hwf0 : gridWF (List.replicate 19 (List.replicate 19 false)) 19 19 := by
    refine ⟨by simp, fun row hrow => ?_⟩
    rw [List.eq_of_mem_replicate hrow]
    simp
  obtain ⟨c1, c2, c3, c4, c5, c6⟩ := findGroupAux_spec cells (getCell cells r c) (5 * 361 + 1)
    (List.replicate 19 (List.replicate 19 false)) [(r, c)] [] hwf0
    (by rw [unvisCount_init]; simp)
    (fun q hq => by
      rw [List.mem_singleton.mp hq]
      exact ⟨⟨hr, hc⟩, rfl⟩)
    (fun q hq => by
      rw [getGrid_replicate_false q.1 q.2] at hq
      exact Bool.noConfusion hq)
    (fun q hq => absurd hq (List.not_mem_nil q))
    List.nodup_nil
    (fun q hq => absurd hq (List.not_mem_nil q))
  refine ⟨fun q => ⟨fun hq => ?_, fun hq => ?_⟩, c3, c4⟩
  · rcases c5 q hq with h | ⟨s, hs1, hs2⟩
    · exact absurd h (List.not_mem_nil q)
    · rw [List.mem_singleton.mp hs1] at hs2
      exact hs2
  · induction hq with
    | refl => exact c2 (r, c) (List.mem_singleton.mpr rfl)
    | tail hab hbc ihq => exact c6 _ ihq _ hbc.1 hbc.2

/-- The size of the group list is the number of cells in the spec-level
connected group. -/
theorem find_group_length (cells : List (List Cell)) (r c : Nat)
    (hr : r < 19) (hc : c < 19) :
    (find_group cells r c 19).length =
      Set.ncard {q | conn cells (getCell cells r c) (r, c) q} := by
  obtain ⟨hiff, hnd, _⟩ := find_group_eq cells r c hr hc
  have hset : {q | conn cells (getCell cells r c) (r, c) q} =
      ↑(find_group cells r c 19).toFinset := by
    ext q
    simp [← hiff q]
  rw [hset, Set.ncard_coe_Finset, List.card_toFinset, List.Nodup.dedup hnd]

/-- Zero liberties in the code sense is exactly the spec's condition: no
member of the group has an empty orthogonal neighbour. -/
theorem count_liberties_eq_zero (cells : List (List Cell)) (group : List (Nat × Nat))
    (size : Nat) :
    count_liberties cells group size = 0 ↔
      ∀ q ∈ group, ∀ rr ∈ orthogonal_neighbors q.1 q.2 size,
        getCell cells rr.1 rr.2 ≠ Cell.Empty := by
  unfold count_liberties
  rw [List.length_eq_zero, List.dedup_eq_nil]
  constructor
  · intro h q hq rr hrr hemp
    have : rr ∈ (group.flatMap fun p => (orthogonal_neighbors p.1 p.2 size).filter
        (fun qq => getCell cells qq.1 qq.2 = Cell.Empty)) := by
      rw [List.mem_flatMap]
      exact ⟨q, hq, List.mem_filter.mpr ⟨hrr, by simp [hemp]⟩⟩
    rw [h] at this
    exact absurd this (List.not_mem_nil rr)
  · intro h
    rw [List.eq_nil_iff_forall_not_mem]
    intro rr hmem
    rw [List.mem_flatMap] at hmem
    obtain ⟨q, hq, hmem2⟩ := hmem
    have h2 := List.mem_filter.mp hmem2
    have h3 : getCell cells rr.1 rr.2 = Cell.Empty := by
      have := h2.2
      simpa using this
    exact h q hq rr h2.1 h3

/-!  Removal-predicate lemmas for the capture fold. -/

theorem getCell_out_of_bounds (cells : List (List Cell)) (q : Nat × Nat)
    (hwf : gridWF cells 19 19) (h : ¬ inB q) : getCell cells q.1 q.2 = Cell.Empty := by
  unfold inB at h
  unfold getCell getGrid
  rcases Nat.lt_or_ge q.1 19 with h1 | h1
  · have h2 : 19 ≤ q.2 := by omega
    cases hg : cells.get? q.1 with
    | none => rfl
    | some row =>
      have hrow : row.length = 19 := hwf.2 row (List.get?_mem hg)
      rw [Option.some_bind, List.get?_eq_none.mpr (by omega)]
      rfl
  · rw [List.get?_eq_none.mpr (by rw [hwf.1]; omega)]
    rfl

theorem remIn_inB (cells : List (List Cell)) (opp : Cell) (L : List (Nat × Nat))
    (q : Nat × Nat) (hwf : gridWF cells 19 19) (hopp : opp ≠ Cell.Empty)
    (h : remIn cells opp L q) : inB q := by
  by_contra hc
  have h1 := h.1
  rw [getCell_out_of_bounds cells q hwf hc] at h1
  exact hopp h1.symm

theorem remIn_mono (cells : List (List Cell)) (opp : Cell) (L L2 : List (Nat × Nat))
    (q : Nat × Nat) (hsub : ∀ n ∈ L, n ∈ L2) (h : remIn cells opp L q) :
    remIn cells opp L2 q := by
  obtain ⟨h1, n, hn, h2⟩ := h
  exact ⟨h1, n, hsub n hn, h2⟩

theorem remIn_append_singleton (cells : List (List Cell)) (opp : Cell)
    (L : List (Nat × Nat)) (n q : Nat × Nat) :
    remIn cells opp (L ++ [n]) q ↔
      remIn cells opp L q ∨
      (getCell cells q.1 q.2 = opp ∧ getCell cells n.1 n.2 = opp ∧
        conn cells opp n q ∧ deadGroup cells opp n) := by
  constructor
  · rintro ⟨h1, m, hm, h2⟩
    rcases List.mem_append.mp hm with hm2 | hm2
    · exact Or.inl ⟨h1, m, hm2, h2⟩
    · rw [List.mem_singleton.mp hm2] at h2
      exact Or.inr ⟨h1, h2⟩
  · rintro (⟨h1, m, hm, h2⟩ | ⟨h1, h2⟩)
    · exact ⟨h1, m, List.mem_append_left _ hm, h2⟩
    · exact ⟨h1, n, List.mem_append_right _ (List.mem_singleton.mpr rfl), h2⟩

/-- Pulling an endpoint into the removed set: if `q` is removed and the
`opp`-stone `n` connects to `q`, then `n` is removed too. -/
theorem remIn_pull (cells : List (List Cell)) (opp : Cell) (L : List (Nat × Nat))
    (n q : Nat × Nat) (hwf : gridWF cells 19 19) (hopp : opp ≠ Cell.Empty)
    (hn : getCell cells n.1 n.2 = opp) (hconn : conn cells opp n q)
    (h : remIn cells opp L q) : remIn cells opp L n := by
  obtain ⟨h1, m, hm, hmo, hmc, hmd⟩ := h
  have hninB : inB n := by
    by_contra hc
    rw [getCell_out_of_bounds cells n hwf hc] at hn
    exact hopp hn.symm
  have hqn : conn cells opp q n := conn_symm cells opp n q hninB hn hconn
  exact ⟨hn, m, hm, hmo, Relation.ReflTransGen.trans hmc hqn, hmd⟩

/-- The set removed via entries `L` is finite (it lives on the board). -/
theorem remIn_finite (cells : List (List Cell)) (opp : Cell) (L : List (Nat × Nat))
    (hwf : gridWF cells 19 19) (hopp : opp ≠ Cell.Empty) :
    {q | remIn cells opp L q}.Finite := by
  refine Set.Finite.subset (Set.finite_Icc ((0, 0) : Nat × Nat) (19, 19)) ?_
  intro q hq
  have := remIn_inB cells opp L q hwf hopp hq
  obtain ⟨h1, h2⟩ := this
  simp [Prod.le_def]
  omega

/-- Writing a constant on a list of on-board points: pointwise description. -/
theorem foldl_setGrid_spec (v : Cell) (pts : List (Nat × Nat)) :
    ∀ cells, gridWF cells 19 19 → (∀ p ∈ pts, inB p) →
    gridWF (pts.foldl (fun cs p => setGrid cs p.1 p.2 v) cells) 19 19 ∧
    ∀ q, inB q →
      getCell (pts.foldl (fun cs p => setGrid cs p.1 p.2 v) cells) q.1 q.2 =
        if q ∈ pts then v else getCell cells q.1 q.2 := by
  induction pts with
  | nil =>
    intro cells hwf _
    refine ⟨hwf, fun q _ => by simp⟩
  | cons p rest ih =>
    intro cells hwf hin
    have hp := hin p (List.mem_cons_self _ _)
    obtain ⟨ihwf, ihchar⟩ := ih (setGrid cells p.1 p.2 v)
      (gridWF_setGrid _ _ _ _ _ _ hwf) (fun p2 hp2 => hin p2 (List.mem_cons_of_mem _ hp2))
    refine ⟨ihwf, fun q hq => ?_⟩
    rw [List.foldl_cons, ihchar q hq]
    by_cases hrest : q ∈ rest
    · simp [hrest, List.mem_cons_of_mem]
    · by_cases hpq : q = p
      · subst hpq
        rw [if_neg hrest, if_pos (List.mem_cons_self _ _)]
        exact getGrid_setGrid_eq Cell.Empty cells 19 19 q.1 q.2 v hwf hq.1 hq.2
      · have hnot : q ∉ p :: rest := by
          intro hmem
          rcases List.mem_cons.mp hmem with h | h
          · exact hpq h
          · exact hrest h
        rw [if_neg hrest, if_neg hnot]
        refine getGrid_setGrid_ne Cell.Empty cells p.1 p.2 q.1 q.2 v ?_
        by_cases h1 : p.1 = q.1
        · refine Or.inr (fun h2 => hpq ?_)
          obtain ⟨x, y⟩ := q
          obtain ⟨z, w⟩ := p
          simp only at h1 h2
          simp [h1, h2]
        · exact Or.inl h1

/-!  Transfer lemmas between the post-placement board and the partially
captured board of the neighbour loop. -/

theorem conn_transfer_fwd (cells0 stc : List (List Cell)) (opp : Cell)
    (L : List (Nat × Nat)) (hopp : opp ≠ Cell.Empty)
    (hok : ∀ q, inB q →
      (remIn cells0 opp L q → getCell stc q.1 q.2 = Cell.Empty) ∧
      (¬ remIn cells0 opp L q → getCell stc q.1 q.2 = getCell cells0 q.1 q.2))
    (n : Nat × Nat) (hninB : inB n) (hn : getCell stc n.1 n.2 = opp)
    (q : Nat × Nat) (h : conn stc opp n q) : conn cells0 opp n q := by
  induction h with
  | refl => exact Relation.ReflTransGen.refl
  | tail hab hbc ihq =>
    rename_i b c2
    have hbinB : inB b ∧ getCell stc b.1 b.2 = opp :=
      conn_inB_color stc opp n b hninB hn hab
    have hc2inB : inB c2 := orthogonal_neighbors_inB b.1 b.2 c2 ⟨hbinB.1.1, hbinB.1.2⟩ hbc.1
    have hc2 : getCell cells0 c2.1 c2.2 = opp := by
      by_cases hrem : remIn cells0 opp L c2
      · exfalso
        have h2 := hbc.2
        rw [(hok c2 hc2inB).1 hrem] at h2
        exact hopp h2.symm
      · rw [← (hok c2 hc2inB).2 hrem]
        exact hbc.2
    exact Relation.ReflTransGen.tail ihq ⟨hbc.1, hc2⟩

theorem conn_transfer_bwd (cells0 stc : List (List Cell)) (opp : Cell)
    (L : List (Nat × Nat)) (hwf0 : gridWF cells0 19 19) (hopp : opp ≠ Cell.Empty)
    (hok : ∀ q, inB q →
      (remIn cells0 opp L q → getCell stc q.1 q.2 = Cell.Empty) ∧
      (¬ remIn cells0 opp L q → getCell stc q.1 q.2 = getCell cells0 q.1 q.2))
    (n : Nat × Nat) (hninB : inB n) (hn0 : getCell cells0 n.1 n.2 = opp)
    (hnrem : ¬ remIn cells0 opp L n)
    (q : Nat × Nat) (h : conn cells0 opp n q) : conn stc opp n q := by
  induction h with
  | refl => exact Relation.ReflTransGen.refl
  | tail hab hbc ihq =>
    rename_i b c2
    have hbinB : inB b ∧ getCell cells0 b.1 b.2 = opp :=
      conn_inB_color cells0 opp n b hninB hn0 hab
    have hc2inB : inB c2 := orthogonal_neighbors_inB b.1 b.2 c2 ⟨hbinB.1.1, hbinB.1.2⟩ hbc.1
    have hc2rem : ¬ remIn cells0 opp L c2 := by
      intro hrem
      exact hnrem (remIn_pull cells0 opp L n c2 hwf0 hopp hn0
        (Relation.ReflTransGen.tail hab hbc) hrem)
    have hc2 : getCell stc c2.1 c2.2 = opp := by
      rw [(hok c2 hc2inB).2 hc2rem]
      exact hbc.2
    exact Relation.ReflTransGen.tail ihq ⟨hbc.1, hc2⟩

theorem dead_transfer (cells0 stc : List (List Cell)) (opp : Cell)
    (L : List (Nat × Nat)) (hwf0 : gridWF cells0 19 19) (hwfs : gridWF stc 19 19)
    (hopp : opp ≠ Cell.Empty)
    (hok : ∀ q, inB q →
      (remIn cells0 opp L q → getCell stc q.1 q.2 = Cell.Empty) ∧
      (¬ remIn cells0 opp L q → getCell stc q.1 q.2 = getCell cells0 q.1 q.2))
    (n : Nat × Nat) (hninB : inB n) (hn : getCell stc n.1 n.2 = opp) :
    ((∀ q, conn stc opp n q → ∀ rr ∈ orthogonal_neighbors q.1 q.2 19,
        getCell stc rr.1 rr.2 ≠ Cell.Empty) ↔ deadGroup cells0 opp n) := by
  have hnrem : ¬ remIn cells0 opp L n := by
    intro hrem
    rw [(hok n hninB).1 hrem] at hn
    exact hopp hn.symm
  have hn0 : getCell cells0 n.1 n.2 = opp := by
    rw [← (hok n hninB).2 hnrem]
    exact hn
  constructor
  · intro hst q hq rr hrr
    have hqinB : inB q ∧ getCell cells0 q.1 q.2 = opp :=
      conn_inB_color cells0 opp n q hninB hn0 hq
    have hrrinB : inB rr := orthogonal_neighbors_inB q.1 q.2 rr ⟨hqinB.1.1, hqinB.1.2⟩ hrr
    by_cases hrem : remIn cells0 opp L rr
    · rw [hrem.1]
      exact hopp
    · rw [← (hok rr hrrinB).2 hrem]
      exact hst q (conn_transfer_bwd cells0 stc opp L hwf0 hopp hok n hninB hn0 hnrem q hq)
        rr hrr
  · intro hdead q hq rr hrr
    have hq0 : conn cells0 opp n q :=
      conn_transfer_fwd cells0 stc opp L hopp hok n hninB hn q hq
    have hqinB : inB q ∧ getCell cells0 q.1 q.2 = opp :=
      conn_inB_color cells0 opp n q hninB hn0 hq0
    have hrrinB : inB rr := orthogonal_neighbors_inB q.1 q.2 rr ⟨hqinB.1.1, hqinB.1.2⟩ hrr
    by_cases hrem : remIn cells0 opp L rr
    · exfalso
      have : conn cells0 opp n rr :=
        Relation.ReflTransGen.tail hq0 ⟨hrr, hrem.1⟩
      exact hnrem (remIn_pull cells0 opp L n rr hwf0 hopp hn0 this hrem)
    · rw [(hok rr hrrinB).2 hrem]
      exact hdead q hq0 rr hrr

/-- The neighbour loop of `apply_captures`, characterised against the
post-placement board `cells0`: after processing the entries `ns` (all on
the board) the cells are `cells0` with exactly the `remIn cells0 opp (L ++ ns)`
stones deleted, the running total counts them, the capture counters wrap
accordingly, and a total of one pins `last` to the removed stone. -/
theorem captureFold_inv (cells0 : List (List Cell)) (opp : Cell)
    (hoppbw : opp = Cell.Black ∨ opp = Cell.White)
    (hwf0 : gridWF cells0 19 19) (cw0 cb0 : Nat) :
    ∀ (ns L : List (Nat × Nat)) (st : CapState),
    (∀ n ∈ ns, inB n) →
    gridWF st.cells 19 19 →
    (∀ q, inB q →
      (remIn cells0 opp L q → getCell st.cells q.1 q.2 = Cell.Empty) ∧
      (¬ remIn cells0 opp L q → getCell st.cells q.1 q.2 = getCell cells0 q.1 q.2)) →
    st.total = Set.ncard {q | remIn cells0 opp L q} →
    (opp = Cell.Black → st.captured_white = (cw0 + st.total) % 65536 ∧
      st.captured_black = cb0) →
    (opp = Cell.White → st.captured_black = (cb0 + st.total) % 65536 ∧
      st.captured_white = cw0) →
    (st.total = 1 → remIn cells0 opp L st.last) →
    (gridWF (ns.foldl (captureStep opp 19) st).cells 19 19 ∧
     (∀ q, inB q →
       (remIn cells0 opp (L ++ ns) q →
         getCell (ns.foldl (captureStep opp 19) st).cells q.1 q.2 = Cell.Empty) ∧
       (¬ remIn cells0 opp (L ++ ns) q →
         getCell (ns.foldl (captureStep opp 19) st).cells q.1 q.2 =
           getCell cells0 q.1 q.2)) ∧
     (ns.foldl (captureStep opp 19) st).total =
       Set.ncard {q | remIn cells0 opp (L ++ ns) q} ∧
     (opp = Cell.Black → (ns.foldl (captureStep opp 19) st).captured_white =
         (cw0 + (ns.foldl (captureStep opp 19) st).total) % 65536 ∧
       (ns.foldl (captureStep opp 19) st).captured_black = cb0) ∧
     (opp = Cell.White → (ns.foldl (captureStep opp 19) st).captured_black =
         (cb0 + (ns.foldl (captureStep opp 19) st).total) % 65536 ∧
       (ns.foldl (captureStep opp 19) st).captured_white = cw0) ∧
     ((ns.foldl (captureStep opp 19) st).total = 1 →
       remIn cells0 opp (L ++ ns) (ns.foldl (captureStep opp 19) st).last)) := by
  have hopp : opp ≠ Cell.Empty := by
    rcases hoppbw with h | h <;> (rw [h]; intro hc; cases hc)
  intro ns
  induction ns with
  | nil =>
    intro L st _ hwfs hok htot hcw hcb hlast
    simp only [List.foldl_nil, List.append_nil]
    exact ⟨hwfs, hok, htot, hcw, hcb, hlast⟩
  | cons n rest ih =>
    intro L st hns hwfs hok htot hcw hcb hlast
    have hninB : inB n := hns n (List.mem_cons_self _ _)
    have hrest : ∀ m ∈ rest, inB m := fun m hm => hns m (List.mem_cons_of_mem _ hm)
    have hassoc : L ++ n :: rest = (L ++ [n]) ++ rest := by simp
    rw [List.foldl_cons, hassoc]
    -- analyse one captureStep
    by_cases hcell : getCell st.cells n.1 n.2 = opp
    · -- the neighbour holds an opponent stone: fetch its group
      have hfge := find_group_eq st.cells n.1 n.2 hninB.1 hninB.2
      have hmem_iff : ∀ q, q ∈ find_group st.cells n.1 n.2 19 ↔
          conn st.cells opp n q := by
        intro q
        have h1 := hfge.1 q
        rw [hcell] at h1
        obtain ⟨a, b⟩ := n
        exact h1
      have hnrem : ¬ remIn cells0 opp L n := by
        intro hrem
        rw [(hok n hninB).1 hrem] at hcell
        exact hopp hcell.symm
      have hn0 : getCell cells0 n.1 n.2 = opp := by
        rw [← (hok n hninB).2 hnrem]
        exact hcell
      have hconn_iff : ∀ q, conn st.cells opp n q ↔ conn cells0 opp n q := by
        intro q
        constructor
        · exact conn_transfer_fwd cells0 st.cells opp L hopp hok n hninB hcell q
        · exact conn_transfer_bwd cells0 st.cells opp L hwf0 hopp hok n hninB hn0 hnrem q
      have hdead_iff : count_liberties st.cells (find_group st.cells n.1 n.2 19) 19 = 0 ↔
          deadGroup cells0 opp n := by
        rw [count_liberties_eq_zero]
        rw [show (∀ q ∈ find_group st.cells n.1 n.2 19,
            ∀ rr ∈ orthogonal_neighbors q.1 q.2 19,
              getCell st.cells rr.1 rr.2 ≠ Cell.Empty) ↔
          (∀ q, conn st.cells opp n q → ∀ rr ∈ orthogonal_neighbors q.1 q.2 19,
              getCell st.cells rr.1 rr.2 ≠ Cell.Empty) from
          ⟨fun h q hq => h q ((hmem_iff q).mpr hq), fun h q hq => h q ((hmem_iff q).mp hq)⟩]
        exact dead_transfer cells0 st.cells opp L hwf0 hwfs hopp hok n hninB hcell
      by_cases hlib : 0 < count_liberties st.cells (find_group st.cells n.1 n.2 19) 19
      · -- the group still breathes: skip, nothing is removed via n
        have hstep : captureStep opp 19 st n = st := by
          unfold captureStep
          dsimp only
          rw [if_neg (by simp [hcell]), if_pos hlib]
        have hndead : ¬ deadGroup cells0 opp n := by
          rw [← hdead_iff]
          omega
        have hskip : ∀ q, remIn cells0 opp (L ++ [n]) q ↔ remIn cells0 opp L q := by
          intro q
          rw [remIn_append_singleton]
          constructor
          · rintro (h | ⟨_, _, _, hd⟩)
            · exact h
            · exact absurd hd hndead
          · exact Or.inl
        have hsetEq : {q | remIn cells0 opp (L ++ [n]) q} = {q | remIn cells0 opp L q} :=
          Set.ext fun q => hskip q
        rw [hstep]
        refine ih (L ++ [n]) st hrest hwfs ?_ ?_ hcw hcb ?_
        · intro q hq
          refine ⟨fun h => (hok q hq).1 ((hskip q).mp h),
            fun h => (hok q hq).2 (fun h2 => h ((hskip q).mpr h2))⟩
        · rw [hsetEq]
          exact htot
        · intro h1
          exact (hskip st.last).mpr (hlast h1)
      · -- zero liberties: the whole group is removed
        have hdead : deadGroup cells0 opp n := by
          rw [← hdead_iff]
          omega
        have hc_cells : (captureStep opp 19 st n).cells =
            (find_group st.cells n.1 n.2 19).foldl
              (fun cs p => setGrid cs p.1 p.2 Cell.Empty) st.cells := by
          unfold captureStep
          dsimp only
          rw [if_neg (by simp [hcell]), if_neg hlib]
        have hc_total : (captureStep opp 19 st n).total =
            st.total + (find_group st.cells n.1 n.2 19).length := by
          unfold captureStep
          dsimp only
          rw [if_neg (by simp [hcell]), if_neg hlib]
        have hc_last : (captureStep opp 19 st n).last =
            (if (find_group st.cells n.1 n.2 19).length = 1
              then (find_group st.cells n.1 n.2 19).headD (0, 0) else st.last) := by
          unfold captureStep
          dsimp only
          rw [if_neg (by simp [hcell]), if_neg hlib]
        have hc_cwB : opp = Cell.Black →
            (captureStep opp 19 st n).captured_white =
              (st.captured_white + (find_group st.cells n.1 n.2 19).length) % 65536 ∧
            (captureStep opp 19 st n).captured_black = st.captured_black := by
          intro ho
          subst ho
          unfold captureStep
          dsimp only
          rw [if_neg (by simp [hcell]), if_neg hlib]
          exact ⟨rfl, rfl⟩
        have hc_cwW : opp = Cell.White →
            (captureStep opp 19 st n).captured_black =
              (st.captured_black + (find_group st.cells n.1 n.2 19).length) % 65536 ∧
            (captureStep opp 19 st n).captured_white = st.captured_white := by
          intro ho
          subst ho
          unfold captureStep
          dsimp only
          rw [if_neg (by simp [hcell]), if_neg hlib]
          exact ⟨rfl, rfl⟩
        have hgrp_inB : ∀ p ∈ find_group st.cells n.1 n.2 19, inB p := by
          intro p hp
          exact (hfge.2.2 p hp).1
        obtain ⟨hwfnew, hcharnew⟩ :=
          foldl_setGrid_spec Cell.Empty (find_group st.cells n.1 n.2 19) st.cells
            hwfs hgrp_inB
        -- the new removal predicate
        have hnew_iff : ∀ q, remIn cells0 opp (L ++ [n]) q ↔
            (remIn cells0 opp L q ∨ conn cells0 opp n q) := by
          intro q
          rw [remIn_append_singleton]
          constructor
          · rintro (h | ⟨_, _, hc, _⟩)
            · exact Or.inl h
            · exact Or.inr hc
          · rintro (h | h)
            · exact Or.inl h
            · refine Or.inr ⟨?_, hn0, h, hdead⟩
              exact (conn_inB_color cells0 opp n q hninB hn0 h).2
        have hdisj : ∀ q, conn cells0 opp n q → ¬ remIn cells0 opp L q := by
          intro q hc hrem
          exact hnrem (remIn_pull cells0 opp L n q hwf0 hopp hn0 hc hrem)
        have hgrp_iff : ∀ q, q ∈ find_group st.cells n.1 n.2 19 ↔ conn cells0 opp n q := by
          intro q
          rw [hmem_iff q, hconn_iff q]
        -- cardinality bookkeeping
        have hfin1 : {q | remIn cells0 opp L q}.Finite :=
          remIn_finite cells0 opp L hwf0 hopp
        have hfin2 : {q | conn cells0 opp n q}.Finite := by
          refine Set.Finite.subset (Set.finite_Icc ((0, 0) : Nat × Nat) (19, 19)) ?_
          intro q hq
          have h2 := (conn_inB_color cells0 opp n q hninB hn0 hq).1
          obtain ⟨a1, a2⟩ := h2
          simp [Prod.le_def]
          omega
        have hlen : (find_group st.cells n.1 n.2 19).length =
            Set.ncard {q | conn cells0 opp n q} := by
          have h1 := find_group_length st.cells n.1 n.2 hninB.1 hninB.2
          have h2 : {q | conn st.cells (getCell st.cells n.1 n.2) (n.1, n.2) q} =
              {q | conn cells0 opp n q} := by
            ext q
            have h3 := hconn_iff q
            obtain ⟨a, b⟩ := n
            rw [hcell] at h1 ⊢
            exact h3
          rw [h1, h2]
        have hcard : Set.ncard {q | remIn cells0 opp (L ++ [n]) q} =
            Set.ncard {q | remIn cells0 opp L q} +
            Set.ncard {q | conn cells0 opp n q} := by
          have hsetu : {q | remIn cells0 opp (L ++ [n]) q} =
              {q | remIn cells0 opp L q} ∪ {q | conn cells0 opp n q} := by
            ext q
            simp only [Set.mem_setOf_eq, Set.mem_union]
            exact hnew_iff q
          have hdisj2 : Disjoint {q | remIn cells0 opp L q} {q | conn cells0 opp n q} := by
            rw [Set.disjoint_left]
            intro q hq1 hq2
            exact hdisj q hq2 hq1
          rw [hsetu, Set.ncard_union_eq hdisj2 hfin1 hfin2]
        -- establish the invariant after this step and recurse
        refine ih (L ++ [n]) (captureStep opp 19 st n) hrest ?_ ?_ ?_ ?_ ?_ ?_
        · rw [hc_cells]
          exact hwfnew
        · intro q hq
          rw [hc_cells]
          constructor
          · intro h
            rw [hcharnew q hq]
            rcases (hnew_iff q).mp h with h2 | h2
            · by_cases hg : q ∈ find_group st.cells n.1 n.2 19
              · rw [if_pos hg]
              · rw [if_neg hg]
                exact (hok q hq).1 h2
            · rw [if_pos ((hgrp_iff q).mpr h2)]
          · intro h
            rw [hcharnew q hq]
            have hnog : q ∉ find_group st.cells n.1 n.2 19 := by
              intro hg
              exact h ((hnew_iff q).mpr (Or.inr ((hgrp_iff q).mp hg)))
            rw [if_neg hnog]
            exact (hok q hq).2 (fun h2 => h ((hnew_iff q).mpr (Or.inl h2)))
        · rw [hc_total, hcard, htot, hlen]
        · intro ho
          obtain ⟨h1, h2⟩ := hcw ho
          obtain ⟨hw1, hw2⟩ := hc_cwB ho
          constructor
          · rw [hw1, hc_total, h1]
            omega
          · rw [hw2]
            exact h2
        · intro ho
          obtain ⟨h1, h2⟩ := hcb ho
          obtain ⟨hw1, hw2⟩ := hc_cwW ho
          constructor
          · rw [hw1, hc_total, h1]
            omega
          · rw [hw2]
            exact h2
        · intro h1
          rw [hc_total] at h1
          have hk1 : (find_group st.cells n.1 n.2 19).length = 1 ∧ st.total = 0 := by
            have hne : n ∈ find_group st.cells n.1 n.2 19 :=
              (hgrp_iff n).mpr Relation.ReflTransGen.refl
            have hpos : 0 < (find_group st.cells n.1 n.2 19).length :=
              List.length_pos.mpr (List.ne_nil_of_mem hne)
            omega
          rw [hc_last, if_pos hk1.1]
          obtain ⟨x, hx⟩ := List.length_eq_one.mp hk1.1
          have hxmem : x ∈ find_group st.cells n.1 n.2 19 := by
            rw [hx]
            exact List.mem_singleton.mpr rfl
          rw [hx]
          simp only [List.headD_cons]
          exact (hnew_iff x).mpr (Or.inr ((hgrp_iff x).mp hxmem))
    · -- the neighbour does not hold an opponent stone: skip
      have hstep : captureStep opp 19 st n = st := by
        unfold captureStep
        rw [if_pos (by simp [hcell])]
      have hskip : ∀ q, remIn cells0 opp (L ++ [n]) q ↔ remIn cells0 opp L q := by
        intro q
        rw [remIn_append_singleton]
        constructor
        · rintro (h | ⟨hq0, hn0, hconn0, hdead0⟩)
          · exact h
          · -- cells0-wise n is opposite-coloured but the state cell is not:
            -- n has already been removed, so q is removed via n's old entry
            have hnrem : remIn cells0 opp L n := by
              by_contra hc
              rw [(hok n hninB).2 hc] at hcell
              exact hcell hn0
            obtain ⟨_, m, hm, hmo, hmc, hmd⟩ := hnrem
            exact ⟨hq0, m, hm, hmo, Relation.ReflTransGen.trans hmc hconn0, hmd⟩
        · exact Or.inl
      have hsetEq : {q | remIn cells0 opp (L ++ [n]) q} = {q | remIn cells0 opp L q} :=
        Set.ext fun q => hskip q
      rw [hstep]
      refine ih (L ++ [n]) st hrest hwfs ?_ ?_ hcw hcb ?_
      · intro q hq
        refine ⟨fun h => (hok q hq).1 ((hskip q).mp h),
          fun h => (hok q hq).2 (fun h2 => h ((hskip q).mpr h2))⟩
      · rw [hsetEq]
        exact htot
      · intro h1
        exact (hskip st.last).mpr (hlast h1)

/-- The code's liberty count is the number of distinct empty cells
orthogonally adjacent to some member of the group. -/
theorem count_liberties_eq_ncard (cells : List (List Cell))
    (group : List (Nat × Nat)) (size : Nat) :
    count_liberties cells group size =
      Set.ncard {rr | (∃ q ∈ group, rr ∈ orthogonal_neighbors q.1 q.2 size) ∧
        getCell cells rr.1 rr.2 = Cell.Empty} := by
  unfold count_liberties
  have hnd : ((group.flatMap fun p => (orthogonal_neighbors p.1 p.2 size).filter
      (fun q => getCell cells q.1 q.2 = Cell.Empty)).dedup).Nodup :=
    List.nodup_dedup _
  have hset : {rr | (∃ q ∈ group, rr ∈ orthogonal_neighbors q.1 q.2 size) ∧
      getCell cells rr.1 rr.2 = Cell.Empty} =
      ↑((group.flatMap fun p => (orthogonal_neighbors p.1 p.2 size).filter
        (fun q => getCell cells q.1 q.2 = Cell.Empty)).dedup).toFinset := by
    ext rr
    simp only [Set.mem_setOf_eq, List.coe_toFinset, List.mem_dedup,
      List.mem_flatMap, List.mem_filter, decide_eq_true_eq]
    constructor
    · rintro ⟨⟨q, hq, hmem⟩, hemp⟩
      exact ⟨q, hq, hmem, hemp⟩
    · rintro ⟨q, hq, hmem, hemp⟩
      exact ⟨⟨q, hq, hmem⟩, hemp⟩
  rw [hset, Set.ncard_coe_Finset, List.card_toFinset, List.Nodup.dedup hnd]

/-- Full characterisation of the neighbour fold of `apply_captures` for a
well-formed 19-by-19 board: exactly the spec-level removed stones are
cleared, the total counts them, and the correct counter wraps. -/
theorem capFold_char (b : Board) (pr pc : Nat) (col : Cell)
    (hcol : col = Cell.Black ∨ col = Cell.White)
    (hsz : b.size = 19) (hwf : gridWF b.cells 19 19)
    (hcw : b.captured_white < 65536) (hcb : b.captured_black < 65536)
    (hpr : pr < 19) (hpc : pc < 19) :
    gridWF (capFold b pr pc col).cells 19 19 ∧
    (∀ q, inB q →
      (removedByCapture b.cells col pr pc q →
        getCell (capFold b pr pc col).cells q.1 q.2 = Cell.Empty) ∧
      (¬ removedByCapture b.cells col pr pc q →
        getCell (capFold b pr pc col).cells q.1 q.2 = getCell b.cells q.1 q.2)) ∧
    (capFold b pr pc col).total =
      Set.ncard {q | removedByCapture b.cells col pr pc q} ∧
    (col = Cell.White → (capFold b pr pc col).captured_white =
        (b.captured_white + (capFold b pr pc col).total) % 65536 ∧
      (capFold b pr pc col).captured_black = b.captured_black) ∧
    (col = Cell.Black → (capFold b pr pc col).captured_black =
        (b.captured_black + (capFold b pr pc col).total) % 65536 ∧
      (capFold b pr pc col).captured_white = b.captured_white) ∧
    ((capFold b pr pc col).total = 1 →
      removedByCapture b.cells col pr pc (capFold b pr pc col).last) := by
  have hopp : col.opposite = Cell.Black ∨ col.opposite = Cell.White := by
    rcases hcol with h | h
    · rw [h]
      exact Or.inr rfl
    · rw [h]
      exact Or.inl rfl
  have hinv := captureFold_inv b.cells col.opposite hopp hwf
      b.captured_white b.captured_black
      (orthogonal_neighbors pr pc 19) []
      { cells := b.cells, captured_white := b.captured_white,
        captured_black := b.captured_black, total := 0, last := (0, 0) }
      (fun n hn => orthogonal_neighbors_inB pr pc n ⟨hpr, hpc⟩ hn)
      hwf
      (fun q _ => ⟨fun hrem => absurd hrem.2
          (by rintro ⟨n, hn, _⟩; exact (List.not_mem_nil n) hn),
        fun _ => rfl⟩)
      (by
        have he : {q | remIn b.cells col.opposite [] q} = (∅ : Set (Nat × Nat)) := by
          ext q
          simp only [Set.mem_setOf_eq, Set.mem_empty_iff_false, iff_false]
          rintro ⟨_, n, hn, _⟩
          exact (List.not_mem_nil n) hn
        rw [he, Set.ncard_empty])
      (fun _ => ⟨by simp [Nat.mod_eq_of_lt hcw], rfl⟩)
      (fun _ => ⟨by simp [Nat.mod_eq_of_lt hcb], rfl⟩)
      (fun h => absurd h (by simp))
  have hcap : capFold b pr pc col =
      (orthogonal_neighbors pr pc 19).foldl (captureStep col.opposite 19)
        { cells := b.cells, captured_white := b.captured_white,
          captured_black := b.captured_black, total := 0, last := (0, 0) } := by
    unfold capFold
    rw [hsz]
  rw [← hcap] at hinv
  simp only [List.nil_append] at hinv
  obtain ⟨h1, h2, h3, h4, h5, h6⟩ := hinv
  refine ⟨h1, ?_, h3, ?_, ?_, h6⟩
  · intro q hq
    exact h2 q hq
  · intro hW
    exact h4 (by rw [hW]; rfl)
  · intro hB
    exact h5 (by rw [hB]; rfl)

/-- Characterisation of `apply_captures`: the returned board clears exactly
the spec-level removed stones, bumps the placing colour's counter by their
number, keeps everything else, and the ko result is `some k` exactly when
one stone was captured, the placed group has one liberty left and `k` is
the captured cell. -/
theorem apply_captures_char (b2 : Board) (r c : Nat) (mv : Cell)
    (hmv : mv = Cell.Black ∨ mv = Cell.White)
    (hsz : b2.size = 19) (hwf : gridWF b2.cells 19 19)
    (hcw : b2.captured_white < 65536) (hcb : b2.captured_black < 65536)
    (hr : r < 19) (hc : c < 19)
    (hplaced : getCell b2.cells r c = mv) :
    gridWF (b2.apply_captures r c mv).1.cells 19 19 ∧
    (b2.apply_captures r c mv).1.size = b2.size ∧
    (b2.apply_captures r c mv).1.move_number = b2.move_number ∧
    (∀ q, inB q →
      (removedByCapture b2.cells mv r c q →
        getCell (b2.apply_captures r c mv).1.cells q.1 q.2 = Cell.Empty) ∧
      (¬ removedByCapture b2.cells mv r c q →
        getCell (b2.apply_captures r c mv).1.cells q.1 q.2 =
          getCell b2.cells q.1 q.2)) ∧
    (mv = Cell.Black → (b2.apply_captures r c mv).1.captured_black =
        (b2.captured_black +
          Set.ncard {q | removedByCapture b2.cells mv r c q}) % 65536 ∧
      (b2.apply_captures r c mv).1.captured_white = b2.captured_white) ∧
    (mv = Cell.White → (b2.apply_captures r c mv).1.captured_white =
        (b2.captured_white +
          Set.ncard {q | removedByCapture b2.cells mv r c q}) % 65536 ∧
      (b2.apply_captures r c mv).1.captured_black = b2.captured_black) ∧
    (∀ k, (b2.apply_captures r c mv).2 = some k ↔
      (Set.ncard {q | removedByCapture b2.cells mv r c q} = 1 ∧
       Set.ncard {rr | (∃ q, conn (b2.apply_captures r c mv).1.cells mv (r, c) q ∧
           rr ∈ orthogonal_neighbors q.1 q.2 19) ∧
         getCell (b2.apply_captures r c mv).1.cells rr.1 rr.2 = Cell.Empty} = 1 ∧
       removedByCapture b2.cells mv r c k)) := by
  obtain ⟨h1, h2, h3, h4, h5, h6⟩ := capFold_char b2 r c mv hmv hsz hwf hcw hcb hr hc
  have hnotrem : ¬ removedByCapture b2.cells mv r c (r, c) := by
    intro hrem
    have h0 : getCell b2.cells r c = mv.opposite := hrem.1
    rw [hplaced] at h0
    rcases hmv with h | h <;> subst h <;> simp [Cell.opposite] at h0
  have hpl0 : getCell (capFold b2 r c mv).cells r c = getCell b2.cells r c :=
    (h2 (r, c) ⟨hr, hc⟩).2 hnotrem
  have hpl : getCell (capFold b2 r c mv).cells r c = mv := by
    rw [hpl0, hplaced]
  have hfst : (b2.apply_captures r c mv).1 = { b2 with
      cells := (capFold b2 r c mv).cells
      captured_white := (capFold b2 r c mv).captured_white
      captured_black := (capFold b2 r c mv).captured_black } := by
    rw [apply_captures_spec]
  have hsnd : (b2.apply_captures r c mv).2 =
      (if (capFold b2 r c mv).total = 1 ∧
          count_liberties (capFold b2 r c mv).cells
            (find_group (capFold b2 r c mv).cells r c b2.size) b2.size = 1
        then some (capFold b2 r c mv).last else none) := by
    rw [apply_captures_spec]
  have hlibeq : count_liberties (capFold b2 r c mv).cells
      (find_group (capFold b2 r c mv).cells r c 19) 19 =
      Set.ncard {rr | (∃ q, conn (capFold b2 r c mv).cells mv (r, c) q ∧
          rr ∈ orthogonal_neighbors q.1 q.2 19) ∧
        getCell (capFold b2 r c mv).cells rr.1 rr.2 = Cell.Empty} := by
    rw [count_liberties_eq_ncard]
    congr 1
    ext rr
    simp only [Set.mem_setOf_eq]
    constructor
    · rintro ⟨⟨q, hq, hmem⟩, hemp⟩
      refine ⟨⟨q, ?_, hmem⟩, hemp⟩
      have hcq := ((find_group_eq (capFold b2 r c mv).cells r c hr hc).1 q).mp hq
      rw [hpl] at hcq
      exact hcq
    · rintro ⟨⟨q, hq, hmem⟩, hemp⟩
      refine ⟨⟨q, ?_, hmem⟩, hemp⟩
      apply ((find_group_eq (capFold b2 r c mv).cells r c hr hc).1 q).mpr
      rw [hpl]
      exact hq
  rw [hfst, hsnd, hsz]
  dsimp only
  refine ⟨h1, rfl, rfl, h2, ?_, ?_, ?_⟩
  · intro hB
    obtain ⟨ha, hb⟩ := h5 hB
    exact ⟨by rw [ha, h3], hb⟩
  · intro hW
    obtain ⟨ha, hb⟩ := h4 hW
    exact ⟨by rw [ha, h3], hb⟩
  · intro k
    constructor
    · intro hk
      by_cases hcond : (capFold b2 r c mv).total = 1 ∧
          count_liberties (capFold b2 r c mv).cells
            (find_group (capFold b2 r c mv).cells r c 19) 19 = 1
      · rw [if_pos hcond] at hk
        injection hk with hkeq
        refine ⟨by rw [← h3]; exact hcond.1, by rw [← hlibeq]; exact hcond.2, ?_⟩
        rw [← hkeq]
        exact h6 hcond.1
      · rw [if_neg hcond] at hk
        cases hk
    · rintro ⟨hn1, hl1, hkR⟩
      have htot1 : (capFold b2 r c mv).total = 1 := by rw [h3, hn1]
      have hcond : (capFold b2 r c mv).total = 1 ∧
          count_liberties (capFold b2 r c mv).cells
            (find_group (capFold b2 r c mv).cells r c 19) 19 = 1 :=
        ⟨htot1, by rw [hlibeq]; exact hl1⟩
      rw [if_pos hcond]
      have hlastR := h6 htot1
      obtain ⟨a, ha⟩ := Set.ncard_eq_one.mp hn1
      have hkmem : k ∈ {q | removedByCapture b2.cells mv r c q} := hkR
      rw [ha] at hkmem
      have hlmem : (capFold b2 r c mv).last ∈
          {q | removedByCapture b2.cells mv r c q} := hlastR
      rw [ha] at hlmem
      have hk_a : k = a := hkmem
      have hl_a : (capFold b2 r c mv).last = a := hlmem
      rw [hl_a, hk_a]

/-- Replaying a black-move or white-move property on a well-formed board:
the move counter advances, exactly the spec-level captured stones are
cleared relative to the post-placement cells, the mover's capture counter
grows by their number, and the ko point is set exactly in the
one-capture-one-liberty case. -/
theorem replayMove_spec (b : Board) (coord : GoCoord) (mv : Cell) (p : SGFProperty)
    (hp : (p = SGFProperty.B coord ∧ mv = Cell.Black) ∨
          (p = SGFProperty.W coord ∧ mv = Cell.White))
    (hsz : b.size = 19) (hwf : gridWF b.cells 19 19)
    (hcw : b.captured_white < 65536) (hcb : b.captured_black < 65536)
    (hr : coordRow coord < 19) (hc : coordCol coord < 19)
    (b1 : Board) (hrep : replayProp b p = some b1) :
    gridWF b1.cells 19 19 ∧ b1.size = 19 ∧
    b1.move_number = b.move_number + 1 ∧
    (∀ q, inB q →
      (removedByCapture (setGrid b.cells (coordRow coord) (coordCol coord) mv) mv
          (coordRow coord) (coordCol coord) q →
        getCell b1.cells q.1 q.2 = Cell.Empty) ∧
      (¬ removedByCapture (setGrid b.cells (coordRow coord) (coordCol coord) mv) mv
          (coordRow coord) (coordCol coord) q →
        getCell b1.cells q.1 q.2 =
          getCell (setGrid b.cells (coordRow coord) (coordCol coord) mv) q.1 q.2)) ∧
    (mv = Cell.Black → b1.captured_black = (b.captured_black +
        Set.ncard {q | removedByCapture
          (setGrid b.cells (coordRow coord) (coordCol coord) mv) mv
          (coordRow coord) (coordCol coord) q}) % 65536 ∧
      b1.captured_white = b.captured_white) ∧
    (mv = Cell.White → b1.captured_white = (b.captured_white +
        Set.ncard {q | removedByCapture
          (setGrid b.cells (coordRow coord) (coordCol coord) mv) mv
          (coordRow coord) (coordCol coord) q}) % 65536 ∧
      b1.captured_black = b.captured_black) ∧
    (∀ k, b1.ko_point = some k ↔
      (Set.ncard {q | removedByCapture
          (setGrid b.cells (coordRow coord) (coordCol coord) mv) mv
          (coordRow coord) (coordCol coord) q} = 1 ∧
       Set.ncard {rr | (∃ q, conn b1.cells mv (coordRow coord, coordCol coord) q ∧
           rr ∈ orthogonal_neighbors q.1 q.2 19) ∧
         getCell b1.cells rr.1 rr.2 = Cell.Empty} = 1 ∧
       removedByCapture (setGrid b.cells (coordRow coord) (coordCol coord) mv) mv
         (coordRow coord) (coordCol coord) k)) := by
  rcases hp with ⟨hpe, hmve⟩ | ⟨hpe, hmve⟩
  · subst hpe
    subst hmve
    simp only [replayProp] at hrep
    rw [setCellChecked_eq b.cells (coordRow coord) (coordCol coord) Cell.Black
      hwf hr hc] at hrep
    simp only [Option.bind_eq_bind, Option.some_bind, Option.some.injEq] at hrep
    subst hrep
    have hbwf : gridWF (setGrid b.cells (coordRow coord) (coordCol coord)
        Cell.Black) 19 19 :=
      gridWF_setGrid b.cells 19 19 _ _ Cell.Black hwf
    have hplapl : getCell (setGrid b.cells (coordRow coord) (coordCol coord)
        Cell.Black) (coordRow coord) (coordCol coord) = Cell.Black := by
      unfold getCell
      exact getGrid_setGrid_eq Cell.Empty b.cells 19 19 _ _ Cell.Black hwf hr hc
    obtain ⟨k1, k2, k3, k4, k5, k6, k7⟩ := apply_captures_char
      { b with cells := setGrid b.cells (coordRow coord) (coordCol coord) Cell.Black,
               move_number := b.move_number + 1 }
      (coordRow coord) (coordCol coord) Cell.Black (Or.inl rfl)
      hsz hbwf hcw hcb hr hc hplapl
    exact ⟨k1, k2.trans hsz, k3, k4, k5, k6, k7⟩
  · subst hpe
    subst hmve
    simp only [replayProp] at hrep
    rw [setCellChecked_eq b.cells (coordRow coord) (coordCol coord) Cell.White
      hwf hr hc] at hrep
    simp only [Option.bind_eq_bind, Option.some_bind, Option.some.injEq] at hrep
    subst hrep
    have hbwf : gridWF (setGrid b.cells (coordRow coord) (coordCol coord)
        Cell.White) 19 19 :=
      gridWF_setGrid b.cells 19 19 _ _ Cell.White hwf
    have hplapl : getCell (setGrid b.cells (coordRow coord) (coordCol coord)
        Cell.White) (coordRow coord) (coordCol coord) = Cell.White := by
      unfold getCell
      exact getGrid_setGrid_eq Cell.Empty b.cells 19 19 _ _ Cell.White hwf hr hc
    obtain ⟨k1, k2, k3, k4, k5, k6, k7⟩ := apply_captures_char
      { b with cells := setGrid b.cells (coordRow coord) (coordCol coord) Cell.White,
               move_number := b.move_number + 1 }
      (coordRow coord) (coordCol coord) Cell.White (Or.inr rfl)
      hsz hbwf hcw hcb hr hc hplapl
    exact ⟨k1, k2.trans hsz, k3, k4, k5, k6, k7⟩

/-- C5: after every black-move or white-move property is replayed on a
well-formed board, the ko point is `some k` if and only if the move's
capture resolution removed exactly one opposing stone, the just-placed
stone's connected group has exactly one liberty afterwards, and `k` is the
removed cell; in every other case the ko point is `none`. -/
theorem C5_ko_point_iff (b : Board) (coord : GoCoord) (mv : Cell) (p : SGFProperty)
    (hp : (p = SGFProperty.B coord ∧ mv = Cell.Black) ∨
          (p = SGFProperty.W coord ∧ mv = Cell.White))
    (hsz : b.size = 19) (hwf : gridWF b.cells 19 19)
    (hcw : b.captured_white < 65536) (hcb : b.captured_black < 65536)
    (hr : coordRow coord < 19) (hc : coordCol coord < 19)
    (b1 : Board) (hrep : replayProp b p = some b1) :
    ∀ k, b1.ko_point = some k ↔
      (Set.ncard {q | removedByCapture
          (setGrid b.cells (coordRow coord) (coordCol coord) mv) mv
          (coordRow coord) (coordCol coord) q} = 1 ∧
       Set.ncard {rr | (∃ q, conn b1.cells mv (coordRow coord, coordCol coord) q ∧
           rr ∈ orthogonal_neighbors q.1 q.2 19) ∧
         getCell b1.cells rr.1 rr.2 = Cell.Empty} = 1 ∧
       removedByCapture (setGrid b.cells (coordRow coord) (coordCol coord) mv) mv
         (coordRow coord) (coordCol coord) k) :=
  (replayMove_spec b coord mv p hp hsz hwf hcw hcb hr hc b1 hrep).2.2.2.2.2.2

theorem C5_ko_point_iff_witness :
    ((SGFProperty.B (⟨99⟩ : GoCoord) = SGFProperty.B ⟨99⟩ ∧
        Cell.Black = Cell.Black) ∨
     (SGFProperty.B (⟨99⟩ : GoCoord) = SGFProperty.W ⟨99⟩ ∧
        Cell.Black = Cell.White)) ∧
    Board.init.size = 19 ∧ gridWF Board.init.cells 19 19 ∧
    Board.init.captured_white < 65536 ∧ Board.init.captured_black < 65536 ∧
    coordRow ⟨99⟩ < 19 ∧ coordCol ⟨99⟩ < 19 ∧
    replayProp Board.init (SGFProperty.B ⟨99⟩) = some ddBoard ∧
    (∀ k, ddBoard.ko_point = some k ↔
      (Set.ncard {q | removedByCapture
          (setGrid Board.init.cells (coordRow ⟨99⟩) (coordCol ⟨99⟩) Cell.Black)
          Cell.Black (coordRow ⟨99⟩) (coordCol ⟨99⟩) q} = 1 ∧
       Set.ncard {rr | (∃ q, conn ddBoard.cells Cell.Black
           (coordRow ⟨99⟩, coordCol ⟨99⟩) q ∧
           rr ∈ orthogonal_neighbors q.1 q.2 19) ∧
         getCell ddBoard.cells rr.1 rr.2 = Cell.Empty} = 1 ∧
       removedByCapture
         (setGrid Board.init.cells (coordRow ⟨99⟩) (coordCol ⟨99⟩) Cell.Black)
         Cell.Black (coordRow ⟨99⟩) (coordCol ⟨99⟩) k)) :=
  ⟨Or.inl ⟨rfl, rfl⟩, rfl, by unfold gridWF Board.init; decide, by decide,
   by decide, by decide, by decide, by decide,
   C5_ko_point_iff Board.init ⟨99⟩ Cell.Black (SGFProperty.B ⟨99⟩)
     (Or.inl ⟨rfl, rfl⟩) rfl (by unfold gridWF Board.init; decide) (by decide)
     (by decide) (by decide) (by decide) ddBoard (by decide)⟩

/-- C6: after a stone of colour `mv` is placed at the decoded point during
replay, capture resolution empties exactly the opposite-coloured stones
lying in a zero-liberty connected group that touches an orthogonal
neighbour of the placed point, adds their number to the placing colour's
capture counter (the other counter is unchanged), and leaves every other
cell exactly as it was right after placement. -/
theorem C6_capture_resolution (b : Board) (coord : GoCoord) (mv : Cell)
    (p : SGFProperty)
    (hp : (p = SGFProperty.B coord ∧ mv = Cell.Black) ∨
          (p = SGFProperty.W coord ∧ mv = Cell.White))
    (hsz : b.size = 19) (hwf : gridWF b.cells 19 19)
    (hcw : b.captured_white < 65536) (hcb : b.captured_black < 65536)
    (hr : coordRow coord < 19) (hc : coordCol coord < 19)
    (b1 : Board) (hrep : replayProp b p = some b1) :
    (∀ q, inB q →
      (removedByCapture (setGrid b.cells (coordRow coord) (coordCol coord) mv) mv
          (coordRow coord) (coordCol coord) q →
        getCell b1.cells q.1 q.2 = Cell.Empty) ∧
      (¬ removedByCapture (setGrid b.cells (coordRow coord) (coordCol coord) mv) mv
          (coordRow coord) (coordCol coord) q →
        getCell b1.cells q.1 q.2 =
          getCell (setGrid b.cells (coordRow coord) (coordCol coord) mv) q.1 q.2)) ∧
    (mv = Cell.Black → b1.captured_black = (b.captured_black +
        Set.ncard {q | removedByCapture
          (setGrid b.cells (coordRow coord) (coordCol coord) mv) mv
          (coordRow coord) (coordCol coord) q}) % 65536 ∧
      b1.captured_white = b.captured_white) ∧
    (mv = Cell.White → b1.captured_white = (b.captured_white +
        Set.ncard {q | removedByCapture
          (setGrid b.cells (coordRow coord) (coordCol coord) mv) mv
          (coordRow coord) (coordCol coord) q}) % 65536 ∧
      b1.captured_black = b.captured_black) :=
  ⟨(replayMove_spec b coord mv p hp hsz hwf hcw hcb hr hc b1 hrep).2.2.2.1,
   (replayMove_spec b coord mv p hp hsz hwf hcw hcb hr hc b1 hrep).2.2.2.2.1,
   (replayMove_spec b coord mv p hp hsz hwf hcw hcb hr hc b1 hrep).2.2.2.2.2.1⟩

theorem C6_capture_resolution_witness :
    ((SGFProperty.B (⟨99⟩ : GoCoord) = SGFProperty.B ⟨99⟩ ∧
        Cell.Black = Cell.Black) ∨
     (SGFProperty.B (⟨99⟩ : GoCoord) = SGFProperty.W ⟨99⟩ ∧
        Cell.Black = Cell.White)) ∧
    Board.init.size = 19 ∧ gridWF Board.init.cells 19 19 ∧
    Board.init.captured_white < 65536 ∧ Board.init.captured_black < 65536 ∧
    coordRow ⟨99⟩ < 19 ∧ coordCol ⟨99⟩ < 19 ∧
    replayProp Board.init (SGFProperty.B ⟨99⟩) = some ddBoard ∧
    ((∀ q, inB q →
      (removedByCapture
          (setGrid Board.init.cells (coordRow ⟨99⟩) (coordCol ⟨99⟩) Cell.Black)
          Cell.Black (coordRow ⟨99⟩) (coordCol ⟨99⟩) q →
        getCell ddBoard.cells q.1 q.2 = Cell.Empty) ∧
      (¬ removedByCapture
          (setGrid Board.init.cells (coordRow ⟨99⟩) (coordCol ⟨99⟩) Cell.Black)
          Cell.Black (coordRow ⟨99⟩) (coordCol ⟨99⟩) q →
        getCell ddBoard.cells q.1 q.2 =
          getCell (setGrid Board.init.cells (coordRow ⟨99⟩) (coordCol ⟨99⟩)
            Cell.Black) q.1 q.2)) ∧
    (Cell.Black = Cell.Black → ddBoard.captured_black = (Board.init.captured_black +
        Set.ncard {q | removedByCapture
          (setGrid Board.init.cells (coordRow ⟨99⟩) (coordCol ⟨99⟩) Cell.Black)
          Cell.Black (coordRow ⟨99⟩) (coordCol ⟨99⟩) q}) % 65536 ∧
      ddBoard.captured_white = Board.init.captured_white) ∧
    (Cell.Black = Cell.White → ddBoard.captured_white = (Board.init.captured_white +
        Set.ncard {q | removedByCapture
          (setGrid Board.init.cells (coordRow ⟨99⟩) (coordCol ⟨99⟩) Cell.Black)
          Cell.Black (coordRow ⟨99⟩) (coordCol ⟨99⟩) q}) % 65536 ∧
      ddBoard.captured_black = Board.init.captured_black)) :=
  ⟨Or.inl ⟨rfl, rfl⟩, rfl, by unfold gridWF Board.init; decide, by decide,
   by decide, by decide, by decide, by decide,
   C6_capture_resolution Board.init ⟨99⟩ Cell.Black (SGFProperty.B ⟨99⟩)
     (Or.inl ⟨rfl, rfl⟩) rfl (by unfold gridWF Board.init; decide) (by decide)
     (by decide) (by decide) (by decide) ddBoard (by decide)⟩

/-!  String and token primitives for the round-trip proofs. -/

theorem strMk_toList (s : String) : String.mk s.toList = s := by
  cases s
  rfl

theorem strToList_append (a b : String) : (a ++ b).toList = a.toList ++ b.toList :=
  String.data_append a b

theorem strJoin_toList_cons (s : String) (l : List String) :
    (String.join (s :: l)).toList = s.toList ++ (String.join l).toList := by
  rw [String.join_eq, String.join_eq]
  simp [String.toList]

theorem skipWs_noWs (l : List Char) (h : headNotWs l = true) : skipWs l = l := by
  cases l with
  | nil => rfl
  | cons c t =>
    unfold skipWs
    simp only [headNotWs, Bool.not_eq_true'] at h
    rw [if_neg (by simp [h])]

theorem takeUntilRB_append (s rest : List Char) (h : ∀ c ∈ s, c ≠ ']') :
    takeUntilRB (s ++ ']' :: rest) = some (s, rest) := by
  induction s with
  | nil => simp [takeUntilRB]
  | cons c t ih =>
    have hc : c ≠ ']' := h c (List.mem_cons_self c t)
    have ht : ∀ x ∈ t, x ≠ ']' := fun x hx => h x (List.mem_cons_of_mem c hx)
    simp only [List.cons_append]
    unfold takeUntilRB
    rw [if_neg hc, ih ht]

theorem takeIdent_append (tag rest : List Char)
    (htag : ∀ c ∈ tag, isUpperAZ c = true)
    (hrest : headNotUpper rest = true) :
    takeIdent (tag ++ rest) = (tag, rest) := by
  induction tag with
  | nil =>
    simp only [List.nil_append]
    cases rest with
    | nil => rfl
    | cons c t =>
      unfold takeIdent
      simp only [headNotUpper, Bool.not_eq_true'] at hrest
      rw [if_neg (by simp [hrest])]
  | cons c t ih =>
    have hc := htag c (List.mem_cons_self c t)
    have ht : ∀ x ∈ t, isUpperAZ x = true :=
      fun x hx => htag x (List.mem_cons_of_mem c hx)
    simp only [List.cons_append]
    unfold takeIdent
    rw [if_pos hc, ih ht]

theorem digitsToNat_append_digit (xs : List Char) (d : Char) :
    digitsToNat (xs ++ [d]) = 10 * digitsToNat xs + (d.toNat - '0'.toNat) := by
  unfold digitsToNat
  rw [List.foldl_append]
  simp [Nat.mul_comm]

theorem digitChar_spec (n : Nat) (h : n < 10) :
    isDigitChar (digitChar n) = true ∧ (digitChar n).toNat - '0'.toNat = n ∧
      digitChar n ≠ ']' ∧ digitChar n ≠ '.' ∧ digitChar n ≠ '+' ∧
      digitChar n ≠ '-' ∧ isWs (digitChar n) = false ∧
      isUpperAZ (digitChar n) = false ∧ digitChar n ≠ '[' := by
  interval_cases n <;> exact ⟨rfl, rfl, by decide, by decide, by decide,
    by decide, by decide, by decide, by decide⟩

theorem natToDigitsAux_spec : ∀ (fuel n : Nat), n < fuel →
    (natToDigitsAux fuel n ≠ [] ∧
     (∀ c ∈ natToDigitsAux fuel n, isDigitChar c = true) ∧
     digitsToNat (natToDigitsAux fuel n) = n) := by
  intro fuel
  induction fuel with
  | zero => intro n h; omega
  | succ f ih =>
    intro n h
    unfold natToDigitsAux
    by_cases h10 : n < 10
    · rw [if_pos h10]
      obtain ⟨d1, d2, _⟩ := digitChar_spec n h10
      refine ⟨by simp, ?_, ?_⟩
      · intro c hc
        rw [List.mem_singleton.mp hc]
        exact d1
      · show digitsToNat ([] ++ [digitChar n]) = n
        rw [digitsToNat_append_digit, d2]
        simp [digitsToNat]
    · rw [if_neg h10]
      have hlt : n / 10 < f := by omega
      obtain ⟨i1, i2, i3⟩ := ih (n / 10) hlt
      obtain ⟨d1, d2, _⟩ := digitChar_spec (n % 10) (Nat.mod_lt n (by omega))
      refine ⟨by simp, ?_, ?_⟩
      · intro c hc
        rcases List.mem_append.mp hc with hc | hc
        · exact i2 c hc
        · rw [List.mem_singleton.mp hc]
          exact d1
      · rw [digitsToNat_append_digit, i3, d2]
        omega

theorem natToString_spec (n : Nat) :
    (natToString n).toList ≠ [] ∧
    (∀ c ∈ (natToString n).toList, isDigitChar c = true) ∧
    digitsToNat (natToString n).toList = n := by
  unfold natToString
  exact natToDigitsAux_spec (n + 1) n (by omega)

theorem isDigitChar_props (c : Char) (h : isDigitChar c = true) :
    c ≠ ']' ∧ c ≠ '.' ∧ c ≠ '+' ∧ c ≠ '-' ∧ isWs c = false ∧
      isUpperAZ c = false ∧ c ≠ '[' := by
  unfold isDigitChar at h
  rw [decide_eq_true_eq] at h
  obtain ⟨h1, h2⟩ := h
  have hlo : 48 ≤ c.toNat := h1
  have hhi : c.toNat ≤ 57 := h2
  have hne : ∀ d : Char, c.toNat ≠ d.toNat → c ≠ d := by
    intro d hdt he
    exact hdt (by rw [he])
  refine ⟨hne _ ?_, hne _ ?_, hne _ ?_, hne _ ?_, ?_, ?_, hne _ ?_⟩
  · show c.toNat ≠ 93
    omega
  · show c.toNat ≠ 46
    omega
  · show c.toNat ≠ 43
    omega
  · show c.toNat ≠ 45
    omega
  · unfold isWs
    rw [decide_eq_false_iff_not]
    rintro (rfl | rfl | rfl | rfl) <;> exact absurd hlo (by decide)
  · unfold isUpperAZ
    rw [decide_eq_false_iff_not]
    intro hup
    have hA : 65 ≤ c.toNat := hup.1
    omega
  · show c.toNat ≠ 91
    omega

theorem parseU8_natToString (n : Nat) (h : n < 256) :
    parseU8 (natToString n) = .ok n := by
  obtain ⟨h1, h2, h3⟩ := natToString_spec n
  unfold parseU8
  have hds : (match (natToString n).toList with
      | '+' :: tl => tl
      | l => l) = (natToString n).toList := by
    cases hl : (natToString n).toList with
    | nil => rfl
    | cons c t =>
      have hc := h2 c (hl ▸ List.mem_cons_self c t)
      have hcp := (isDigitChar_props c hc).2.2.1
      cases c
      simp_all
  rw [hds]
  have hall : (natToString n).toList.all isDigitChar = true :=
    List.all_eq_true.mpr h2
  rw [if_neg (by simp only [List.isEmpty_iff]; exact h1),
    if_neg (not_not_intro hall),
    if_pos (by rw [h3]; omega), h3]

/-!  Value decoders applied to rendered values. -/

theorem encodeChar_ofNat (x : Nat) (hx : x < 19) :
    GoCoord.encodeChar (Char.ofNat (97 + x)) = some x := by
  interval_cases x <;> decide

theorem coordChar_ne_rb (x : Nat) (hx : x < 19) : Char.ofNat (97 + x) ≠ ']' := by
  interval_cases x <;> decide

theorem coord_render_roundtrip (c : GoCoord) (h : coordRTb c = true) :
    GoCoord.fromString (GoCoord.render c) = .ok c ∧
    ∀ ch ∈ (GoCoord.render c).toList, ch ≠ ']' := by
  unfold coordRTb at h
  rw [Bool.and_eq_true, decide_eq_true_eq, decide_eq_true_eq] at h
  obtain ⟨hx, hy⟩ := h
  have hy32 : c.val / 32 % 32 = c.val / 32 := Nat.mod_eq_of_lt (by omega)
  have hf : GoCoord.first c = Char.ofNat (97 + c.val % 32) := rfl
  have hs : GoCoord.second c = Char.ofNat (97 + c.val / 32 % 32) := rfl
  constructor
  · show GoCoord.new (GoCoord.first c) (GoCoord.second c) = .ok c
    rw [hf, hs, hy32]
    simp only [GoCoord.new, encodeChar_ofNat _ hx, encodeChar_ofNat _ hy]
    have hval : c.val % 32 + 32 * (c.val / 32) = c.val := by omega
    rw [hval]
  · intro ch hch
    have hch2 : ch ∈ [GoCoord.first c, GoCoord.second c] := hch
    simp only [List.mem_cons, List.not_mem_nil, or_false] at hch2
    rcases hch2 with rfl | rfl
    · rw [hf]
      exact coordChar_ne_rb _ hx
    · rw [hs, hy32]
      exact coordChar_ne_rb _ hy

theorem takeWhile_all (p : Char → Bool) (l : List Char)
    (hl : ∀ c ∈ l, p c = true) :
    l.takeWhile p = l ∧ l.dropWhile p = [] := by
  induction l with
  | nil => exact ⟨rfl, rfl⟩
  | cons c t ih =>
    have hc := hl c (List.mem_cons_self c t)
    obtain ⟨ih1, ih2⟩ := ih (fun x hx => hl x (List.mem_cons_of_mem c hx))
    simp only [List.takeWhile_cons, List.dropWhile_cons, hc]
    simp [ih1, ih2]

theorem takeWhile_all_append (p : Char → Bool) (l : List Char) (d : Char)
    (r : List Char) (hl : ∀ c ∈ l, p c = true) (hd : p d = false) :
    (l ++ d :: r).takeWhile p = l ∧ (l ++ d :: r).dropWhile p = d :: r := by
  induction l with
  | nil => simp [List.takeWhile_cons, List.dropWhile_cons, hd]
  | cons c t ih =>
    have hc := hl c (List.mem_cons_self c t)
    obtain ⟨ih1, ih2⟩ := ih (fun x hx => hl x (List.mem_cons_of_mem c hx))
    simp only [List.cons_append, List.takeWhile_cons, List.dropWhile_cons, hc]
    simp [ih1, ih2]

theorem intToString_neg (m : Int) (hm : m < 0) :
    (intToString m).toList = '-' :: (natToString m.natAbs).toList := by
  unfold intToString
  rw [if_pos hm, strToList_append]
  rfl

theorem intToString_nonneg (m : Int) (hm : 0 ≤ m) :
    (intToString m).toList = (natToString m.natAbs).toList := by
  unfold intToString
  rw [if_neg (by omega)]

theorem dotP_digit (c : Char) (hc : isDigitChar c = true) :
    (fun ch => decide (ch ≠ '.')) c = true := by
  rw [decide_eq_true_eq]
  exact (isDigitChar_props c hc).2.1

theorem parseDecimal_intToString (m : Int) :
    parseDecimal (intToString m) = .ok (m, 0) := by
  obtain ⟨hne, hdig, hval⟩ := natToString_spec m.natAbs
  have htw := takeWhile_all (fun ch => decide (ch ≠ '.'))
    (natToString m.natAbs).toList (fun c hc => dotP_digit c (hdig c hc))
  have hall : ((natToString m.natAbs).toList ++ []).all isDigitChar = true := by
    rw [List.append_nil]
    exact List.all_eq_true.mpr hdig
  have hlen0 : (natToString m.natAbs).toList.length ≠ 0 :=
    fun hc => hne (List.length_eq_zero.mp hc)
  have hfrac : (if ([] : List Char).headD ' ' = '.' then ([] : List Char).tail
      else ([] : List Char)) = [] := rfl
  rcases lt_or_le m 0 with hm | hm
  · unfold parseDecimal
    rw [intToString_neg m hm]
    dsimp only
    simp only [List.headD_cons, List.tail_cons, true_or, if_true]
    rw [htw.1, htw.2, hfrac]
    rw [if_neg (not_not_intro hall), if_neg (by
        simp only [List.length_nil]
        omega), if_neg (by simp)]
    rw [List.append_nil, hval]
    have h2 : -((m.natAbs : Nat) : Int) = m := by omega
    rw [if_pos (by decide), h2]
    rfl
  · unfold parseDecimal
    rw [intToString_nonneg m hm]
    dsimp only
    obtain ⟨c, t, hD⟩ : ∃ c t, (natToString m.natAbs).toList = c :: t := by
      cases hD : (natToString m.natAbs).toList with
      | nil => exact absurd hD hne
      | cons c t => exact ⟨c, t, rfl⟩
    have hc := hdig c (hD ▸ List.mem_cons_self c t)
    obtain ⟨hc1, hc2, hplus, hminus, hc5, hc6, hc7⟩ := isDigitChar_props c hc
    have hhead : (natToString m.natAbs).toList.headD ' ' = c := by
      rw [hD]
      rfl
    have hbody : (if (natToString m.natAbs).toList.headD ' ' = '-' ∨
        (natToString m.natAbs).toList.headD ' ' = '+'
        then (natToString m.natAbs).toList.tail
        else (natToString m.natAbs).toList) = (natToString m.natAbs).toList := by
      rw [hhead]
      rw [if_neg (by rintro (h | h); exact hminus h; exact hplus h)]
    rw [hbody]
    rw [htw.1, htw.2, hfrac]
    rw [if_neg (not_not_intro hall), if_neg (by
        simp only [List.length_nil]
        omega), if_neg (by simp)]
    rw [List.append_nil, hval]
    have h2 : ((m.natAbs : Nat) : Int) = m := by omega
    have h3 : (decide (c = '-')) = false := decide_eq_false_iff_not.mpr hminus
    rw [hhead, h3, if_neg Bool.false_ne_true, h2]
    rfl

theorem parseDecimal_intToString_half (m : Int) :
    parseDecimal (intToString m ++ ".5") =
      .ok ((if m < 0 then -((10 * m.natAbs + 5 : Nat) : Int)
            else ((10 * m.natAbs + 5 : Nat) : Int)), 1) := by
  obtain ⟨hne, hdig, hval⟩ := natToString_spec m.natAbs
  have htw := takeWhile_all_append (fun ch => decide (ch ≠ '.'))
    (natToString m.natAbs).toList '.' ['5']
    (fun c hc => dotP_digit c (hdig c hc)) (by decide)
  have hall : ((natToString m.natAbs).toList ++ ['5']).all isDigitChar = true := by
    rw [List.all_append, Bool.and_eq_true]
    exact ⟨List.all_eq_true.mpr hdig, by decide⟩
  have hmag : digitsToNat ((natToString m.natAbs).toList ++ ['5']) =
      10 * m.natAbs + 5 := by
    rw [digitsToNat_append_digit, hval]
    rfl
  have hlen0 : (natToString m.natAbs).toList.length ≠ 0 :=
    fun hc => hne (List.length_eq_zero.mp hc)
  have hfrac : (if (('.' :: ['5'] : List Char)).headD ' ' = '.'
      then (('.' :: ['5'] : List Char)).tail
      else ('.' :: ['5'] : List Char)) = ['5'] := rfl
  rcases lt_or_le m 0 with hm | hm
  · unfold parseDecimal
    rw [strToList_append, show (".5" : String).toList = '.' :: ['5'] from rfl,
      intToString_neg m hm]
    dsimp only
    simp only [List.cons_append, List.headD_cons, List.tail_cons, true_or,
      if_true]
    rw [htw.1, htw.2, hfrac]
    rw [if_neg (not_not_intro hall), if_neg (by
        simp only [List.length_cons, List.length_nil]
        omega), if_neg (by simp)]
    rw [hmag, if_pos hm]
    rw [if_pos (by decide)]
    rfl
  · unfold parseDecimal
    rw [strToList_append, show (".5" : String).toList = '.' :: ['5'] from rfl,
      intToString_nonneg m hm]
    dsimp only
    obtain ⟨c, t, hD⟩ : ∃ c t, (natToString m.natAbs).toList = c :: t := by
      cases hD : (natToString m.natAbs).toList with
      | nil => exact absurd hD hne
      | cons c t => exact ⟨c, t, rfl⟩
    have hc := hdig c (hD ▸ List.mem_cons_self c t)
    obtain ⟨hc1, hc2, hplus, hminus, hc5, hc6, hc7⟩ := isDigitChar_props c hc
    have hhead : ((natToString m.natAbs).toList ++ '.' :: ['5']).headD ' ' = c := by
      rw [hD]
      rfl
    have hbody : (if ((natToString m.natAbs).toList ++ '.' :: ['5']).headD ' ' = '-' ∨
        ((natToString m.natAbs).toList ++ '.' :: ['5']).headD ' ' = '+'
        then ((natToString m.natAbs).toList ++ '.' :: ['5']).tail
        else ((natToString m.natAbs).toList ++ '.' :: ['5'])) =
        ((natToString m.natAbs).toList ++ '.' :: ['5']) := by
      rw [hhead]
      rw [if_neg (by rintro (h | h); exact hminus h; exact hplus h)]
    rw [hbody]
    rw [htw.1, htw.2, hfrac]
    have hif2 : ¬((natToString m.natAbs).toList.length +
        (['5'] : List Char).length = 0) := by
      simp only [List.length_cons, List.length_nil]
      omega
    have hif3 : ¬((['.', '5'] : List Char) ≠ [] ∧
        (['.', '5'] : List Char).headD ' ' ≠ '.') := by
      simp
    have hifm : ¬(m < 0) := by omega
    rw [if_neg (not_not_intro hall), if_neg hif2, if_neg hif3]
    rw [hmag, if_neg hifm]
    have h3 : (decide (c = '-')) = false := decide_eq_false_iff_not.mpr hminus
    rw [hhead, h3, if_neg Bool.false_ne_true]
    rfl

theorem tdiv_nonneg_eq (a : Int) (h : 0 ≤ a) :
    a.tdiv 2 = ((a.natAbs / 2 : Nat) : Int) := by
  have h2 : (a.tdiv 2).natAbs = a.natAbs / 2 := Int.natAbs_tdiv a 2
  have h3 : 0 ≤ a.tdiv 2 := Int.tdiv_nonneg h (by norm_num)
  omega

theorem tdiv_neg_eq (a : Int) (h : a < 0) :
    a.tdiv 2 = -((a.natAbs / 2 : Nat) : Int) := by
  have h2 : (a.tdiv 2).natAbs = a.natAbs / 2 := Int.natAbs_tdiv a 2
  have h4 : (-a).tdiv 2 = -(a.tdiv 2) := Int.neg_tdiv a 2
  have h3 : 0 ≤ (-a).tdiv 2 := Int.tdiv_nonneg (by omega) (by norm_num)
  omega

theorem tmod_two_cases (a : Int) : a.tmod 2 = 0 ∨ a.tmod 2 = 1 ∨ a.tmod 2 = -1 := by
  have h1 := Int.tdiv_add_tmod a 2
  have h2 : (a.tdiv 2).natAbs = a.natAbs / 2 := Int.natAbs_tdiv a 2
  rcases le_or_lt 0 a with ha | ha
  · have h3 : 0 ≤ a.tdiv 2 := Int.tdiv_nonneg ha (by norm_num)
    omega
  · have h4 : (-a).tdiv 2 = -(a.tdiv 2) := Int.neg_tdiv a 2
    have h3 : 0 ≤ (-a).tdiv 2 := Int.tdiv_nonneg (by omega) (by norm_num)
    omega

theorem roundAway_den1 (n : Int) : roundAway n 1 = n := by
  unfold roundAway
  have h1 : ((2 * n.natAbs + 1) / (2 * 1) : Nat) = n.natAbs := by omega
  rw [h1]
  exact Int.sign_mul_natAbs n

theorem roundAway_half_pos (b : Nat) :
    roundAway (2 * ((10 * b + 5 : Nat) : Int)) 10 = ((2 * b + 1 : Nat) : Int) := by
  unfold roundAway
  have hsign : (2 * ((10 * b + 5 : Nat) : Int)).sign = 1 :=
    Int.sign_eq_one_iff_pos.mpr (by omega)
  have habs : (2 * ((10 * b + 5 : Nat) : Int)).natAbs = 20 * b + 10 := by omega
  rw [hsign, habs]
  have hdiv : ((2 * (20 * b + 10) + 10) / (2 * 10) : Nat) = 2 * b + 1 := by omega
  rw [hdiv, one_mul]

theorem roundAway_half_neg (b : Nat) :
    roundAway (2 * (-((10 * b + 5 : Nat) : Int))) 10 = -((2 * b + 1 : Nat) : Int) := by
  unfold roundAway
  have hsign : (2 * (-((10 * b + 5 : Nat) : Int))).sign = -1 :=
    Int.sign_eq_neg_one_iff_neg.mpr (by omega)
  have habs : (2 * (-((10 * b + 5 : Nat) : Int))).natAbs = 20 * b + 10 := by omega
  rw [hsign, habs]
  have hdiv : ((2 * (20 * b + 10) + 10) / (2 * 10) : Nat) = 2 * b + 1 := by omega
  rw [hdiv]
  omega

theorem satI16_id (n : Int) (h1 : -32768 ≤ n) (h2 : n ≤ 32767) : satI16 n = n := by
  unfold satI16
  omega

theorem intToString_chars (m : Int) :
    ∀ ch ∈ (intToString m).toList, ch ≠ ']' := by
  intro ch hch
  obtain ⟨hne, hdig, hval⟩ := natToString_spec m.natAbs
  rcases lt_or_le m 0 with hm | hm
  · rw [intToString_neg m hm] at hch
    rcases List.mem_cons.mp hch with rfl | hch2
    · decide
    · exact (isDigitChar_props ch (hdig ch hch2)).1
  · rw [intToString_nonneg m hm] at hch
    exact (isDigitChar_props ch (hdig ch hch)).1

theorem komi_render_roundtrip (k : Komi) (h : komiRTb k = true) :
    Komi.fromString (Komi.render k) = .ok k ∧
    ∀ ch ∈ (Komi.render k).toList, ch ≠ ']' := by
  unfold komiRTb at h
  rw [Bool.and_eq_true, Bool.and_eq_true] at h
  obtain ⟨⟨hne1, hlo⟩, hhi⟩ := h
  rw [decide_eq_true_eq] at hne1 hlo hhi
  have htt := Int.tdiv_add_tmod k.val 2
  unfold Komi.render
  by_cases hpar : Int.tmod k.val 2 = 0
  · rw [if_pos hpar]
    refine ⟨?_, intToString_chars _⟩
    unfold Komi.fromString
    rw [parseDecimal_intToString]
    dsimp only
    unfold Komi.new
    have hval2 : 2 * (k.val.tdiv 2) = k.val := by omega
    rw [pow_zero, roundAway_den1, hval2, satI16_id _ hlo hhi]
  · rw [if_neg hpar]
    have hchars : ∀ ch ∈ (intToString (k.val.tdiv 2) ++ ".5").toList, ch ≠ ']' := by
      intro ch hch
      rw [strToList_append] at hch
      rcases List.mem_append.mp hch with hch | hch
      · exact intToString_chars _ ch hch
      · have h2 : ch ∈ ['.', '5'] := hch
        simp only [List.mem_cons, List.not_mem_nil, or_false] at h2
        rcases h2 with rfl | rfl
        · decide
        · decide
    rcases tmod_two_cases k.val with h0 | h1 | hm1
    · exact absurd h0 hpar
    · -- positive odd value
      have hvge : 0 ≤ k.val := by
        by_contra hneg
        push_neg at hneg
        have := tdiv_neg_eq k.val hneg
        omega
      have htd := tdiv_nonneg_eq k.val hvge
      refine ⟨?_, hchars⟩
      unfold Komi.fromString
      rw [parseDecimal_intToString_half]
      dsimp only
      rw [if_neg (by omega)]
      have hnat : (k.val.tdiv 2).natAbs = k.val.natAbs / 2 := Int.natAbs_tdiv k.val 2
      rw [hnat]
      unfold Komi.new
      rw [pow_one, roundAway_half_pos (k.val.natAbs / 2)]
      have hfin : ((2 * (k.val.natAbs / 2) + 1 : Nat) : Int) = k.val := by omega
      rw [hfin, satI16_id _ hlo hhi]
    · -- negative odd value, excluded -1
      have hvlt : k.val < 0 := by
        by_contra hge
        push_neg at hge
        have := tdiv_nonneg_eq k.val hge
        omega
      have htd := tdiv_neg_eq k.val hvlt
      have hge3 : 3 ≤ k.val.natAbs := by omega
      refine ⟨?_, hchars⟩
      unfold Komi.fromString
      rw [parseDecimal_intToString_half]
      dsimp only
      rw [if_pos (by omega)]
      have hnat : (k.val.tdiv 2).natAbs = k.val.natAbs / 2 := Int.natAbs_tdiv k.val 2
      rw [hnat]
      unfold Komi.new
      rw [pow_one, roundAway_half_neg (k.val.natAbs / 2)]
      have hfin : -((2 * (k.val.natAbs / 2) + 1 : Nat) : Int) = k.val := by omega
      rw [hfin, satI16_id _ hlo hhi]

theorem ff_render_roundtrip (f : FileFormat) :
    FileFormat.fromString (FileFormat.render f) = .ok f ∧
    ∀ ch ∈ (FileFormat.render f).toList, ch ≠ ']' := by
  cases f <;> exact ⟨rfl, by decide⟩

theorem gt_render_roundtrip (g : GameType) (h : gameTypeRTb g = true) :
    GameType.fromString (GameType.render g) = .ok g ∧
    ∀ ch ∈ (GameType.render g).toList, ch ≠ ']' := by
  cases g with
  | Go => exact ⟨rfl, by decide⟩
  | Other n =>
    unfold gameTypeRTb at h
    rw [Bool.and_eq_true, decide_eq_true_eq, decide_eq_true_eq] at h
    obtain ⟨hlt, hne⟩ := h
    constructor
    · show GameType.fromString (natToString n) = .ok (.Other n)
      unfold GameType.fromString
      rw [parseU8_natToString n hlt]
      dsimp only
      rw [if_neg hne]
    · intro ch hch
      exact (isDigitChar_props ch ((natToString_spec n).2.1 ch hch)).1

theorem cs_render_roundtrip (cs : Charset) (h : charsetRTb cs = true) :
    Charset.fromString (Charset.render cs) = cs ∧
    ∀ ch ∈ (Charset.render cs).toList, ch ≠ ']' := by
  cases cs with
  | UTF8 => exact ⟨rfl, by decide⟩
  | Latin1 => exact ⟨rfl, by decide⟩
  | Other s =>
    unfold charsetRTb at h
    rw [Bool.and_eq_true] at h
    obtain ⟨htxt, hnot⟩ := h
    simp only [Bool.not_eq_true', Bool.or_eq_false_iff, beq_eq_false_iff_ne] at hnot
    obtain ⟨⟨⟨hn1, hn2⟩, hn3⟩, hn4⟩ := hnot
    constructor
    · show Charset.fromString s = Charset.Other s
      unfold Charset.fromString
      rw [if_neg (by rintro (h | h); exact hn1 h; exact hn2 h),
        if_neg (by rintro (h | h); exact hn3 h; exact hn4 h)]
    · intro ch hch
      unfold textRTb at htxt
      have h2 := List.all_eq_true.mp htxt ch hch
      simpa using h2

theorem isUpperAZ_props (c : Char) (h : isUpperAZ c = true) :
    isWs c = false ∧ c ≠ '[' ∧ c ≠ ']' ∧ c ≠ ';' ∧ c ≠ '(' ∧ c ≠ ')' := by
  unfold isUpperAZ at h
  rw [decide_eq_true_eq] at h
  obtain ⟨h1, h2⟩ := h
  have hlo : 65 ≤ c.toNat := h1
  have hhi : c.toNat ≤ 90 := h2
  have hne : ∀ d : Char, c.toNat ≠ d.toNat → c ≠ d := by
    intro d hdt he
    exact hdt (by rw [he])
  refine ⟨?_, hne _ ?_, hne _ ?_, hne _ ?_, hne _ ?_, hne _ ?_⟩
  · unfold isWs
    rw [decide_eq_false_iff_not]
    rintro (rfl | rfl | rfl | rfl) <;> exact absurd hlo (by decide)
  · show c.toNat ≠ 91
    omega
  · show c.toNat ≠ 93
    omega
  · show c.toNat ≠ 59
    omega
  · show c.toNat ≠ 40
    omega
  · show c.toNat ≠ 41
    omega

theorem textRT_chars (s : String) (h : textRTb s = true) :
    ∀ c ∈ s.toList, c ≠ ']' := by
  intro c hc
  unfold textRTb at h
  have h2 := List.all_eq_true.mp h c hc
  simpa using h2

theorem parseValue_bracketed (v rest : List Char) (hv : ∀ c ∈ v, c ≠ ']') :
    parseValue ('[' :: (v ++ ']' :: rest)) = .ok (String.mk v, rest) := by
  have hred : parseValue ('[' :: (v ++ ']' :: rest)) =
      (match takeUntilRB (v ++ ']' :: rest) with
       | some (txt, rest2) => .ok (String.mk txt, rest2)
       | none => .error ⟨"unterminated property value",
           String.mk (v ++ ']' :: rest)⟩) := rfl
  rw [hred, takeUntilRB_append v rest hv]

theorem parseValuesAuxF_stop (fuel : Nat) (input : List Char)
    (h1 : headNotWs input = true) (h2 : headNotLB input = true) :
    parseValuesAuxF (fuel + 1) input = .ok ([], input) := by
  unfold parseValuesAuxF
  rw [skipWs_noWs input h1]
  split
  · exfalso
    simp [headNotLB] at h2
  · rfl

theorem parseValuesAuxF_step (f : Nat) (x : List Char) :
    parseValuesAuxF (f + 1) ('[' :: x) =
      (match parseValue ('[' :: x) with
       | .error e => .error e
       | .ok (v, rest) =>
         match parseValuesAuxF f rest with
         | .error e => .error e
         | .ok (vs, rest2) => .ok (v :: vs, rest2)) := rfl

theorem join_brackets_toList (v : String) (vs : List String) :
    (String.join ((v :: vs).map fun x => "[" ++ x ++ "]")).toList =
      '[' :: (v.toList ++ ']' ::
        (String.join (vs.map fun x => "[" ++ x ++ "]")).toList) := by
  rw [List.map_cons, strJoin_toList_cons, strToList_append, strToList_append]
  simp

theorem parseValuesAuxF_renders :
    ∀ (vs : List String) (fuel : Nat) (rest : List Char),
    (∀ v ∈ vs, ∀ c ∈ v.toList, c ≠ ']') →
    headNotWs rest = true → headNotLB rest = true →
    (String.join (vs.map fun x => "[" ++ x ++ "]")).toList.length < fuel →
    parseValuesAuxF fuel
      ((String.join (vs.map fun x => "[" ++ x ++ "]")).toList ++ rest) =
      .ok (vs, rest) := by
  intro vs
  induction vs with
  | nil =>
    intro fuel rest hv h1 h2 hf
    cases fuel with
    | zero => omega
    | succ f =>
      show parseValuesAuxF (f + 1) (([] : List Char) ++ rest) = .ok ([], rest)
      rw [List.nil_append]
      exact parseValuesAuxF_stop f rest h1 h2
  | cons v vs ih =>
    intro fuel rest hv h1 h2 hf
    rw [join_brackets_toList] at hf ⊢
    cases fuel with
    | zero => omega
    | succ f =>
      rw [List.cons_append, parseValuesAuxF_step]
      have hvch : ∀ c ∈ v.toList, c ≠ ']' :=
        hv v (List.mem_cons_self v vs)
      rw [show (v.toList ++ ']' ::
            (String.join (vs.map fun x => "[" ++ x ++ "]")).toList) ++ rest =
          v.toList ++ ']' ::
            ((String.join (vs.map fun x => "[" ++ x ++ "]")).toList ++ rest) from by
        simp]
      rw [parseValue_bracketed _ _ hvch, strMk_toList]
      dsimp only
      rw [ih f rest (fun w hw => hv w (List.mem_cons_of_mem v hw)) h1 h2 (by
        simp only [List.length_cons, List.length_append] at hf
        omega)]

theorem filterMap_render (cs : List GoCoord) (h : ∀ c ∈ cs, coordRTb c = true) :
    (cs.map GoCoord.render).filterMap
      (fun v => (GoCoord.fromString v).toOption) = cs := by
  induction cs with
  | nil => rfl
  | cons c t ih =>
    rw [List.map_cons, List.filterMap_cons]
    rw [(coord_render_roundtrip c (h c (List.mem_cons_self c t))).1]
    dsimp [Except.toOption]
    exact congrArg (List.cons c) (ih (fun x hx => h x (List.mem_cons_of_mem c hx)))

theorem interpProp_unknown (key : String) (values : List String)
    (h : knownTags.contains key = false) :
    interpProp key values = .ok (.Unknown key values) := by
  unfold interpProp
  split <;> first
    | rfl
    | simp [knownTags] at h

theorem parseProperty_multi (tag : List Char) (tagS : String) (v : String)
    (vs : List String) (p : SGFProperty) (rest : List Char)
    (htag : ∀ c ∈ tag, isUpperAZ c = true) (htagne : tag ≠ [])
    (htagS : tagS = String.mk tag)
    (hv : ∀ c ∈ v.toList, c ≠ ']')
    (hvs : ∀ w ∈ vs, ∀ c ∈ w.toList, c ≠ ']')
    (hrest1 : headNotWs rest = true) (hrest2 : headNotLB rest = true)
    (hip : interpProp tagS (v :: vs) = .ok p) :
    parseProperty (tag ++ '[' :: (v.toList ++ ']' ::
      ((String.join (vs.map fun x => "[" ++ x ++ "]")).toList ++ rest))) =
      .ok (p, rest) := by
  unfold parseProperty
  have hsw : skipWs (tag ++ '[' :: (v.toList ++ ']' ::
      ((String.join (vs.map fun x => "[" ++ x ++ "]")).toList ++ rest))) =
      tag ++ '[' :: (v.toList ++ ']' ::
      ((String.join (vs.map fun x => "[" ++ x ++ "]")).toList ++ rest)) := by
    apply skipWs_noWs
    cases tag with
    | nil => exact absurd rfl htagne
    | cons c t =>
      have hc := htag c (List.mem_cons_self c t)
      show (!isWs c) = true
      rw [(isUpperAZ_props c hc).1]
      rfl
  have htk := takeIdent_append tag ('[' :: (v.toList ++ ']' ::
      ((String.join (vs.map fun x => "[" ++ x ++ "]")).toList ++ rest)))
      htag rfl
  rw [hsw, htk]
  dsimp only
  rw [if_neg (by simp [htagne])]
  rw [parseValue_bracketed _ _ hv, strMk_toList]
  dsimp only
  unfold parseValuesAux
  rw [parseValuesAuxF_renders vs _ rest hvs hrest1 hrest2 (by
    simp only [List.length_append]
    omega)]
  dsimp only
  rw [← htagS, hip]

theorem strJoin_toList_nil : (String.join ([] : List String)).toList = [] := rfl

theorem render_single_eq (tag : List Char) (pre : String) (s : String)
    (hpre : pre.toList = tag ++ ['[']) :
    (pre ++ s ++ "]").toList = tag ++ '[' :: (s.toList ++ ']' ::
      (String.join (([] : List String).map fun x => "[" ++ x ++ "]")).toList) := by
  rw [strToList_append, strToList_append, hpre]
  simp

theorem render_decomp (p : SGFProperty) (h : propRTb p = true) :
    ∃ tag v vs, (SGFProperty.render p).toList =
        tag ++ '[' :: (v.toList ++ ']' ::
          (String.join (vs.map fun x => "[" ++ x ++ "]")).toList) ∧
      tag ≠ [] ∧ (∀ c ∈ tag, isUpperAZ c = true) ∧
      (∀ c ∈ v.toList, c ≠ ']') ∧
      (∀ w ∈ vs, ∀ c ∈ w.toList, c ≠ ']') ∧
      interpProp (String.mk tag) (v :: vs) = .ok p := by
  cases p with
  | AP s =>
    exact ⟨['A', 'P'], s, [], render_single_eq _ "AP[" s rfl, by simp, by decide,
      textRT_chars s h, by simp, rfl⟩
  | B c =>
    refine ⟨['B'], GoCoord.render c, [], render_single_eq _ "B[" _ rfl, by simp,
      by decide, (coord_render_roundtrip c h).2, by simp, ?_⟩
    show (GoCoord.fromString (GoCoord.render c)).map SGFProperty.B =
      .ok (.B c)
    rw [(coord_render_roundtrip c h).1]
    rfl
  | CA cs =>
    refine ⟨['C', 'A'], Charset.render cs, [], render_single_eq _ "CA[" _ rfl,
      by simp, by decide, (cs_render_roundtrip cs h).2, by simp, ?_⟩
    show Except.ok (SGFProperty.CA (Charset.fromString (Charset.render cs))) =
      .ok (.CA cs)
    rw [(cs_render_roundtrip cs h).1]
  | DT s =>
    exact ⟨['D', 'T'], s, [], render_single_eq _ "DT[" s rfl, by simp, by decide,
      textRT_chars s h, by simp, rfl⟩
  | FF f =>
    refine ⟨['F', 'F'], FileFormat.render f, [], render_single_eq _ "FF[" _ rfl,
      by simp, by decide, (ff_render_roundtrip f).2, by simp, ?_⟩
    show (FileFormat.fromString (FileFormat.render f)).map SGFProperty.FF =
      .ok (.FF f)
    rw [(ff_render_roundtrip f).1]
    rfl
  | GM g =>
    refine ⟨['G', 'M'], GameType.render g, [], render_single_eq _ "GM[" _ rfl,
      by simp, by decide, (gt_render_roundtrip g h).2, by simp, ?_⟩
    show (GameType.fromString (GameType.render g)).map SGFProperty.GM =
      .ok (.GM g)
    rw [(gt_render_roundtrip g h).1]
    rfl
  | KM k =>
    refine ⟨['K', 'M'], Komi.render k, [], render_single_eq _ "KM[" _ rfl,
      by simp, by decide, (komi_render_roundtrip k h).2, by simp, ?_⟩
    show (Komi.fromString (Komi.render k)).map SGFProperty.KM = .ok (.KM k)
    rw [(komi_render_roundtrip k h).1]
    rfl
  | W c =>
    refine ⟨['W'], GoCoord.render c, [], render_single_eq _ "W[" _ rfl, by simp,
      by decide, (coord_render_roundtrip c h).2, by simp, ?_⟩
    show (GoCoord.fromString (GoCoord.render c)).map SGFProperty.W =
      .ok (.W c)
    rw [(coord_render_roundtrip c h).1]
    rfl
  | SZ n =>
    have hlt : n < 256 := of_decide_eq_true h
    refine ⟨['S', 'Z'], natToString n, [], render_single_eq _ "SZ[" _ rfl,
      by simp, by decide, ?_, by simp, ?_⟩
    · intro c hc
      exact (isDigitChar_props c ((natToString_spec n).2.1 c hc)).1
    · show (parseU8 (natToString n)).map SGFProperty.SZ = .ok (.SZ n)
      rw [parseU8_natToString n hlt]
      rfl
  | AB cs =>
    have h2 : (!cs.isEmpty && cs.all coordRTb) = true := h
    rw [Bool.and_eq_true] at h2
    obtain ⟨hne0, hall⟩ := h2
    cases cs with
    | nil => simp at hne0
    | cons c cs' =>
      have hallc : ∀ x ∈ c :: cs', coordRTb x = true := fun x hx =>
        List.all_eq_true.mp hall x hx
      refine ⟨['A', 'B'], GoCoord.render c, cs'.map GoCoord.render, ?_, by simp,
        by decide, (coord_render_roundtrip c
          (hallc c (List.mem_cons_self c cs'))).2, ?_, ?_⟩
      · show ("AB" ++ String.join ((c :: cs').map
            fun x => "[" ++ GoCoord.render x ++ "]")).toList = _
        rw [strToList_append, List.map_cons, strJoin_toList_cons,
          strToList_append, strToList_append, List.map_map]
        have hJ : String.join (List.map ((fun x => "[" ++ x ++ "]") ∘
            GoCoord.render) cs') =
            String.join (List.map (fun x => "[" ++ x.render ++ "]") cs') := rfl
        rw [hJ]
        simp
      · intro w hw
        obtain ⟨x, hx, rfl⟩ := List.mem_map.mp hw
        exact (coord_render_roundtrip x
          (hallc x (List.mem_cons_of_mem c hx))).2
      · show Except.ok (SGFProperty.AB ((GoCoord.render c ::
            cs'.map GoCoord.render).filterMap
            (fun v => (GoCoord.fromString v).toOption))) = .ok (.AB (c :: cs'))
        rw [show GoCoord.render c :: cs'.map GoCoord.render =
          (c :: cs').map GoCoord.render from rfl]
        rw [filterMap_render (c :: cs') hallc]
  | AW cs =>
    have h2 : (!cs.isEmpty && cs.all coordRTb) = true := h
    rw [Bool.and_eq_true] at h2
    obtain ⟨hne0, hall⟩ := h2
    cases cs with
    | nil => simp at hne0
    | cons c cs' =>
      have hallc : ∀ x ∈ c :: cs', coordRTb x = true := fun x hx =>
        List.all_eq_true.mp hall x hx
      refine ⟨['A', 'W'], GoCoord.render c, cs'.map GoCoord.render, ?_, by simp,
        by decide, (coord_render_roundtrip c
          (hallc c (List.mem_cons_self c cs'))).2, ?_, ?_⟩
      · show ("AW" ++ String.join ((c :: cs').map
            fun x => "[" ++ GoCoord.render x ++ "]")).toList = _
        rw [strToList_append, List.map_cons, strJoin_toList_cons,
          strToList_append, strToList_append, List.map_map]
        have hJ : String.join (List.map ((fun x => "[" ++ x ++ "]") ∘
            GoCoord.render) cs') =
            String.join (List.map (fun x => "[" ++ x.render ++ "]") cs') := rfl
        rw [hJ]
        simp
      · intro w hw
        obtain ⟨x, hx, rfl⟩ := List.mem_map.mp hw
        exact (coord_render_roundtrip x
          (hallc x (List.mem_cons_of_mem c hx))).2
      · show Except.ok (SGFProperty.AW ((GoCoord.render c ::
            cs'.map GoCoord.render).filterMap
            (fun v => (GoCoord.fromString v).toOption))) = .ok (.AW (c :: cs'))
        rw [show GoCoord.render c :: cs'.map GoCoord.render =
          (c :: cs').map GoCoord.render from rfl]
        rw [filterMap_render (c :: cs') hallc]
  | PB s =>
    exact ⟨['P', 'B'], s, [], render_single_eq _ "PB[" s rfl, by simp, by decide,
      textRT_chars s h, by simp, rfl⟩
  | PW s =>
    exact ⟨['P', 'W'], s, [], render_single_eq _ "PW[" s rfl, by simp, by decide,
      textRT_chars s h, by simp, rfl⟩
  | RE s =>
    exact ⟨['R', 'E'], s, [], render_single_eq _ "RE[" s rfl, by simp, by decide,
      textRT_chars s h, by simp, rfl⟩
  | C s =>
    exact ⟨['C'], s, [], render_single_eq _ "C[" s rfl, by simp, by decide,
      textRT_chars s h, by simp, rfl⟩
  | Unknown key values =>
    have h2 : (identRTb key && !(knownTags.contains key) &&
        !values.isEmpty && values.all textRTb) = true := h
    rw [Bool.and_eq_true, Bool.and_eq_true, Bool.and_eq_true] at h2
    obtain ⟨⟨⟨hid, hnk⟩, hne0⟩, htxt⟩ := h2
    unfold identRTb at hid
    rw [Bool.and_eq_true] at hid
    obtain ⟨hkne, hkup⟩ := hid
    cases values with
    | nil => simp at hne0
    | cons v vs' =>
      have hkl : key.toList ≠ [] := by
        intro hc
        have hke : key = "" := by
          rw [← strMk_toList key, hc]
        rw [hke] at hkne
        exact absurd hkne (by decide)
      refine ⟨key.toList, v, vs', ?_, hkl,
        fun c hc => List.all_eq_true.mp hkup c hc, ?_, ?_, ?_⟩
      · show (key ++ String.join ((v :: vs').map
            fun x => "[" ++ x ++ "]")).toList = _
        rw [strToList_append, join_brackets_toList]
      · exact textRT_chars v (List.all_eq_true.mp htxt v
          (List.mem_cons_self v vs'))
      · intro w hw
        exact textRT_chars w (List.all_eq_true.mp htxt w
          (List.mem_cons_of_mem v hw))
      · rw [strMk_toList]
        exact interpProp_unknown key (v :: vs') (by
          rw [Bool.not_eq_true'] at hnk
          exact hnk)

theorem parseProperty_render (p : SGFProperty) (rest : List Char)
    (h : propRTb p = true)
    (h1 : headNotWs rest = true) (h2 : headNotLB rest = true) :
    parseProperty ((SGFProperty.render p).toList ++ rest) = .ok (p, rest) ∧
    (SGFProperty.render p).toList ≠ [] := by
  obtain ⟨tag, v, vs, heq, hne, htag, hv, hvs, hip⟩ := render_decomp p h
  constructor
  · rw [heq]
    rw [show (tag ++ '[' :: (v.toList ++ ']' ::
        (String.join (vs.map fun x => "[" ++ x ++ "]")).toList)) ++ rest =
        tag ++ '[' :: (v.toList ++ ']' ::
        ((String.join (vs.map fun x => "[" ++ x ++ "]")).toList ++ rest))
        from by simp]
    exact parseProperty_multi tag (String.mk tag) v vs p rest htag hne rfl
      hv hvs h1 h2 hip
  · rw [heq]
    cases tag with
    | nil => exact absurd rfl hne
    | cons c t => simp

theorem nodeText_toList (ps : List SGFProperty) :
    (nodeText ps).toList = ';' :: (String.join (ps.map SGFProperty.render)).toList := by
  unfold nodeText
  rw [strToList_append]
  rfl

theorem runText_toList_cons (n : List SGFProperty) (ns : List (List SGFProperty)) :
    (runText (n :: ns)).toList = (nodeText n).toList ++ (runText ns).toList := by
  unfold runText
  rw [List.map_cons, strJoin_toList_cons]

theorem parsePropsAuxF_stop (fuel : Nat) (input : List Char)
    (h1 : headNotWs input = true) (h2 : headNotUpper input = true) :
    parsePropsAuxF (fuel + 1) input = .ok ([], input) := by
  unfold parsePropsAuxF
  rw [skipWs_noWs input h1]
  cases input with
  | nil => rfl
  | cons c t =>
    simp only [headNotUpper, Bool.not_eq_true'] at h2
    dsimp only
    rw [if_neg (by simp [h2])]

theorem renders_head_ok (ps : List SGFProperty) (rest : List Char)
    (hps : ∀ p ∈ ps, propRTb p = true)
    (h1 : headNotWs rest = true) (h2 : headNotLB rest = true) :
    headNotWs ((String.join (ps.map SGFProperty.render)).toList ++ rest) = true ∧
    headNotLB ((String.join (ps.map SGFProperty.render)).toList ++ rest) = true := by
  cases ps with
  | nil =>
    show headNotWs (([] : List Char) ++ rest) = true ∧
      headNotLB (([] : List Char) ++ rest) = true
    rw [List.nil_append]
    exact ⟨h1, h2⟩
  | cons p ps' =>
    obtain ⟨tag, v, vs, heq, hne, htag, _, _, _⟩ :=
      render_decomp p (hps p (List.mem_cons_self p ps'))
    rw [List.map_cons, strJoin_toList_cons, heq]
    cases tag with
    | nil => exact absurd rfl hne
    | cons c t =>
      have hc := htag c (List.mem_cons_self c t)
      obtain ⟨hw, hlb, _, _, _, _⟩ := isUpperAZ_props c hc
      constructor
      · show (!isWs c) = true
        rw [hw]
        rfl
      · show (c != '[') = true
        simp [hlb]

theorem propsText_renders :
    ∀ (ps : List SGFProperty) (fuel : Nat) (rest : List Char),
    (∀ p ∈ ps, propRTb p = true) →
    headNotWs rest = true → headNotUpper rest = true → headNotLB rest = true →
    (String.join (ps.map SGFProperty.render)).toList.length < fuel →
    parsePropsAuxF fuel
      ((String.join (ps.map SGFProperty.render)).toList ++ rest) =
      .ok (ps, rest) := by
  intro ps
  induction ps with
  | nil =>
    intro fuel rest hps h1 h2 h3 hf
    cases fuel with
    | zero => omega
    | succ f =>
      show parsePropsAuxF (f + 1) (([] : List Char) ++ rest) = .ok ([], rest)
      rw [List.nil_append]
      exact parsePropsAuxF_stop f rest h1 h2
  | cons p ps' ih =>
    intro fuel rest hps h1 h2 h3 hf
    rw [List.map_cons, strJoin_toList_cons] at hf ⊢
    cases fuel with
    | zero => omega
    | succ f =>
      have hprt := hps p (List.mem_cons_self p ps')
      have hps' : ∀ q ∈ ps', propRTb q = true :=
        fun q hq => hps q (List.mem_cons_of_mem p hq)
      obtain ⟨hrw, hrlb⟩ := renders_head_ok ps' rest hps' h1 h3
      obtain ⟨hpp, hrne⟩ := parseProperty_render p
        ((String.join (ps'.map SGFProperty.render)).toList ++ rest)
        hprt hrw hrlb
      obtain ⟨tag, v, vs, heq, hne, htag, _, _, _⟩ := render_decomp p hprt
      -- the head of the input is the first tag character
      rw [List.append_assoc]
      obtain ⟨c, t, hct⟩ : ∃ c t, (SGFProperty.render p).toList = c :: t := by
        cases hl : (SGFProperty.render p).toList with
        | nil => exact absurd hl hrne
        | cons c t => exact ⟨c, t, rfl⟩
      have hcup : isUpperAZ c = true := by
        rw [heq] at hct
        cases tag with
        | nil => exact absurd rfl hne
        | cons c2 t2 =>
          injection hct with hc2 _
          rw [← hc2]
          exact htag c2 (List.mem_cons_self c2 t2)
      rw [hct, List.cons_append]
      unfold parsePropsAuxF
      rw [skipWs_noWs _ (by
        show (!isWs c) = true
        rw [(isUpperAZ_props c hcup).1]
        rfl)]
      dsimp only
      rw [if_pos hcup]
      rw [show c :: (t ++ ((String.join (ps'.map SGFProperty.render)).toList
          ++ rest)) = (SGFProperty.render p).toList ++
          ((String.join (ps'.map SGFProperty.render)).toList ++ rest) from by
        rw [hct, List.cons_append]]
      rw [hpp]
      dsimp only
      rw [ih f rest hps' h1 h2 h3 (by
        rw [hct] at hf
        simp only [List.length_append, List.length_cons] at hf ⊢
        omega)]

theorem parseNode_step (x : List Char) : parseNode (';' :: x) = parseProps x := rfl

theorem parseNode_render (ps : List SGFProperty) (rest : List Char)
    (hps : ∀ p ∈ ps, propRTb p = true)
    (h1 : headNotWs rest = true) (h2 : headNotUpper rest = true)
    (h3 : headNotLB rest = true) :
    parseNode ((nodeText ps).toList ++ rest) = .ok (ps, rest) := by
  rw [nodeText_toList, List.cons_append, parseNode_step]
  unfold parseProps
  exact propsText_renders ps _ rest hps h1 h2 h3 (by
    simp only [List.length_append]
    omega)

theorem parseNodesAuxF_stop (fuel : Nat) (input : List Char)
    (h1 : headNotWs input = true) (h2 : headNotSemi input = true) :
    parseNodesAuxF (fuel + 1) input = .ok ([], input) := by
  unfold parseNodesAuxF
  rw [skipWs_noWs input h1]
  split
  · exfalso
    simp [headNotSemi] at h2
  · rfl

theorem parseNodesAuxF_step (f : Nat) (x : List Char) :
    parseNodesAuxF (f + 1) (';' :: x) =
      (match parseNode (';' :: x) with
       | .error e => .error e
       | .ok (props, rest) =>
         match parseNodesAuxF f rest with
         | .error e => .error e
         | .ok (nodes, rest2) => .ok (props :: nodes, rest2)) := rfl

theorem runText_renders :
    ∀ (ns : List (List SGFProperty)) (fuel : Nat) (rest : List Char),
    (∀ ps ∈ ns, ∀ p ∈ ps, propRTb p = true) →
    headNotWs rest = true → headNotSemi rest = true →
    headNotUpper rest = true → headNotLB rest = true →
    (runText ns).toList.length < fuel →
    parseNodesAuxF fuel ((runText ns).toList ++ rest) = .ok (ns, rest) := by
  intro ns
  induction ns with
  | nil =>
    intro fuel rest hns h1 h2 h3 h4 hf
    cases fuel with
    | zero => omega
    | succ f =>
      show parseNodesAuxF (f + 1) (([] : List Char) ++ rest) = .ok ([], rest)
      rw [List.nil_append]
      exact parseNodesAuxF_stop f rest h1 h2
  | cons n ns' ih =>
    intro fuel rest hns h1 h2 h3 h4 hf
    rw [runText_toList_cons] at hf ⊢
    cases fuel with
    | zero => omega
    | succ f =>
      have hnrt : ∀ p ∈ n, propRTb p = true := hns n (List.mem_cons_self n ns')
      have hns' : ∀ ps ∈ ns', ∀ p ∈ ps, propRTb p = true :=
        fun ps hps => hns ps (List.mem_cons_of_mem n hps)
      -- boundary after this node: the next run text (headed by a
      -- semicolon) or the final rest
      have hbound : headNotWs ((runText ns').toList ++ rest) = true ∧
          headNotUpper ((runText ns').toList ++ rest) = true ∧
          headNotLB ((runText ns').toList ++ rest) = true := by
        cases ns' with
        | nil =>
          show headNotWs (([] : List Char) ++ rest) = true ∧
            headNotUpper (([] : List Char) ++ rest) = true ∧
            headNotLB (([] : List Char) ++ rest) = true
          rw [List.nil_append]
          exact ⟨h1, h3, h4⟩
        | cons m ms =>
          rw [runText_toList_cons, nodeText_toList]
          exact ⟨rfl, rfl, rfl⟩
      rw [nodeText_toList, List.cons_append, List.cons_append,
        List.append_assoc]
      rw [parseNodesAuxF_step]
      rw [show ';' :: ((String.join (n.map SGFProperty.render)).toList ++
          ((runText ns').toList ++ rest)) = (nodeText n).toList ++
          ((runText ns').toList ++ rest) from by
        rw [nodeText_toList, List.cons_append]]
      rw [parseNode_render n _ hnrt hbound.1 hbound.2.1 hbound.2.2]
      dsimp only
      rw [ih f rest hns' h1 h2 h3 h4 (by
        simp only [List.length_append, nodeText_toList, List.length_cons] at hf ⊢
        omega)]


/-!  Canonicalisation: the printed text is invariant, the result is
canonical, and the round-trip side conditions are preserved. -/

theorem strEq_of_toList (a b : String) (h : a.toList = b.toList) : a = b := by
  rw [← strMk_toList a, h, strMk_toList]

theorem strJoin_cons (s : String) (l : List String) :
    String.join (s :: l) = s ++ String.join l := by
  apply strEq_of_toList
  rw [strJoin_toList_cons, strToList_append]

theorem strJoin_append (xs ys : List String) :
    String.join (xs ++ ys) = String.join xs ++ String.join ys := by
  induction xs with
  | nil =>
    apply strEq_of_toList
    rw [List.nil_append, strToList_append]
    rfl
  | cons x xs ih =>
    rw [List.cons_append, strJoin_cons, strJoin_cons, ih, String.append_assoc]

theorem runText_append (a b : List (List SGFProperty)) :
    runText (a ++ b) = runText a ++ runText b := by
  unfold runText
  rw [List.map_append, strJoin_append]

theorem printPObj_mk (ns : List (List SGFProperty)) (cs : PObjs) :
    printPObj (.mk ns cs) = runText ns ++ printChildren cs := rfl

theorem objRTb_mk (ns : List (List SGFProperty)) (cs : PObjs) :
    objRTb (.mk ns cs) =
      (!ns.isEmpty && ns.all (fun ps => ps.all propRTb) && objsRTb cs) := rfl

theorem objsRTb_cons (o : PObj) (os : PObjs) :
    objsRTb (.cons o os) = (objRTb o && objsRTb os) := rfl

theorem isCanonB_congr (ns ns' : List (List SGFProperty)) (cs : PObjs) :
    isCanonB (.mk ns cs) = isCanonB (.mk ns' cs) := by
  cases cs with
  | nil => rfl
  | cons c cs' => cases cs' <;> rfl

mutual
theorem printPObj_canon : ∀ o : PObj, printPObj (canonPObj o) = printPObj o
  | .mk ns .nil => rfl
  | .mk ns (.cons c .nil) => by
      have ih := printPObj_canon c
      have hred : canonPObj (PObj.mk ns (.cons c .nil)) =
          (match canonPObj c with
           | .mk ns2 cs2 => PObj.mk (ns ++ ns2) cs2) := rfl
      rw [hred]
      cases hc : canonPObj c with
      | mk ns2 cs2 =>
        rw [hc] at ih
        show printPObj (PObj.mk (ns ++ ns2) cs2) =
          printPObj (PObj.mk ns (.cons c .nil))
        rw [printPObj_mk, printPObj_mk, runText_append, String.append_assoc]
        rw [show printChildren (PObjs.cons c .nil) = printPObj c from rfl,
          ← ih, printPObj_mk]
  | .mk ns (.cons c1 (.cons c2 rest)) => by
      have ih1 := printPObj_canon c1
      have ih2 := printPObj_canon c2
      have ih3 := printEach_canon rest
      have hred : canonPObj (PObj.mk ns (.cons c1 (.cons c2 rest))) =
          PObj.mk ns (.cons (canonPObj c1)
            (.cons (canonPObj c2) (canonPObjs rest))) := rfl
      rw [hred, printPObj_mk, printPObj_mk]
      have h1 : printChildren (PObjs.cons (canonPObj c1)
            (.cons (canonPObj c2) (canonPObjs rest))) =
          "(" ++ printPObj (canonPObj c1) ++ ")" ++ "(" ++
            printPObj (canonPObj c2) ++ ")" ++ printEach (canonPObjs rest) := rfl
      have h2 : printChildren (PObjs.cons c1 (.cons c2 rest)) =
          "(" ++ printPObj c1 ++ ")" ++ "(" ++ printPObj c2 ++ ")" ++
            printEach rest := rfl
      rw [h1, h2, ih1, ih2, ih3]

theorem printEach_canon : ∀ os : PObjs, printEach (canonPObjs os) = printEach os
  | .nil => rfl
  | .cons o os => by
      have ih1 := printPObj_canon o
      have ih2 := printEach_canon os
      have hred : canonPObjs (PObjs.cons o os) =
          .cons (canonPObj o) (canonPObjs os) := rfl
      rw [hred]
      have h1 : printEach (PObjs.cons (canonPObj o) (canonPObjs os)) =
          "(" ++ printPObj (canonPObj o) ++ ")" ++
            printEach (canonPObjs os) := rfl
      have h2 : printEach (PObjs.cons o os) =
          "(" ++ printPObj o ++ ")" ++ printEach os := rfl
      rw [h1, h2, ih1, ih2]
end

mutual
theorem isCanonB_canon : ∀ o : PObj, isCanonB (canonPObj o) = true
  | .mk ns .nil => rfl
  | .mk ns (.cons c .nil) => by
      have ih := isCanonB_canon c
      have hred : canonPObj (PObj.mk ns (.cons c .nil)) =
          (match canonPObj c with
           | .mk ns2 cs2 => PObj.mk (ns ++ ns2) cs2) := rfl
      rw [hred]
      cases hc : canonPObj c with
      | mk ns2 cs2 =>
        rw [hc] at ih
        show isCanonB (PObj.mk (ns ++ ns2) cs2) = true
        rw [isCanonB_congr (ns ++ ns2) ns2 cs2]
        exact ih
  | .mk ns (.cons c1 (.cons c2 rest)) => by
      have h : isCanonB (canonPObj (PObj.mk ns (.cons c1 (.cons c2 rest)))) =
          (isCanonB (canonPObj c1) && isCanonB (canonPObj c2) &&
            isCanonsB (canonPObjs rest)) := rfl
      rw [h, isCanonB_canon c1, isCanonB_canon c2, isCanonsB_canon rest]
      rfl

theorem isCanonsB_canon : ∀ os : PObjs, isCanonsB (canonPObjs os) = true
  | .nil => rfl
  | .cons o os => by
      have h : isCanonsB (canonPObjs (PObjs.cons o os)) =
          (isCanonB (canonPObj o) && isCanonsB (canonPObjs os)) := rfl
      rw [h, isCanonB_canon o, isCanonsB_canon os]
      rfl
end

mutual
theorem objRTb_canon : ∀ o : PObj, objRTb o = true → objRTb (canonPObj o) = true
  | .mk ns .nil => fun h => h
  | .mk ns (.cons c .nil) => by
      intro h
      rw [objRTb_mk, Bool.and_eq_true, Bool.and_eq_true, objsRTb_cons,
        Bool.and_eq_true] at h
      obtain ⟨⟨hne, hall⟩, hc, _⟩ := h
      have ih := objRTb_canon c hc
      have hred : canonPObj (PObj.mk ns (.cons c .nil)) =
          (match canonPObj c with
           | .mk ns2 cs2 => PObj.mk (ns ++ ns2) cs2) := rfl
      rw [hred]
      cases hcc : canonPObj c with
      | mk ns2 cs2 =>
        rw [hcc] at ih
        rw [objRTb_mk, Bool.and_eq_true, Bool.and_eq_true] at ih
        obtain ⟨⟨hne2, hall2⟩, hcs2⟩ := ih
        show objRTb (PObj.mk (ns ++ ns2) cs2) = true
        rw [objRTb_mk, Bool.and_eq_true, Bool.and_eq_true]
        refine ⟨⟨?_, ?_⟩, hcs2⟩
        · simp only [Bool.not_eq_true', List.isEmpty_eq_false] at hne ⊢
          simp [hne]
        · rw [List.all_append]
          rw [Bool.and_eq_true]
          exact ⟨hall, hall2⟩
  | .mk ns (.cons c1 (.cons c2 rest)) => by
      intro h
      rw [objRTb_mk, Bool.and_eq_true, Bool.and_eq_true, objsRTb_cons,
        Bool.and_eq_true, objsRTb_cons, Bool.and_eq_true] at h
      obtain ⟨⟨hne, hall⟩, hc1, hc2, hrest⟩ := h
      have hred : canonPObj (PObj.mk ns (.cons c1 (.cons c2 rest))) =
          PObj.mk ns (.cons (canonPObj c1)
            (.cons (canonPObj c2) (canonPObjs rest))) := rfl
      rw [hred, objRTb_mk, Bool.and_eq_true, Bool.and_eq_true, objsRTb_cons,
        Bool.and_eq_true, objsRTb_cons, Bool.and_eq_true]
      exact ⟨⟨hne, hall⟩, objRTb_canon c1 hc1, objRTb_canon c2 hc2,
        objsRTb_canon rest hrest⟩

theorem objsRTb_canon : ∀ os : PObjs, objsRTb os = true →
    objsRTb (canonPObjs os) = true
  | .nil => fun h => h
  | .cons o os => by
      intro h
      rw [objsRTb_cons, Bool.and_eq_true] at h
      have hred : canonPObjs (PObjs.cons o os) =
          .cons (canonPObj o) (canonPObjs os) := rfl
      rw [hred, objsRTb_cons, Bool.and_eq_true]
      exact ⟨objRTb_canon o h.1, objsRTb_canon os h.2⟩
end

theorem printChildren_pair (c1 c2 : PObj) (rest : PObjs) :
    printChildren (.cons c1 (.cons c2 rest)) =
      printEach (.cons c1 (.cons c2 rest)) := by
  show "(" ++ printPObj c1 ++ ")" ++ "(" ++ printPObj c2 ++ ")" ++
      printEach rest =
    "(" ++ printPObj c1 ++ ")" ++ ("(" ++ printPObj c2 ++ ")" ++ printEach rest)
  apply strEq_of_toList
  simp only [strToList_append, List.append_assoc]


/-!  Parsing the printed text of canonical objects. -/

theorem parseObject_step (f : Nat) (x : List Char) :
    parseObject (f + 1) ('(' :: x) =
      (match parseNodes x with
       | .error e => .error e
       | .ok (nodes, rest2) =>
         match parseObjectsAux f rest2 with
         | .error e => .error e
         | .ok (children, rest3) =>
           match skipWs rest3 with
           | ')' :: rest4 => .ok (.mk nodes children, rest4)
           | other => .error ⟨"expected closing parenthesis",
               String.mk other⟩) := rfl

theorem parseObjectsAux_step (f : Nat) (x : List Char) :
    parseObjectsAux (f + 1) ('(' :: x) =
      (match parseObject f ('(' :: x) with
       | .error e => .error e
       | .ok (o, rest) =>
         match parseObjectsAux f rest with
         | .error e => .error e
         | .ok (os, rest2) => .ok (.cons o os, rest2)) := rfl

theorem parseObjectsAux_stop (f : Nat) (input : List Char)
    (h1 : headNotWs input = true) (h2 : headNotLP input = true) :
    parseObjectsAux f input = .ok (.nil, input) := by
  cases f with
  | zero =>
    unfold parseObjectsAux
    rw [skipWs_noWs input h1]
    split
    · exfalso
      simp [headNotLP] at h2
    · rfl
  | succ f =>
    unfold parseObjectsAux
    rw [skipWs_noWs input h1]
    split
    · exfalso
      simp [headNotLP] at h2
    · rfl

theorem printEach_cons_toList (c : PObj) (r : PObjs) :
    (printEach (.cons c r)).toList =
      '(' :: ((printPObj c).toList ++ ')' :: (printEach r).toList) := by
  show ("(" ++ printPObj c ++ ")" ++ printEach r).toList = _
  rw [strToList_append, strToList_append, strToList_append]
  simp

theorem isCanonB_mk_children (ns : List (List SGFProperty)) (cs : PObjs)
    (h : isCanonB (.mk ns cs) = true) : isCanonsB cs = true := by
  cases cs with
  | nil => rfl
  | cons c cs' =>
    cases cs' with
    | nil =>
      have hfalse : isCanonB (PObj.mk ns (PObjs.cons c PObjs.nil)) = false := rfl
      rw [hfalse] at h
      cases h
    | cons c2 r =>
      have h2 : (isCanonB c && isCanonB c2 && isCanonsB r) = true := h
      have h3 : isCanonsB (PObjs.cons c (PObjs.cons c2 r)) =
          (isCanonB c && (isCanonB c2 && isCanonsB r)) := rfl
      rw [Bool.and_eq_true, Bool.and_eq_true] at h2
      rw [h3, Bool.and_eq_true, Bool.and_eq_true]
      exact ⟨h2.1.1, h2.1.2, h2.2⟩

theorem parseK : ∀ fuel : Nat,
    (∀ (o : PObj) (rest : List Char), isCanonB o = true → objRTb o = true →
      (printPObj o).toList.length + 2 ≤ fuel →
      parseObject fuel ('(' :: ((printPObj o).toList ++ ')' :: rest)) =
        .ok (o, rest)) ∧
    (∀ (os : PObjs) (rest : List Char), isCanonsB os = true →
      objsRTb os = true → headNotWs rest = true → headNotLP rest = true →
      (printEach os).toList.length < fuel →
      parseObjectsAux fuel ((printEach os).toList ++ rest) = .ok (os, rest)) := by
  intro fuel
  induction fuel with
  | zero =>
    constructor
    · intro o rest _ _ hf
      omega
    · intro os rest _ _ _ _ hf
      omega
  | succ f ih =>
    constructor
    · intro o rest hcan hrt hf
      cases o with
      | mk ns cs =>
        rw [objRTb_mk, Bool.and_eq_true, Bool.and_eq_true] at hrt
        obtain ⟨⟨hne, hall⟩, hcs⟩ := hrt
        have hprops : ∀ ps ∈ ns, ∀ p ∈ ps, propRTb p = true := by
          intro ps hps p hp
          exact List.all_eq_true.mp (List.all_eq_true.mp hall ps hps) p hp
        cases cs with
        | nil =>
          have hdec : (printPObj (PObj.mk ns PObjs.nil)).toList =
              (runText ns).toList := by
            rw [printPObj_mk]
            show (runText ns ++ "").toList = _
            rw [strToList_append]
            simp
          rw [hdec] at hf ⊢
          rw [parseObject_step]
          unfold parseNodes
          rw [runText_renders ns _ (')' :: rest) hprops rfl rfl rfl rfl (by
            simp only [List.length_append]
            omega)]
          dsimp only
          rw [parseObjectsAux_stop f (')' :: rest) rfl rfl]
          dsimp only
          rfl
        | cons c cs' =>
          cases cs' with
          | nil =>
            exfalso
            have hfalse : isCanonB (PObj.mk ns (PObjs.cons c PObjs.nil)) =
                false := rfl
            rw [hfalse] at hcan
            cases hcan
          | cons c2 r =>
            have hdec : (printPObj (PObj.mk ns
                  (PObjs.cons c (PObjs.cons c2 r)))).toList =
                (runText ns).toList ++
                  (printEach (PObjs.cons c (PObjs.cons c2 r))).toList := by
              rw [printPObj_mk, strToList_append, printChildren_pair]
            rw [hdec] at hf ⊢
            rw [parseObject_step]
            have harr : ((runText ns).toList ++
                  (printEach (PObjs.cons c (PObjs.cons c2 r))).toList) ++
                  ')' :: rest =
                (runText ns).toList ++
                  ((printEach (PObjs.cons c (PObjs.cons c2 r))).toList ++
                    ')' :: rest) := by
              simp
            rw [harr]
            unfold parseNodes
            have hb1 : headNotWs ((printEach (PObjs.cons c
                  (PObjs.cons c2 r))).toList ++ ')' :: rest) = true := by
              rw [printEach_cons_toList, List.cons_append]
              rfl
            have hb2 : headNotSemi ((printEach (PObjs.cons c
                  (PObjs.cons c2 r))).toList ++ ')' :: rest) = true := by
              rw [printEach_cons_toList, List.cons_append]
              rfl
            have hb3 : headNotUpper ((printEach (PObjs.cons c
                  (PObjs.cons c2 r))).toList ++ ')' :: rest) = true := by
              rw [printEach_cons_toList, List.cons_append]
              rfl
            have hb4 : headNotLB ((printEach (PObjs.cons c
                  (PObjs.cons c2 r))).toList ++ ')' :: rest) = true := by
              rw [printEach_cons_toList, List.cons_append]
              rfl
            rw [runText_renders ns _ _ hprops hb1 hb2 hb3 hb4 (by
              simp only [List.length_append]
              omega)]
            dsimp only
            have hcs2 : isCanonsB (PObjs.cons c (PObjs.cons c2 r)) = true :=
              isCanonB_mk_children ns _ hcan
            simp only [List.length_append] at hf
            rw [ih.2 (PObjs.cons c (PObjs.cons c2 r)) (')' :: rest) hcs2 hcs
              rfl rfl (by omega)]
            dsimp only
            rfl
    · intro os rest hcans hrts h3 h4 hf
      cases os with
      | nil =>
        show parseObjectsAux (f + 1) (([] : List Char) ++ rest) =
          .ok (.nil, rest)
        rw [List.nil_append]
        exact parseObjectsAux_stop (f + 1) rest h3 h4
      | cons o t =>
        have hco : (isCanonB o && isCanonsB t) = true := hcans
        rw [Bool.and_eq_true] at hco
        have hrt : (objRTb o && objsRTb t) = true := hrts
        rw [Bool.and_eq_true] at hrt
        have hlen : (printEach (PObjs.cons o t)).toList.length =
            (printPObj o).toList.length +
              ((printEach t).toList.length + 2) := by
          rw [printEach_cons_toList]
          simp only [List.length_cons, List.length_append]
          omega
        have harr : (printEach (PObjs.cons o t)).toList ++ rest =
            '(' :: ((printPObj o).toList ++
              ')' :: ((printEach t).toList ++ rest)) := by
          rw [printEach_cons_toList]
          simp
        rw [harr, parseObjectsAux_step]
        rw [ih.1 o ((printEach t).toList ++ rest) hco.1 hrt.1 (by omega)]
        dsimp only
        rw [ih.2 t rest hco.2 hrt.2 h3 h4 (by omega)]

theorem parseFile_printTop (objs : PObjs) (hc : objsRTb objs = true) :
    parseFile (printTop objs).toList = .ok (canonPObjs objs) := by
  have hpp : printTop objs = printEach (canonPObjs objs) :=
    (printEach_canon objs).symm
  rw [hpp]
  unfold parseFile
  have hk := (parseK (2 * (printEach (canonPObjs objs)).toList.length + 2)).2
      (canonPObjs objs) [] (isCanonsB_canon objs) (objsRTb_canon objs hc)
      rfl rfl (by omega)
  rw [List.append_nil] at hk
  rw [hk]
  rfl


/-!  Ingestion: the node loop produces a concrete block. -/

theorem get?_lt_length {α : Type} (l : List α) (i : Nat) (x : α)
    (h : l.get? i = some x) : i < l.length :=
  (List.get?_eq_some.mp h).1

theorem bump_length (A : List TreeNode) (par : Option NodeId) (c : NodeId) :
    (bump A par c).length = A.length := by
  unfold bump
  cases par with
  | none => rfl
  | some p =>
    dsimp only
    cases hg : A.get? p with
    | none => rfl
    | some nd =>
      dsimp only
      rw [List.length_set]

theorem bump_get?_ne (A : List TreeNode) (par : Option NodeId) (c : NodeId)
    (i : Nat) (h : par ≠ some i) : (bump A par c).get? i = A.get? i := by
  unfold bump
  cases par with
  | none => rfl
  | some p =>
    dsimp only
    cases hg : A.get? p with
    | none => rfl
    | some nd =>
      have hpi : p ≠ i := fun he => h (by rw [he])
      dsimp only
      exact List.get?_set_ne _ _ hpi

theorem bump_get?_eq (A : List TreeNode) (p : NodeId) (c : NodeId)
    (nd : TreeNode) (h : A.get? p = some nd) :
    (bump A (some p) c).get? p =
      some { nd with children := nd.children ++ [c] } := by
  unfold bump
  dsimp only
  rw [h]
  exact List.get?_set_eq_of_lt _ (get?_lt_length A p nd h)

theorem bump_none (A : List TreeNode) (c : NodeId) : bump A none c = A := rfl

theorem bump_append_last (X : List TreeNode) (y : TreeNode) (c : NodeId) :
    bump (X ++ [y]) (some X.length) c =
      X ++ [{ y with children := y.children ++ [c] }] := by
  unfold bump
  dsimp only
  have hg : (X ++ [y]).get? X.length = some y := by
    rw [List.get?_append_right (Nat.le_refl _)]
    simp
  rw [hg]
  dsimp only
  rw [List.set_append_right _ _ (Nat.le_refl _)]
  simp

theorem runBlock_length (ns : List (List SGFProperty)) :
    ∀ (base : Nat) (par : Option NodeId),
      (runBlock base par ns).length = ns.length := by
  induction ns with
  | nil => intro base par; rfl
  | cons ps rest ih =>
    intro base par
    cases rest with
    | nil => rfl
    | cons ps2 rest2 =>
      show (runBlock base par (ps :: ps2 :: rest2)).length = _
      unfold runBlock
      rw [List.length_cons, ih]
      rfl

theorem ingestNodes_eq (arena : List TreeNode) (parent : Option NodeId)
    (propLists : List (List SGFProperty)) :
    ingestNodes arena parent propLists =
      propLists.foldl ingestStep (arena, none, parent) := rfl

theorem ingestStep_none (A : List TreeNode) (fst : Option NodeId)
    (ps : List SGFProperty) :
    ingestStep (A, fst, none) ps =
      (A ++ [⟨ps, none, []⟩],
       (if fst.isSome then fst else some A.length), some A.length) := rfl

theorem ingestStep_some (A : List TreeNode) (fst : Option NodeId)
    (p : NodeId) (ps : List SGFProperty) (hp : p < A.length) :
    ingestStep (A, fst, some p) ps =
      (bump A (some p) A.length ++ [⟨ps, some p, []⟩],
       (if fst.isSome then fst else some A.length), some A.length) := by
  obtain ⟨nd, hnd⟩ : ∃ nd, A.get? p = some nd := by
    cases hg : A.get? p with
    | none =>
      exfalso
      have h3 := List.get?_eq_none.mp hg
      exact Nat.lt_irrefl p (Nat.lt_of_lt_of_le hp h3)
    | some nd => exact ⟨nd, rfl⟩
  unfold ingestStep bump
  dsimp only
  rw [List.get?_append hp, hnd]
  dsimp only
  rw [List.set_append_left _ _ hp]

theorem ingestFold_spec :
    ∀ (ns : List (List SGFProperty)) (A : List TreeNode)
      (fst par : Option NodeId), ns ≠ [] →
      (∀ p, par = some p → p < A.length) →
      ns.foldl ingestStep (A, fst, par) =
        (bump A par A.length ++ runBlock A.length par ns,
         (if fst.isSome then fst else some A.length),
         some (A.length + ns.length - 1)) := by
  intro ns
  induction ns with
  | nil => intro A fst par hne _; exact absurd rfl hne
  | cons ps rest ih =>
    intro A fst par _ hpar
    rw [List.foldl_cons]
    have hstep : ingestStep (A, fst, par) ps =
        (bump A par A.length ++ [⟨ps, par, []⟩],
         (if fst.isSome then fst else some A.length), some A.length) := by
      cases par with
      | none => exact ingestStep_none A fst ps
      | some p => exact ingestStep_some A fst p ps (hpar p rfl)
    rw [hstep]
    cases rest with
    | nil =>
      rw [List.foldl_nil]
      show _ = (bump A par A.length ++ [⟨ps, par, []⟩], _, some (A.length + 1 - 1))
      rw [show A.length + 1 - 1 = A.length from by omega]
    | cons ps2 rest2 =>
      have hlen1 : (bump A par A.length ++ [(⟨ps, par, []⟩ : TreeNode)]).length =
          A.length + 1 := by
        rw [List.length_append, bump_length]
        rfl
      have hih := ih (bump A par A.length ++ [⟨ps, par, []⟩])
        (if fst.isSome then fst else some A.length) (some A.length)
        (by simp) (by
          intro q hq
          injection hq with hq
          subst hq
          rw [hlen1]
          exact Nat.lt_succ_self _)
      rw [hih, hlen1]
      have hb := bump_length A par A.length
      have hbump := bump_append_last (bump A par A.length)
        (⟨ps, par, []⟩ : TreeNode) (A.length + 1)
      rw [hb] at hbump
      simp only [List.nil_append] at hbump
      rw [hbump]
      have hfsome : (if (if fst.isSome then fst else some A.length).isSome
          then (if fst.isSome then fst else some A.length)
          else some (A.length + 1)) =
          (if fst.isSome then fst else some A.length) := by
        cases fst <;> simp
      rw [hfsome]
      have hrb : runBlock A.length par (ps :: ps2 :: rest2) =
          ⟨ps, par, [A.length + 1]⟩ ::
            runBlock (A.length + 1) (some A.length) (ps2 :: rest2) := rfl
      rw [hrb]
      have hlen2 : A.length + 1 + (ps2 :: rest2).length - 1 =
          A.length + (ps :: ps2 :: rest2).length - 1 := by
        simp only [List.length_cons]
        omega
      rw [hlen2, List.append_assoc]
      rfl


/-!  The representation predicate: equations, stability, widening. -/

theorem reprRun_nil_eq (t : List TreeNode) (lo hi : Nat) (id : NodeId)
    (cs : PObjs) : reprRun t lo hi id [] cs = False := by
  unfold reprRun
  rfl

theorem reprRun_one (t : List TreeNode) (lo hi : Nat) (id : NodeId)
    (ps : List SGFProperty) (cs : PObjs) :
    reprRun t lo hi id [ps] cs =
      (lo ≤ id ∧ id < hi ∧ ∃ nd, t.get? id = some nd ∧
        nd.properties = ps ∧ reprChildren t lo hi nd.children cs) := by
  unfold reprRun
  rfl

theorem reprRun_cons (t : List TreeNode) (lo hi : Nat) (id : NodeId)
    (ps ps2 : List SGFProperty) (rest : List (List SGFProperty)) (cs : PObjs) :
    reprRun t lo hi id (ps :: ps2 :: rest) cs =
      (lo ≤ id ∧ id < hi ∧ ∃ nd id2, t.get? id = some nd ∧
        nd.properties = ps ∧ nd.children = [id2] ∧
        reprRun t lo hi id2 (ps2 :: rest) cs) := by
  conv_lhs => rw [reprRun]

theorem reprChildren_nil_eq (t : List TreeNode) (lo hi : Nat) :
    reprChildren t lo hi [] .nil = True := by
  unfold reprChildren
  rfl

theorem reprChildren_cons_eq (t : List TreeNode) (lo hi : Nat) (id : NodeId)
    (ids : List NodeId) (o : PObj) (os : PObjs) :
    reprChildren t lo hi (id :: ids) (.cons o os) =
      (reprObj t lo hi id o ∧ reprChildren t lo hi ids os) := by
  conv_lhs => rw [reprChildren]

theorem reprObj_mk_eq (t : List TreeNode) (lo hi : Nat) (id : NodeId)
    (ns : List (List SGFProperty)) (cs : PObjs) :
    reprObj t lo hi id (.mk ns cs) = reprRun t lo hi id ns cs := by
  unfold reprObj
  rfl

theorem reprChildren_cons_nil_eq (t : List TreeNode) (lo hi : Nat)
    (i : NodeId) (is : List NodeId) :
    reprChildren t lo hi (i :: is) .nil = False := by
  conv_lhs => rw [reprChildren]

theorem reprChildren_nil_cons_eq (t : List TreeNode) (lo hi : Nat)
    (o : PObj) (os : PObjs) :
    reprChildren t lo hi [] (.cons o os) = False := by
  conv_lhs => rw [reprChildren]

theorem reprChildren_nil_inv (t : List TreeNode) (lo hi : Nat)
    (ids : List NodeId) (h : reprChildren t lo hi ids .nil) : ids = [] := by
  cases ids with
  | nil => rfl
  | cons i is =>
    rw [reprChildren_cons_nil_eq] at h
    exact h.elim

theorem reprChildren_cons_inv (t : List TreeNode) (lo hi : Nat)
    (ids : List NodeId) (o : PObj) (os : PObjs)
    (h : reprChildren t lo hi ids (.cons o os)) :
    ∃ id ids', ids = id :: ids' := by
  cases ids with
  | nil =>
    rw [reprChildren_nil_cons_eq] at h
    exact h.elim
  | cons i is => exact ⟨i, is, rfl⟩

mutual
theorem reprRun_stable (t t' : List TreeNode) (lo hi : Nat) :
    ∀ (ns : List (List SGFProperty)) (cs : PObjs) (id : NodeId),
    reprRun t lo hi id ns cs → agreesOn t t' lo hi → reprRun t' lo hi id ns cs
  | [], cs2, i => fun h _ => False.elim (by rw [reprRun_nil_eq] at h; exact h)
  | [ps], cs, id => fun h hag => by
      rw [reprRun_one] at h ⊢
      obtain ⟨h1, h2, nd, hnd, hp, hch⟩ := h
      exact ⟨h1, h2, nd, by rw [hag id h1 h2]; exact hnd, hp,
        reprChildren_stable t t' lo hi cs nd.children hch hag⟩
  | ps :: ps2 :: rest, cs, id => fun h hag => by
      rw [reprRun_cons] at h ⊢
      obtain ⟨h1, h2, nd, id2, hnd, hp, hcc, hrest⟩ := h
      exact ⟨h1, h2, nd, id2, by rw [hag id h1 h2]; exact hnd, hp, hcc,
        reprRun_stable t t' lo hi (ps2 :: rest) cs id2 hrest hag⟩

theorem reprChildren_stable (t t' : List TreeNode) (lo hi : Nat) :
    ∀ (cs : PObjs) (ids : List NodeId),
    reprChildren t lo hi ids cs → agreesOn t t' lo hi →
    reprChildren t' lo hi ids cs
  | .nil, ids => fun h _ => by
      rw [reprChildren_nil_inv t lo hi ids h, reprChildren_nil_eq]
      trivial
  | .cons o os, ids => fun h hag => by
      obtain ⟨id, ids', rfl⟩ := reprChildren_cons_inv t lo hi ids o os h
      rw [reprChildren_cons_eq] at h ⊢
      obtain ⟨ho, hos⟩ := h
      cases o with
      | mk ns2 cs2 =>
        rw [reprObj_mk_eq] at ho ⊢
        exact ⟨reprRun_stable t t' lo hi ns2 cs2 id ho hag,
          reprChildren_stable t t' lo hi os ids' hos hag⟩
end

mutual
theorem reprRun_widen (t : List TreeNode) (lo hi lo' hi' : Nat)
    (hlo : lo' ≤ lo) (hhi : hi ≤ hi') :
    ∀ (ns : List (List SGFProperty)) (cs : PObjs) (id : NodeId),
    reprRun t lo hi id ns cs → reprRun t lo' hi' id ns cs
  | [], cs2, i => fun h => False.elim (by rw [reprRun_nil_eq] at h; exact h)
  | [ps], cs, id => fun h => by
      rw [reprRun_one] at h ⊢
      obtain ⟨h1, h2, nd, hnd, hp, hch⟩ := h
      exact ⟨Nat.le_trans hlo h1, Nat.lt_of_lt_of_le h2 hhi, nd, hnd, hp,
        reprChildren_widen t lo hi lo' hi' hlo hhi cs nd.children hch⟩
  | ps :: ps2 :: rest, cs, id => fun h => by
      rw [reprRun_cons] at h ⊢
      obtain ⟨h1, h2, nd, id2, hnd, hp, hcc, hrest⟩ := h
      exact ⟨Nat.le_trans hlo h1, Nat.lt_of_lt_of_le h2 hhi, nd, id2, hnd, hp,
        hcc, reprRun_widen t lo hi lo' hi' hlo hhi (ps2 :: rest) cs id2 hrest⟩

theorem reprChildren_widen (t : List TreeNode) (lo hi lo' hi' : Nat)
    (hlo : lo' ≤ lo) (hhi : hi ≤ hi') :
    ∀ (cs : PObjs) (ids : List NodeId),
    reprChildren t lo hi ids cs → reprChildren t lo' hi' ids cs
  | .nil, ids => fun h => by
      rw [reprChildren_nil_inv t lo hi ids h, reprChildren_nil_eq]
      trivial
  | .cons o os, ids => fun h => by
      obtain ⟨id, ids', rfl⟩ := reprChildren_cons_inv t lo hi ids o os h
      rw [reprChildren_cons_eq] at h ⊢
      obtain ⟨ho, hos⟩ := h
      cases o with
      | mk ns2 cs2 =>
        rw [reprObj_mk_eq] at ho ⊢
        exact ⟨reprRun_widen t lo hi lo' hi' hlo hhi ns2 cs2 id ho,
          reprChildren_widen t lo hi lo' hi' hlo hhi os ids' hos⟩
end


/-!  Reading the run block and rebuilding the representation. -/

theorem runBlock_get_inner :
    ∀ (ns : List (List SGFProperty)) (base : Nat) (par : Option NodeId)
      (j : Nat) (ps : List SGFProperty), ns.get? j = some ps →
      j + 1 < ns.length →
      ∃ pr, (runBlock base par ns).get? j = some ⟨ps, pr, [base + j + 1]⟩ := by
  intro ns
  induction ns with
  | nil =>
    intro base par j ps hget _
    simp at hget
  | cons ps0 rest ih =>
    intro base par j ps hget hlt
    cases rest with
    | nil => simp at hlt
    | cons ps1 rest2 =>
      cases j with
      | zero =>
        injection hget with hget
        subst hget
        exact ⟨par, rfl⟩
      | succ j' =>
        have hget' : (ps1 :: rest2).get? j' = some ps := hget
        have hlt' : j' + 1 < (ps1 :: rest2).length := by
          simp only [List.length_cons] at hlt ⊢
          omega
        obtain ⟨pr, hpr⟩ := ih (base + 1) (some base) j' ps hget' hlt'
        refine ⟨pr, ?_⟩
        show (runBlock (base + 1) (some base) (ps1 :: rest2)).get? j' = _
        rw [hpr]
        rw [show base + 1 + j' + 1 = base + (j' + 1) + 1 from by omega]

theorem runBlock_get_last :
    ∀ (ns : List (List SGFProperty)) (base : Nat) (par : Option NodeId)
      (ps : List SGFProperty), ns ≠ [] →
      ns.get? (ns.length - 1) = some ps →
      ∃ pr, (runBlock base par ns).get? (ns.length - 1) =
        some ⟨ps, pr, []⟩ := by
  intro ns
  induction ns with
  | nil => intro base par ps hne _; exact absurd rfl hne
  | cons ps0 rest ih =>
    intro base par ps _ hget
    cases rest with
    | nil =>
      injection hget with hget
      subst hget
      exact ⟨par, rfl⟩
    | cons ps1 rest2 =>
      have hlen : (ps0 :: ps1 :: rest2).length - 1 =
          ((ps1 :: rest2).length - 1) + 1 := by
        simp only [List.length_cons]
        omega
      rw [hlen] at hget ⊢
      have hget' : (ps1 :: rest2).get? ((ps1 :: rest2).length - 1) = some ps :=
        hget
      obtain ⟨pr, hpr⟩ := ih (base + 1) (some base) ps (by simp) hget'
      refine ⟨pr, ?_⟩
      show (runBlock (base + 1) (some base) (ps1 :: rest2)).get?
        ((ps1 :: rest2).length - 1) = _
      rw [hpr]

theorem reprRun_build :
    ∀ (ns : List (List SGFProperty)) (t : List TreeNode) (L lo hi : Nat)
      (cids : List NodeId) (cs : PObjs), ns ≠ [] → lo ≤ L →
      L + ns.length ≤ hi →
      (∀ j ps, ns.get? j = some ps → j + 1 < ns.length →
        ∃ pr, t.get? (L + j) = some ⟨ps, pr, [L + j + 1]⟩) →
      (∀ ps, ns.get? (ns.length - 1) = some ps →
        ∃ pr, t.get? (L + ns.length - 1) = some ⟨ps, pr, cids⟩) →
      reprChildren t lo hi cids cs →
      reprRun t lo hi L ns cs := by
  intro ns
  induction ns with
  | nil => intro t L lo hi cids cs hne _ _ _ _ _; exact absurd rfl hne
  | cons ps0 rest ih =>
    intro t L lo hi cids cs _ hlo hhi hinner hlast hch
    cases rest with
    | nil =>
      rw [reprRun_one]
      obtain ⟨pr, hpr⟩ := hlast ps0 rfl
      simp only [List.length_cons, List.length_nil] at hhi hpr
      refine ⟨hlo, Nat.lt_of_lt_of_le (Nat.lt_succ_self L) (by omega),
        ⟨ps0, pr, cids⟩, ?_, rfl, hch⟩
      simpa using hpr
    | cons ps1 rest2 =>
      rw [reprRun_cons]
      obtain ⟨pr, hpr⟩ := hinner 0 ps0 rfl (by
        simp only [List.length_cons]
        omega)
      refine ⟨hlo, Nat.lt_of_lt_of_le (Nat.lt_succ_self L) (by
        simp only [List.length_cons] at hhi
        omega), ⟨ps0, pr, [L + 0 + 1]⟩, L + 0 + 1, hpr, rfl, rfl, ?_⟩
      rw [show L + 0 + 1 = L + 1 from rfl]
      refine ih t (L + 1) lo hi cids cs (by simp) (by omega) (by
        simp only [List.length_cons] at hhi ⊢
        omega) ?_ ?_ hch
      · intro j ps hget hlt
        obtain ⟨pr2, hpr2⟩ := hinner (j + 1) ps hget (by
          simp only [List.length_cons] at hlt ⊢
          omega)
        refine ⟨pr2, ?_⟩
        rw [show L + 1 + j = L + (j + 1) from by omega]
        exact hpr2
      · intro ps hget
        obtain ⟨pr2, hpr2⟩ := hlast ps (by
          have : (ps0 :: ps1 :: rest2).length - 1 =
              ((ps1 :: rest2).length - 1) + 1 := by
            simp only [List.length_cons]
            omega
          rw [this]
          exact hget)
        refine ⟨pr2, ?_⟩
        rw [show L + 1 + (ps1 :: rest2).length - 1 =
          L + (ps0 :: ps1 :: rest2).length - 1 from by
            simp only [List.length_cons]
            omega]
        exact hpr2


/-!  Unfolding equations for ingestion. -/

theorem ingestObject_eq (arena : List TreeNode) (ns : List (List SGFProperty))
    (cs : PObjs) (par : Option NodeId) :
    ingestObject arena (.mk ns cs) par =
      (ingestObjects (ingestNodes arena par ns).1 cs
        (ingestNodes arena par ns).2.2,
       (ingestNodes arena par ns).2.1) := by
  conv_lhs => rw [ingestObject]

theorem ingestObjects_nil (arena : List TreeNode) (par : Option NodeId) :
    ingestObjects arena .nil par = arena := by
  conv_lhs => rw [ingestObjects]

theorem ingestObjects_cons (arena : List TreeNode) (o : PObj) (os : PObjs)
    (par : Option NodeId) :
    ingestObjects arena (.cons o os) par =
      ingestObjects (ingestObject arena o par).1 os par := by
  conv_lhs => rw [ingestObjects]

theorem objNodes_mk (ns : List (List SGFProperty)) (cs : PObjs) :
    objNodes (.mk ns cs) = ns.length + objsNodes cs := by
  conv_lhs => rw [objNodes]

theorem objsNodes_nil : objsNodes .nil = 0 := by
  conv_lhs => rw [objsNodes]

theorem objsNodes_cons (o : PObj) (os : PObjs) :
    objsNodes (.cons o os) = objNodes o + objsNodes os := by
  conv_lhs => rw [objsNodes]

theorem childStarts_nil (base : Nat) : childStarts base .nil = [] := rfl

theorem childStarts_cons (base : Nat) (o : PObj) (os : PObjs) :
    childStarts base (.cons o os) =
      base :: childStarts (base + objNodes o) os := rfl

theorem ingestNodes_spec (arena : List TreeNode) (par : Option NodeId)
    (ns : List (List SGFProperty)) (hne : ns ≠ [])
    (hpar : ∀ p, par = some p → p < arena.length) :
    ingestNodes arena par ns =
      (bump arena par arena.length ++ runBlock arena.length par ns,
       some arena.length, some (arena.length + ns.length - 1)) := by
  rw [ingestNodes_eq, ingestFold_spec ns arena none par hne hpar]
  rfl


/-- Recast an equality of node ids as an equality of naturals. -/
theorem nodeId_eq (a b : NodeId) (h : a = b) : (a : Nat) = (b : Nat) := h

/-- The heart of the ingestion proof: every object appends exactly its node
count, reports its first node id, leaves the existing arena untouched apart
from one child appended to the designated parent, and the appended block
represents the object. -/
theorem ingestSpec : ∀ n : Nat,
    (∀ o : PObj, sizeOf o ≤ n →
      ∀ (arena : List TreeNode) (par : Option NodeId),
      objRTb o = true → (∀ p : Nat, par = some p → p < arena.length) →
      (ingestObject arena o par).1.length = arena.length + objNodes o ∧
      (ingestObject arena o par).2 = some arena.length ∧
      (∀ i, i < arena.length → par ≠ some i →
        (ingestObject arena o par).1.get? i = arena.get? i) ∧
      (∀ (p : Nat) (nd : TreeNode), par = some p → arena.get? p = some nd →
        (ingestObject arena o par).1.get? p =
          some { nd with children := nd.children ++ [arena.length] }) ∧
      reprObj (ingestObject arena o par).1 arena.length
        (arena.length + objNodes o) arena.length o) ∧
    (∀ os : PObjs, sizeOf os ≤ n →
      ∀ (arena : List TreeNode) (par : Option NodeId),
      objsRTb os = true → (∀ p : Nat, par = some p → p < arena.length) →
      (ingestObjects arena os par).length = arena.length + objsNodes os ∧
      (∀ i, i < arena.length → par ≠ some i →
        (ingestObjects arena os par).get? i = arena.get? i) ∧
      (∀ (p : Nat) (nd : TreeNode), par = some p → arena.get? p = some nd →
        (ingestObjects arena os par).get? p =
          some { nd with children :=
            nd.children ++ childStarts arena.length os }) ∧
      reprChildren (ingestObjects arena os par) arena.length
        (arena.length + objsNodes os) (childStarts arena.length os) os) := by
  intro n
  induction n using Nat.strong_induction_on with
  | _ n ih =>
    constructor
    · intro o hsz arena par hrt hpar
      cases o with
      | mk ns cs =>
        rw [objRTb_mk, Bool.and_eq_true, Bool.and_eq_true] at hrt
        obtain ⟨⟨hne0, _hall⟩, hcs⟩ := hrt
        have hne : ns ≠ [] := by
          rw [Bool.not_eq_true'] at hne0
          exact List.isEmpty_eq_false.mp hne0
        have hnsl : 0 < ns.length := List.length_pos.mpr hne
        have hst := ingestNodes_spec arena par ns hne hpar
        have heq : ingestObject arena (.mk ns cs) par =
            (ingestObjects
              (bump arena par arena.length ++ runBlock arena.length par ns)
              cs (some (arena.length + ns.length - 1)),
             some arena.length) := by
          rw [ingestObject_eq, hst]
        have hszcs : sizeOf cs < n := by
          simp at hsz
          omega
        have hBlen : (bump arena par arena.length ++
            runBlock arena.length par ns).length =
            arena.length + ns.length := by
          rw [List.length_append, bump_length, runBlock_length]
        have hparB : ∀ p : Nat,
            (some (arena.length + ns.length - 1) : Option NodeId) = some p →
            p < (bump arena par arena.length ++
              runBlock arena.length par ns).length := by
          intro p hp
          injection hp with hp
          rw [hBlen, ← hp]
          omega
        obtain ⟨hOa, hOc, hOd, hOe⟩ :=
          (ih (sizeOf cs) hszcs |>.elim fun _ h => h) cs (Nat.le_refl _)
            (bump arena par arena.length ++ runBlock arena.length par ns)
            (some (arena.length + ns.length - 1)) hcs hparB
        refine ⟨?_, ?_, ?_, ?_, ?_⟩
        · rw [heq]
          dsimp only
          rw [hOa, hBlen, objNodes_mk]
          omega
        · rw [heq]
        · intro i hi hpari
          rw [heq]
          dsimp only
          rw [hOc i (by rw [hBlen]; omega) (by
            intro he
            injection he with he
            have hx : arena.length + ns.length - 1 = i := he
            omega)]
          rw [List.get?_append (by rw [bump_length]; omega)]
          exact bump_get?_ne arena par arena.length i hpari
        · intro p nd hp hnd
          subst hp
          rw [heq]
          dsimp only
          rw [hOc p (by
            rw [hBlen]
            exact Nat.lt_of_lt_of_le (hpar p rfl) (Nat.le_add_right _ _)) (by
            intro he
            injection he with he
            have hx : arena.length + ns.length - 1 = p := he
            have h4 := hpar p rfl
            omega)]
          rw [List.get?_append (by rw [bump_length]; exact hpar p rfl)]
          exact bump_get?_eq arena p arena.length nd hnd
        · rw [heq]
          dsimp only
          rw [reprObj_mk_eq, objNodes_mk]
          refine reprRun_build ns _ arena.length arena.length
            (arena.length + (ns.length + objsNodes cs))
            (childStarts (bump arena par arena.length ++
              runBlock arena.length par ns).length cs) cs hne
            (Nat.le_refl _) (by omega) ?_ ?_ ?_
          · intro j ps hget hlt
            obtain ⟨pr, hpr⟩ :=
              runBlock_get_inner ns arena.length par j ps hget hlt
            refine ⟨pr, ?_⟩
            rw [hOc (arena.length + j) (by rw [hBlen]; omega) (by
              intro he
              injection he with he
              have hx : arena.length + ns.length - 1 = arena.length + j := he
              omega)]
            rw [List.get?_append_right (by rw [bump_length]; omega)]
            rw [bump_length]
            rw [show arena.length + j - arena.length = j from by omega]
            exact hpr
          · intro ps hget
            obtain ⟨pr, hpr⟩ :=
              runBlock_get_last ns arena.length par ps hne hget
            refine ⟨pr, ?_⟩
            have hBlast : (bump arena par arena.length ++
                runBlock arena.length par ns).get?
                (arena.length + ns.length - 1) = some ⟨ps, pr, []⟩ := by
              rw [List.get?_append_right (by rw [bump_length]; omega)]
              rw [bump_length]
              rw [show arena.length + ns.length - 1 - arena.length =
                ns.length - 1 from by omega]
              exact hpr
            have hfin := hOd (arena.length + ns.length - 1) ⟨ps, pr, []⟩
              rfl hBlast
            simpa using hfin
          · refine reprChildren_widen _ (bump arena par arena.length ++
              runBlock arena.length par ns).length
              ((bump arena par arena.length ++
                runBlock arena.length par ns).length + objsNodes cs)
              arena.length (arena.length + (ns.length + objsNodes cs))
              (by rw [hBlen]; omega) (by rw [hBlen]; omega) cs _ hOe
    · intro os hsz arena par hrt hpar
      cases os with
      | nil =>
        refine ⟨?_, ?_, ?_, ?_⟩
        · rw [ingestObjects_nil, objsNodes_nil]
          omega
        · intro i _ _
          rw [ingestObjects_nil]
        · intro p nd hp hnd
          rw [ingestObjects_nil, childStarts_nil, hnd]
          cases nd
          simp
        · rw [ingestObjects_nil, childStarts_nil, reprChildren_nil_eq]
          trivial
      | cons o t =>
        rw [objsRTb_cons, Bool.and_eq_true] at hrt
        obtain ⟨hro, hrt2⟩ := hrt
        have hszo : sizeOf o < n := by
          simp at hsz
          omega
        have hszt : sizeOf t < n := by
          simp at hsz
          omega
        obtain ⟨hA, hB, hC, hD, hE⟩ :=
          (ih (sizeOf o) hszo).1 o (Nat.le_refl _) arena par hro hpar
        have hparA : ∀ p : Nat, par = some p →
            p < (ingestObject arena o par).1.length := by
          intro p hp
          have h2 := hpar p hp
          rw [hA]
          omega
        obtain ⟨hTa, hTc, hTd, hTe⟩ :=
          (ih (sizeOf t) hszt |>.elim fun _ h => h) t (Nat.le_refl _)
            (ingestObject arena o par).1 par hrt2 hparA
        rw [ingestObjects_cons]
        have hagree : agreesOn (ingestObject arena o par).1
            (ingestObjects (ingestObject arena o par).1 t par)
            arena.length (arena.length + objNodes o) := by
          intro i h1 h2
          refine hTc i (by rw [hA]; omega) ?_
          intro he
          have h3 := hpar i he
          omega
        refine ⟨?_, ?_, ?_, ?_⟩
        · rw [hTa, hA, objsNodes_cons]
          omega
        · intro i hi hpi
          rw [hTc i (by rw [hA]; omega) hpi]
          exact hC i hi hpi
        · intro p nd hp hnd
          have h1 := hD p nd hp hnd
          have h2 := hTd p _ hp h1
          rw [h2, hA, childStarts_cons]
          cases nd
          simp
        · rw [childStarts_cons, reprChildren_cons_eq]
          constructor
          · cases o with
            | mk ns2 cs2 =>
              rw [reprObj_mk_eq]
              rw [reprObj_mk_eq] at hE
              have hstab := reprRun_stable (ingestObject arena
                  (.mk ns2 cs2) par).1
                (ingestObjects (ingestObject arena (.mk ns2 cs2) par).1 t par)
                arena.length (arena.length + objNodes (PObj.mk ns2 cs2))
                ns2 cs2 arena.length hE hagree
              refine reprRun_widen _ arena.length
                (arena.length + objNodes (PObj.mk ns2 cs2)) arena.length
                (arena.length + objsNodes (PObjs.cons (PObj.mk ns2 cs2) t))
                (Nat.le_refl _) (by rw [objsNodes_cons]; omega)
                ns2 cs2 arena.length hstab
          · rw [hA] at hTe
            refine reprChildren_widen _ (arena.length + objNodes o)
              (arena.length + objNodes o + objsNodes t) arena.length
              (arena.length + objsNodes (PObjs.cons o t))
              (by omega) (by rw [objsNodes_cons]; omega) t _ hTe


/-!  The root loop and the shape of the final tree. -/

theorem ingestTop_nil (arena : List TreeNode) (roots : List NodeId) :
    ingestTop arena roots .nil = (arena, roots) := rfl

theorem ingestTop_spec :
    ∀ (objs : PObjs) (arena : List TreeNode) (roots : List NodeId),
      objsRTb objs = true →
      ingestTop arena roots objs =
        (ingestObjects arena objs none,
         roots ++ childStarts arena.length objs)
  | .nil => fun arena roots _ => by
      rw [ingestTop_nil, ingestObjects_nil, childStarts_nil, List.append_nil]
  | .cons o t => fun arena roots hrt => by
      rw [objsRTb_cons, Bool.and_eq_true] at hrt
      obtain ⟨hro, hrt2⟩ := hrt
      have hnopar : ∀ p : Nat, (none : Option NodeId) = some p →
          p < arena.length := by
        intro p hp
        cases hp
      have hB := ((ingestSpec (sizeOf o)).1 o (Nat.le_refl _) arena none
        hro hnopar).2.1
      have hA := ((ingestSpec (sizeOf o)).1 o (Nat.le_refl _) arena none
        hro hnopar).1
      have hstep : ingestTop arena roots (.cons o t) =
          (match ingestObject arena o none with
           | (ns, some rid) => ingestTop ns (roots ++ [rid]) t
           | (ns, none) => ingestTop ns roots t) := by
        conv_lhs => rw [ingestTop]
      rw [hstep]
      have hpair : ingestObject arena o none =
          ((ingestObject arena o none).1, some arena.length) := by
        rw [← hB]
      rw [hpair]
      dsimp only
      rw [ingestTop_spec t (ingestObject arena o none).1
        (roots ++ [arena.length]) hrt2]
      rw [ingestObjects_cons, childStarts_cons, hA, List.append_assoc]
      rfl

theorem ingest_shape (objs : PObjs) (h : objsRTb objs = true) :
    GameTree.ingest objs =
      ⟨ingestObjects [] objs none, childStarts 0 objs⟩ := by
  unfold GameTree.ingest
  rw [ingestTop_spec objs [] [] h]
  simp

theorem ingest_repr (objs : PObjs) (h : objsRTb objs = true) :
    (GameTree.ingest objs).nodes.length = objsNodes objs ∧
    (GameTree.ingest objs).roots = childStarts 0 objs ∧
    reprChildren (GameTree.ingest objs).nodes 0 (objsNodes objs)
      (childStarts 0 objs) objs := by
  have hnopar : ∀ p : Nat, (none : Option NodeId) = some p →
      p < ([] : List TreeNode).length := by
    intro p hp
    cases hp
  obtain ⟨ha, _, _, he⟩ := (ingestSpec (sizeOf objs) |>.elim fun _ h2 => h2)
    objs (Nat.le_refl _) [] none h hnopar
  rw [ingest_shape objs h]
  refine ⟨?_, rfl, ?_⟩
  · rw [ha]
    simp
  · simpa using he



/-!  The serializer on a represented tree prints the canonical body. -/

theorem strToList_empty : ("" : String).toList = [] := rfl

theorem strToList_lp : ("(" : String).toList = ['('] := rfl

theorem strToList_rp : (")" : String).toList = [')'] := rfl

theorem printEach_nil : printEach .nil = "" := rfl

theorem printChildren_nil_str : printChildren .nil = "" := rfl

theorem printChildren_single (c : PObj) :
    printChildren (.cons c .nil) = printPObj c := rfl

theorem runText_nil : runText [] = "" := rfl

theorem optBindSome {α β : Type} (a : α) (f : α → Option β) :
    Option.bind (some a) f = f a := rfl

theorem optSomeBind {α β : Type} (a : α) (f : α → Option β) :
    (some a >>= f) = f a := rfl

theorem optSomeMap {α β : Type} (a : α) (f : α → β) :
    (some a).map f = some (f a) := rfl

theorem write_node_succ (t : GameTree) (f : Nat) (id : NodeId) :
    write_node t (f + 1) id =
      (t.node? id).bind (fun nd =>
        match nd.children with
        | [] => (some "").bind (fun body => some (";" ++
            String.join (nd.properties.map SGFProperty.render) ++ body))
        | [c] => (write_node t f c).bind (fun body => some (";" ++
            String.join (nd.properties.map SGFProperty.render) ++ body))
        | cs => (cs.foldlM (fun acc c => (write_node t f c).map
            (fun s => acc ++ "(" ++ s ++ ")")) "").bind
            (fun body => some (";" ++
              String.join (nd.properties.map SGFProperty.render) ++ body))) :=
  rfl

theorem write_foldlM (t : GameTree) (f : Nat) (lo hi : Nat)
    (hW : ∀ (ns2 : List (List SGFProperty)) (cs2 : PObjs) (id2 : Nat),
      reprRun t.nodes lo hi id2 ns2 cs2 → objNodes (.mk ns2 cs2) ≤ f →
      write_node t f id2 = some (runText ns2 ++ printChildren cs2)) :
    ∀ (cs : PObjs) (ids : List NodeId) (acc : String),
      reprChildren t.nodes lo hi ids cs → objsNodes cs ≤ f →
      ids.foldlM (fun acc c => (write_node t f c).map
        (fun s => acc ++ "(" ++ s ++ ")")) acc =
      some (acc ++ printEach cs)
  | .nil => fun ids acc hch _ => by
      rw [reprChildren_nil_inv _ _ _ _ hch, List.foldlM_nil]
      refine congrArg some ?_
      apply strEq_of_toList
      simp only [printEach_nil, strToList_append, strToList_empty]
      simp
  | .cons c cs' => fun ids acc hch hsz => by
      obtain ⟨cid, ids', hids⟩ := reprChildren_cons_inv _ _ _ _ _ _ hch
      subst hids
      rw [reprChildren_cons_eq] at hch
      obtain ⟨ho, hos⟩ := hch
      rw [objsNodes_cons] at hsz
      rw [List.foldlM_cons]
      cases c with
      | mk ns2 cs2 =>
        rw [reprObj_mk_eq] at ho
        rw [hW ns2 cs2 cid ho (by rw [objNodes_mk] at hsz ⊢; omega)]
        show ids'.foldlM (fun acc c => (write_node t f c).map
          (fun s => acc ++ "(" ++ s ++ ")"))
          (acc ++ "(" ++ (runText ns2 ++ printChildren cs2) ++ ")") =
          some (acc ++ printEach (PObjs.cons (PObj.mk ns2 cs2) cs'))
        rw [write_foldlM t f lo hi hW cs' ids'
          (acc ++ "(" ++ (runText ns2 ++ printChildren cs2) ++ ")") hos
          (by omega)]
        refine congrArg some ?_
        apply strEq_of_toList
        simp only [strToList_append, printEach_cons_toList, printPObj_mk,
          strToList_lp, strToList_rp]
        simp

theorem writeK : ∀ fuel : Nat,
    ∀ (ns : List (List SGFProperty)) (cs : PObjs) (id : Nat) (t : GameTree)
      (lo hi : Nat),
    reprRun t.nodes lo hi id ns cs → ns.length + objsNodes cs ≤ fuel →
    write_node t fuel id = some (runText ns ++ printChildren cs) := by
  intro fuel
  induction fuel with
  | zero =>
    intro ns cs id t lo hi hrep hsz
    cases ns with
    | nil =>
      rw [reprRun_nil_eq] at hrep
      exact hrep.elim
    | cons ps rest =>
      simp only [List.length_cons] at hsz
      omega
  | succ f ihf =>
    intro ns cs id t lo hi hrep hsz
    cases ns with
    | nil =>
      rw [reprRun_nil_eq] at hrep
      exact hrep.elim
    | cons ps rest =>
      cases rest with
      | nil =>
        rw [reprRun_one] at hrep
        obtain ⟨h1, h2, nd, hnd, hps, hch⟩ := hrep
        have hnode : t.node? id = some nd := hnd
        rw [write_node_succ, hnode]
        simp only [optBindSome]
        cases cs with
        | nil =>
          rw [reprChildren_nil_inv _ _ _ _ hch]
          dsimp only
          rw [hps]
          refine congrArg some ?_
          apply strEq_of_toList
          simp only [strToList_append, runText_toList_cons, nodeText_toList,
            runText_nil, printChildren_nil_str, strToList_empty]
          simp
        | cons c cs' =>
          obtain ⟨cid, ids', hids⟩ := reprChildren_cons_inv _ _ _ _ _ _ hch
          rw [hids] at hch
          cases cs' with
          | nil =>
            rw [reprChildren_cons_eq] at hch
            obtain ⟨hobjc, hrest⟩ := hch
            have hids2 := reprChildren_nil_inv _ _ _ _ hrest
            subst hids2
            rw [hids]
            dsimp only
            cases c with
            | mk ns2 cs2 =>
              rw [reprObj_mk_eq] at hobjc
              rw [ihf ns2 cs2 cid t lo hi hobjc (by
                rw [objsNodes_cons, objNodes_mk, objsNodes_nil] at hsz
                simp only [List.length_cons, List.length_nil] at hsz
                omega)]
              simp only [optBindSome]
              rw [hps]
              refine congrArg some ?_
              apply strEq_of_toList
              simp only [strToList_append, runText_toList_cons,
                nodeText_toList, runText_nil, printChildren_single,
                printPObj_mk, strToList_empty]
              simp
          | cons c2 cs'' =>
            have hch2 := hch
            rw [reprChildren_cons_eq] at hch2
            obtain ⟨cid2, ids'', hids3⟩ :=
              reprChildren_cons_inv _ _ _ _ _ _ hch2.2
            rw [hids3] at hids hch
            rw [hids]
            dsimp only
            rw [write_foldlM t f lo hi (fun ns2 cs2 id2 hr hn =>
              ihf ns2 cs2 id2 t lo hi hr (by rw [objNodes_mk] at hn; exact hn))
              (PObjs.cons c (PObjs.cons c2 cs'')) (cid :: cid2 :: ids'') ""
              hch (by
                simp only [List.length_cons, List.length_nil] at hsz
                omega)]
            simp only [optBindSome]
            rw [hps]
            refine congrArg some ?_
            apply strEq_of_toList
            simp only [strToList_append, runText_toList_cons, nodeText_toList,
              runText_nil, printChildren_pair, strToList_empty]
            simp
      | cons ps2 rest2 =>
        rw [reprRun_cons] at hrep
        obtain ⟨h1, h2, nd, id2, hnd, hps, hcc, hrest⟩ := hrep
        have hnode : t.node? id = some nd := hnd
        rw [write_node_succ, hnode]
        simp only [optBindSome]
        rw [hcc]
        dsimp only
        rw [ihf (ps2 :: rest2) cs id2 t lo hi hrest (by
          simp only [List.length_cons] at hsz ⊢
          omega)]
        simp only [optBindSome]
        rw [hps]
        refine congrArg some ?_
        apply strEq_of_toList
        simp only [strToList_append, runText_toList_cons, nodeText_toList]
        simp

theorem write_game_eq (t : GameTree) (root : NodeId) :
    write_game t root = (write_node t (t.nodes.length + 1) root).bind
      (fun s => some ("(" ++ s ++ ")")) := rfl

theorem write_top :
    ∀ (objs : PObjs) (roots : List NodeId) (acc : String) (t : GameTree)
      (lo hi : Nat),
    reprChildren t.nodes lo hi roots objs → objsNodes objs ≤ t.nodes.length →
    roots.foldlM (fun acc2 r => (write_game t r).bind
      (fun s => some (acc2 ++ s))) acc = some (acc ++ printEach objs)
  | .nil => fun roots acc t lo hi hch _ => by
      rw [reprChildren_nil_inv _ _ _ _ hch, List.foldlM_nil]
      refine congrArg some ?_
      apply strEq_of_toList
      simp only [printEach_nil, strToList_append, strToList_empty]
      simp
  | .cons o os => fun roots acc t lo hi hch hsz => by
      obtain ⟨r, rs, hr⟩ := reprChildren_cons_inv _ _ _ _ _ _ hch
      subst hr
      rw [reprChildren_cons_eq] at hch
      obtain ⟨ho, hos⟩ := hch
      rw [objsNodes_cons] at hsz
      rw [List.foldlM_cons]
      cases o with
      | mk ns2 cs2 =>
        rw [reprObj_mk_eq] at ho
        rw [write_game_eq, writeK (t.nodes.length + 1) ns2 cs2 r t lo hi ho
          (by rw [objNodes_mk] at hsz; omega)]
        simp only [optBindSome, optSomeBind]
        rw [write_top os rs
          (acc ++ ("(" ++ (runText ns2 ++ printChildren cs2) ++ ")"))
          t lo hi hos (by omega)]
        refine congrArg some ?_
        apply strEq_of_toList
        simp only [strToList_append, printEach_cons_toList, printPObj_mk,
          strToList_lp, strToList_rp]
        simp

theorem printTop_eq (objs : PObjs) : printTop objs = printEach objs := rfl

theorem write_sgf_printTop (objs : PObjs) (h : objsRTb objs = true) :
    write_sgf (GameTree.ingest objs) = some (printTop objs) := by
  obtain ⟨hlen, hroots, hrep⟩ := ingest_repr objs h
  unfold write_sgf
  rw [hroots]
  rw [show (fun (acc : String) (r : NodeId) => do
      let s ← write_game (GameTree.ingest objs) r
      some (acc ++ s)) = (fun (acc2 : String) (r : NodeId) =>
      (write_game (GameTree.ingest objs) r).bind
        (fun s => some (acc2 ++ s))) from rfl]
  rw [write_top objs (childStarts 0 objs) "" (GameTree.ingest objs) 0
    (objsNodes objs) hrep (by rw [hlen])]
  refine congrArg some ?_
  apply strEq_of_toList
  rw [printTop_eq, strToList_append, strToList_empty]
  simp


/-!  Canonicalisation does not change the ingested tree. -/

theorem runBlock_append :
    ∀ (ns : List (List SGFProperty)) (A : List TreeNode) (base : Nat)
      (par : Option NodeId) (ns2 : List (List SGFProperty)),
      ns ≠ [] → ns2 ≠ [] → A.length = base →
      bump (A ++ runBlock base par ns) (some (base + ns.length - 1))
          (base + ns.length) ++
        runBlock (base + ns.length) (some (base + ns.length - 1)) ns2 =
      A ++ runBlock base par (ns ++ ns2) := by
  intro ns
  induction ns with
  | nil => intro A base par ns2 hne _ _; exact absurd rfl hne
  | cons ps rest ih =>
    intro A base par ns2 _ hns2 hA
    cases rest with
    | nil =>
      cases ns2 with
      | nil => exact absurd rfl hns2
      | cons q ns2' =>
        have h1 : base + ([ps] : List (List SGFProperty)).length - 1 =
            A.length := by
          simp only [List.length_cons, List.length_nil]
          omega
        have h2 : base + ([ps] : List (List SGFProperty)).length =
            A.length + 1 := by
          simp only [List.length_cons, List.length_nil]
          omega
        rw [h1, h2]
        have hrb1 : runBlock base par [ps] = [⟨ps, par, []⟩] := rfl
        rw [hrb1, bump_append_last A ⟨ps, par, []⟩ (A.length + 1)]
        have hrb2 : runBlock base par (ps :: q :: ns2') =
            ⟨ps, par, [base + 1]⟩ ::
              runBlock (base + 1) (some base) (q :: ns2') := rfl
        rw [show ([ps] : List (List SGFProperty)) ++ q :: ns2' =
          ps :: q :: ns2' from rfl, hrb2]
        rw [← hA, List.append_assoc]
        simp
    | cons q rest' =>
      have hrb : runBlock base par (ps :: q :: rest') =
          ⟨ps, par, [base + 1]⟩ ::
            runBlock (base + 1) (some base) (q :: rest') := rfl
      rw [hrb]
      rw [show A ++ (⟨ps, par, [base + 1]⟩ ::
          runBlock (base + 1) (some base) (q :: rest')) =
        (A ++ [⟨ps, par, [base + 1]⟩]) ++
          runBlock (base + 1) (some base) (q :: rest') from by
        rw [List.append_assoc]
        rfl]
      have hlen2 : (A ++ [(⟨ps, par, [base + 1]⟩ : TreeNode)]).length =
          base + 1 := by
        rw [List.length_append, hA]
        rfl
      have hidx1 : base + (ps :: q :: rest').length - 1 =
          base + 1 + (q :: rest').length - 1 := by
        simp only [List.length_cons]
        omega
      have hidx2 : base + (ps :: q :: rest').length =
          base + 1 + (q :: rest').length := by
        simp only [List.length_cons]
        omega
      rw [hidx1, hidx2]
      have hih := ih (A ++ [(⟨ps, par, [base + 1]⟩ : TreeNode)]) (base + 1)
        (some base) ns2 (by simp) hns2 hlen2
      rw [hih]
      have hrb3 : runBlock base par ((ps :: q :: rest') ++ ns2) =
          ⟨ps, par, [base + 1]⟩ ::
            runBlock (base + 1) (some base) ((q :: rest') ++ ns2) := rfl
      rw [show (ps :: q :: rest') ++ ns2 = ps :: ((q :: rest') ++ ns2) from
        rfl]
      rw [show runBlock base par (ps :: ((q :: rest') ++ ns2)) =
        ⟨ps, par, [base + 1]⟩ ::
          runBlock (base + 1) (some base) ((q :: rest') ++ ns2) from rfl]
      rw [List.append_assoc]
      rfl

theorem ingestCanon : ∀ n : Nat,
    (∀ o : PObj, sizeOf o ≤ n → objRTb o = true →
      ∀ (arena : List TreeNode) (par : Option NodeId),
      (∀ p : Nat, par = some p → p < arena.length) →
      ingestObject arena (canonPObj o) par = ingestObject arena o par) ∧
    (∀ os : PObjs, sizeOf os ≤ n → objsRTb os = true →
      ∀ (arena : List TreeNode) (par : Option NodeId),
      (∀ p : Nat, par = some p → p < arena.length) →
      ingestObjects arena (canonPObjs os) par =
        ingestObjects arena os par) := by
  intro n
  induction n using Nat.strong_induction_on with
  | _ n ih =>
    constructor
    · intro o hsz hrt arena par hpar
      cases o with
      | mk ns cs =>
        rw [objRTb_mk, Bool.and_eq_true, Bool.and_eq_true] at hrt
        obtain ⟨⟨hne0, _⟩, hcs⟩ := hrt
        have hne : ns ≠ [] := by
          rw [Bool.not_eq_true'] at hne0
          exact List.isEmpty_eq_false.mp hne0
        have hnsl : 0 < ns.length := List.length_pos.mpr hne
        cases cs with
        | nil =>
          have hc : canonPObj (PObj.mk ns .nil) = PObj.mk ns .nil := rfl
          rw [hc]
        | cons c cs' =>
          cases cs' with
          | nil =>
            rw [objsRTb_cons, Bool.and_eq_true] at hcs
            obtain ⟨hrtc, _⟩ := hcs
            have hcanrt := objRTb_canon c hrtc
            cases hcc : canonPObj c with
            | mk ns2 cs2 =>
              rw [hcc] at hcanrt
              rw [objRTb_mk, Bool.and_eq_true, Bool.and_eq_true] at hcanrt
              obtain ⟨⟨hne20, _⟩, _⟩ := hcanrt
              have hns2 : ns2 ≠ [] := by
                rw [Bool.not_eq_true'] at hne20
                exact List.isEmpty_eq_false.mp hne20
              have hszc : sizeOf c < n := by
                simp at hsz
                omega
              have hLHSred : canonPObj (PObj.mk ns (.cons c .nil)) =
                  PObj.mk (ns ++ ns2) cs2 := by
                have hred : canonPObj (PObj.mk ns (.cons c .nil)) =
                    (match canonPObj c with
                     | .mk a b => PObj.mk (ns ++ a) b) := rfl
                rw [hred, hcc]
              rw [hLHSred]
              have hBlen : (bump arena par arena.length ++
                  runBlock arena.length par ns).length =
                  arena.length + ns.length := by
                rw [List.length_append, bump_length, runBlock_length]
              have hparB : ∀ p : Nat,
                  (some (arena.length + ns.length - 1) : Option NodeId) =
                    some p →
                  p < (bump arena par arena.length ++
                    runBlock arena.length par ns).length := by
                intro p hp
                injection hp with hp
                rw [hBlen, ← hp]
                omega
              have hIH := (ih (sizeOf c) hszc).1 c (Nat.le_refl _) hrtc
                (bump arena par arena.length ++ runBlock arena.length par ns)
                (some (arena.length + ns.length - 1)) hparB
              rw [ingestObject_eq arena (ns ++ ns2) cs2 par,
                ingestObject_eq arena ns (.cons c .nil) par,
                ingestNodes_spec arena par (ns ++ ns2) (by
                  cases ns with
                  | nil => exact absurd rfl hne
                  | cons a b => simp) hpar,
                ingestNodes_spec arena par ns hne hpar]
              dsimp only
              rw [ingestObjects_cons, ingestObjects_nil]
              rw [← hIH, hcc,
                ingestObject_eq _ ns2 cs2 _,
                ingestNodes_spec _ _ ns2 hns2 hparB]
              dsimp only
              rw [hBlen]
              rw [runBlock_append ns (bump arena par arena.length)
                arena.length par ns2 hne hns2 (bump_length _ _ _)]
              rw [List.length_append, ← Nat.add_assoc]
          | cons c2 r =>
            rw [objsRTb_cons, Bool.and_eq_true] at hcs
            have hred : canonPObj (PObj.mk ns (.cons c (.cons c2 r))) =
                PObj.mk ns (.cons (canonPObj c)
                  (.cons (canonPObj c2) (canonPObjs r))) := rfl
            rw [hred]
            have hcanons : PObjs.cons (canonPObj c)
                (.cons (canonPObj c2) (canonPObjs r)) =
                canonPObjs (PObjs.cons c (PObjs.cons c2 r)) := rfl
            rw [hcanons]
            rw [ingestObject_eq arena ns _ par, ingestObject_eq arena ns _ par]
            rw [ingestNodes_spec arena par ns hne hpar]
            dsimp only
            have hparB : ∀ p : Nat,
                (some (arena.length + ns.length - 1) : Option NodeId) =
                  some p →
                p < (bump arena par arena.length ++
                  runBlock arena.length par ns).length := by
              intro p hp
              injection hp with hp
              rw [List.length_append, bump_length, runBlock_length, ← hp]
              omega
            have hszcs : sizeOf (PObjs.cons c (PObjs.cons c2 r)) < n := by
              simp at hsz ⊢
              omega
            rw [(ih (sizeOf (PObjs.cons c (PObjs.cons c2 r))) hszcs |>.elim
              fun _ h => h) (PObjs.cons c (PObjs.cons c2 r)) (Nat.le_refl _)
              (by
                rw [objsRTb_cons, Bool.and_eq_true]
                exact hcs)
              (bump arena par arena.length ++ runBlock arena.length par ns)
              (some (arena.length + ns.length - 1)) hparB]
    · intro os hsz hrt arena par hpar
      cases os with
      | nil =>
        have h : canonPObjs PObjs.nil = PObjs.nil := rfl
        rw [h]
      | cons o t =>
        rw [objsRTb_cons, Bool.and_eq_true] at hrt
        obtain ⟨hro, hrt2⟩ := hrt
        have hred : canonPObjs (PObjs.cons o t) =
            PObjs.cons (canonPObj o) (canonPObjs t) := rfl
        rw [hred, ingestObjects_cons, ingestObjects_cons]
        have hszo : sizeOf o < n := by
          simp at hsz
          omega
        have hszt : sizeOf t < n := by
          simp at hsz
          omega
        rw [(ih (sizeOf o) hszo).1 o (Nat.le_refl _) hro arena par hpar]
        have hlen := ((ingestSpec (sizeOf o)).1 o (Nat.le_refl _) arena par
          hro hpar).1
        refine (ih (sizeOf t) hszt |>.elim fun _ h => h) t (Nat.le_refl _)
          hrt2 (ingestObject arena o par).1 par ?_
        intro p hp
        have h2 := hpar p hp
        rw [hlen]
        omega

theorem ingestTop_canon :
    ∀ (objs : PObjs) (arena : List TreeNode) (roots : List NodeId),
      objsRTb objs = true →
      ingestTop arena roots (canonPObjs objs) = ingestTop arena roots objs
  | .nil => fun arena roots _ => rfl
  | .cons o t => fun arena roots hrt => by
      rw [objsRTb_cons, Bool.and_eq_true] at hrt
      obtain ⟨hro, hrt2⟩ := hrt
      have hred : canonPObjs (PObjs.cons o t) =
          PObjs.cons (canonPObj o) (canonPObjs t) := rfl
      rw [hred]
      have hstep : ∀ (X : PObj) (Y : PObjs),
          ingestTop arena roots (.cons X Y) =
            (match ingestObject arena X none with
             | (ns, some rid) => ingestTop ns (roots ++ [rid]) Y
             | (ns, none) => ingestTop ns roots Y) := by
        intro X Y
        conv_lhs => rw [ingestTop]
      rw [hstep, hstep]
      rw [(ingestCanon (sizeOf o)).1 o (Nat.le_refl _) hro arena none
        (by intro p hp; cases hp)]
      cases hio : ingestObject arena o none with
      | mk ns fid =>
        cases fid with
        | none =>
          dsimp only
          exact ingestTop_canon t ns roots hrt2
        | some rid =>
          dsimp only
          exact ingestTop_canon t ns (roots ++ [rid]) hrt2

theorem ingest_canon (objs : PObjs) (h : objsRTb objs = true) :
    GameTree.ingest (canonPObjs objs) = GameTree.ingest objs := by
  unfold GameTree.ingest
  rw [ingestTop_canon objs [] [] h]


/-- C1 (corrected): for every tree `parse_sgf` produces — every successful
structural parse `objs` — whose stored property values satisfy the
round-trip side conditions `objsRTb` (nonempty `AB`/`AW` lists of on-grid
coordinates, komi other than `-0.5`, bracket-free texts, uppercase unknown
keys distinct from the known tags), serialization with `write_sgf`
succeeds, and re-parsing the serialized text returns the identical arena
tree: the same roots, the same nodes, the same property values in order,
and the same child ordering.  Without the side conditions the round trip
can change a value or fail to re-parse (see the counterexample). -/
theorem C1_parse_serialize_roundtrip (s : String) (objs : PObjs)
    (hparse : parseFile s.toList = .ok objs) (hrt : objsRTb objs = true) :
    parse_sgf s = .ok (GameTree.ingest objs) ∧
    write_sgf (GameTree.ingest objs) = some (printTop objs) ∧
    parse_sgf (printTop objs) = .ok (GameTree.ingest objs) := by
  refine ⟨?_, write_sgf_printTop objs hrt, ?_⟩
  · unfold parse_sgf
    rw [hparse]
  · unfold parse_sgf
    rw [parseFile_printTop objs hrt]
    dsimp only
    rw [ingest_canon objs hrt]

/-- Witness: a concrete game record with a black move and two variations
satisfies the hypotheses, and the round trip reproduces its tree. -/
theorem C1_parse_serialize_roundtrip_witness :
    parseFile ("(;B[ab](;)(;))" : String).toList =
      .ok (.cons (.mk [[SGFProperty.B ⟨32⟩]]
        (.cons (.mk [[]] .nil) (.cons (.mk [[]] .nil) .nil))) .nil) ∧
    objsRTb (.cons (.mk [[SGFProperty.B ⟨32⟩]]
        (.cons (.mk [[]] .nil) (.cons (.mk [[]] .nil) .nil))) .nil) = true ∧
    (parse_sgf "(;B[ab](;)(;))" = .ok (GameTree.ingest
      (.cons (.mk [[SGFProperty.B ⟨32⟩]]
        (.cons (.mk [[]] .nil) (.cons (.mk [[]] .nil) .nil))) .nil)) ∧
     write_sgf (GameTree.ingest (.cons (.mk [[SGFProperty.B ⟨32⟩]]
        (.cons (.mk [[]] .nil) (.cons (.mk [[]] .nil) .nil))) .nil)) =
       some (printTop (.cons (.mk [[SGFProperty.B ⟨32⟩]]
        (.cons (.mk [[]] .nil) (.cons (.mk [[]] .nil) .nil))) .nil)) ∧
     parse_sgf (printTop (.cons (.mk [[SGFProperty.B ⟨32⟩]]
        (.cons (.mk [[]] .nil) (.cons (.mk [[]] .nil) .nil))) .nil)) =
       .ok (GameTree.ingest (.cons (.mk [[SGFProperty.B ⟨32⟩]]
        (.cons (.mk [[]] .nil) (.cons (.mk [[]] .nil) .nil))) .nil))) :=
  ⟨rfl, rfl, C1_parse_serialize_roundtrip "(;B[ab](;)(;))"
    (.cons (.mk [[SGFProperty.B ⟨32⟩]]
      (.cons (.mk [[]] .nil) (.cons (.mk [[]] .nil) .nil))) .nil) rfl rfl⟩

/-- Counterexample to the unconditional claim: `KM[-0.5]` parses to komi
value `-1` (half points), serializes through truncating integer division
to the text `KM[0.5]`, and re-parsing that text yields komi value `1` —
the re-parsed tree differs from the original in a stored property value. -/
theorem C1_parse_serialize_roundtrip_counterexample :
    parse_sgf "(;KM[-0.5])" =
      .ok ⟨[⟨[SGFProperty.KM ⟨-1⟩], none, []⟩], [0]⟩ ∧
    write_sgf (⟨[⟨[SGFProperty.KM ⟨-1⟩], none, []⟩], [0]⟩ : GameTree) =
      some "(;KM[0.5])" ∧
    parse_sgf "(;KM[0.5])" =
      .ok ⟨[⟨[SGFProperty.KM ⟨1⟩], none, []⟩], [0]⟩ ∧
    Komi.mk 1 ≠ Komi.mk (-1) :=
  ⟨rfl, rfl, rfl, by decide⟩

/-- C2 (corrected): a malformed value for the known single-value tags
`B`, `W`, `SZ`, `FF`, `GM`, `KM` makes the property interpreter fail with
the decoder's own error, which the parser propagates, aborting the whole
parse — but a malformed coordinate inside an `AB`/`AW` value list is
silently dropped: interpretation of `AB`/`AW` always succeeds, keeping
only the well-formed coordinates. -/
theorem C2_malformed_value_handling :
    (∀ (v : String) (vs : List String) (e : Err),
      GoCoord.fromString v = .error e →
      interpProp "B" (v :: vs) = .error e) ∧
    (∀ (v : String) (vs : List String) (e : Err),
      GoCoord.fromString v = .error e →
      interpProp "W" (v :: vs) = .error e) ∧
    (∀ (v : String) (vs : List String) (e : Err),
      parseU8 v = .error e →
      interpProp "SZ" (v :: vs) = .error e) ∧
    (∀ (v : String) (vs : List String) (e : Err),
      FileFormat.fromString v = .error e →
      interpProp "FF" (v :: vs) = .error e) ∧
    (∀ (v : String) (vs : List String) (e : Err),
      GameType.fromString v = .error e →
      interpProp "GM" (v :: vs) = .error e) ∧
    (∀ (v : String) (vs : List String) (e : Err),
      Komi.fromString v = .error e →
      interpProp "KM" (v :: vs) = .error e) ∧
    (∀ values : List String, interpProp "AB" values =
      .ok (.AB (values.filterMap (fun v => (GoCoord.fromString v).toOption)))) ∧
    (∀ values : List String, interpProp "AW" values =
      .ok (.AW (values.filterMap (fun v => (GoCoord.fromString v).toOption)))) := by
  refine ⟨?_, ?_, ?_, ?_, ?_, ?_, ?_, ?_⟩
  · intro v vs e he
    have h1 : interpProp "B" (v :: vs) =
        (GoCoord.fromString v).map SGFProperty.B := rfl
    rw [h1, he]
    rfl
  · intro v vs e he
    have h1 : interpProp "W" (v :: vs) =
        (GoCoord.fromString v).map SGFProperty.W := rfl
    rw [h1, he]
    rfl
  · intro v vs e he
    have h1 : interpProp "SZ" (v :: vs) =
        (parseU8 v).map SGFProperty.SZ := rfl
    rw [h1, he]
    rfl
  · intro v vs e he
    have h1 : interpProp "FF" (v :: vs) =
        (FileFormat.fromString v).map SGFProperty.FF := rfl
    rw [h1, he]
    rfl
  · intro v vs e he
    have h1 : interpProp "GM" (v :: vs) =
        (GameType.fromString v).map SGFProperty.GM := rfl
    rw [h1, he]
    rfl
  · intro v vs e he
    have h1 : interpProp "KM" (v :: vs) =
        (Komi.fromString v).map SGFProperty.KM := rfl
    rw [h1, he]
    rfl
  · intro values
    rfl
  · intro values
    rfl

/-- Witness: the out-of-range coordinate `zz` makes the coordinate decoder
fail, and the interpreter propagates that error for a black move. -/
theorem C2_malformed_value_handling_witness :
    GoCoord.fromString "zz" =
      .error ⟨"Invalid Go coordinate: first char", "z"⟩ ∧
    interpProp "B" ["zz"] =
      .error ⟨"Invalid Go coordinate: first char", "z"⟩ :=
  ⟨rfl, C2_malformed_value_handling.1 "zz" []
    ⟨"Invalid Go coordinate: first char", "z"⟩ rfl⟩

/-- Counterexample to the original claim: the same malformed coordinate
`zz` inside an `AB` value does not abort the parse — `parse_sgf` returns a
tree whose `AB` property has the malformed value silently dropped. -/
theorem C2_malformed_value_handling_counterexample :
    GoCoord.fromString "zz" =
      .error ⟨"Invalid Go coordinate: first char", "z"⟩ ∧
    parse_sgf "(;AB[zz])" =
      .ok ⟨[⟨[SGFProperty.AB []], none, []⟩], [0]⟩ :=
  ⟨rfl, rfl⟩

end Tesuji
